import Mathlib

/-!
# Solar panel tracker (rl.cpp): control loop

A shallow embedding of the hill-climbing control loop of `rl.cpp`.

* The two globals the control loop mutates, `prevAngle` (the tilt angle the
  spec calls `tiltAngle`) and `previousV`, are fields of `State`.
* The hardware is a pair of lists inside `State`: `input` holds the samples
  that `analogRead(trackerInputPort)` will deliver, in order, and `trace`
  records every servo command, every `delay` and every sample read, in the
  order the program performs them.  A read from an exhausted `input` has no
  result (`none`), and so has every function that needed the sample.
* `analogRead` delivers values of a 10-bit converter, so samples are natural
  numbers; they enter the arithmetic as `int`.  The C `int` values are
  modelled by `Int`.  A reward is the difference of a sample and of
  `previousV`, which on the device is 0 or an earlier sample, so it cannot
  overflow 16 bits; `prevAngle` moves 3 degrees per accepted sample and would
  need thousands of steps to leave the 16-bit range.
* The `do ... while` loops carry a fuel argument.  Every iteration reads one
  sample (or, in `exploitRL`, at least two), so the callers pass the number
  of samples left, which is never the reason a loop stops early.
* Output to the serial monitor (`debugMsg`, `debugReward`, ...) changes no
  state and is left out.
-/

namespace SolarPanel

/-! ## Hardware events and program state -/

/-- One observable hardware interaction. -/
inductive Event where
  /-- The call `tiltServo.write(angle)`. -/
  | tiltWrite (angle : Int)
  /-- The call `baseServo.write(angle)`. -/
  | baseWrite (angle : Int)
  /-- The call `delay(ms)`. -/
  | delay (ms : Int)
  /-- The call `analogRead(trackerInputPort)` together with the value it returned. -/
  | trackerRead (value : Int)
  deriving DecidableEq, Repr

/-- The globals of `rl.cpp` that change at run time, and the hardware. -/
structure State where
  /-- Global `prevAngle`: the tilt angle last commanded. -/
  prevAngle : Int
  /-- Global `previousV`: reading for the last exploited orientation. -/
  previousV : Int
  /-- Samples the tracker port has yet to deliver. -/
  input : List Nat
  /-- Hardware interactions so far, oldest first. -/
  trace : List Event
  deriving DecidableEq, Repr

/-! ## Constants (rl.cpp lines 26-40) -/

/-- Global `tiltIncrAngle`. -/
def tiltIncrAngle : Int := 3

/-- Global `baseIncrDelay`. -/
def baseIncrDelay : Int := 50

/-- Global `sweepTiltAngleRange`. -/
def sweepTiltAngleRange : Int := 30

/-- Global `sweepTiltIncrAngle`. -/
def sweepTiltIncrAngle : Int := 6

/-- Global `trackerNewPositionSettleDelay`. -/
def trackerNewPositionSettleDelay : Int := 1500

/-! ## Hardware primitives -/

/-- The call `tiltServo.write(angle)`. -/
def tiltServoWrite (angle : Int) (s : State) : State :=
  { s with trace := s.trace ++ [Event.tiltWrite angle] }

/-- The call `baseServo.write(angle)`. -/
def baseServoWrite (angle : Int) (s : State) : State :=
  { s with trace := s.trace ++ [Event.baseWrite angle] }

/-- The call `delay(ms)`. -/
def delay (ms : Int) (s : State) : State :=
  { s with trace := s.trace ++ [Event.delay ms] }

/-- The call `analogRead(trackerInputPort)`: the next sample, if there is one. -/
def analogRead (s : State) : Option (Int × State) :=
  match s.input with
  | [] => none
  | v :: rest =>
    some ((v : Int), { s with input := rest, trace := s.trace ++ [Event.trackerRead (v : Int)] })

/-! ## Actuator actions (rl.cpp lines 110-168) -/

/-- Source `tiltCwAction`. -/
def tiltCwAction (s : State) : State :=
  let s1 := tiltServoWrite (s.prevAngle + tiltIncrAngle) s
  { s1 with prevAngle := s1.prevAngle + tiltIncrAngle }

/-- Source `tiltCcwAction`. -/
def tiltCcwAction (s : State) : State :=
  let s1 := tiltServoWrite (s.prevAngle - tiltIncrAngle) s
  { s1 with prevAngle := s1.prevAngle - tiltIncrAngle }

/-- Source `baseCwAction`. -/
def baseCwAction (s : State) : State :=
  baseServoWrite 90 (delay baseIncrDelay (baseServoWrite 20 s))

/-- Source `baseCcwAction`. -/
def baseCcwAction (s : State) : State :=
  baseServoWrite 90 (delay baseIncrDelay (baseServoWrite 150 s))

/-- Source `backoutTiltCwAction`. -/
def backoutTiltCwAction (s : State) : State := tiltCcwAction s

/-- Source `backoutTiltCcwAction`. -/
def backoutTiltCcwAction (s : State) : State := tiltCwAction s

/-- Source `backoutBaseCwAction`. -/
def backoutBaseCwAction (s : State) : State := baseCcwAction s

/-- Source `backoutBaseCcwAction`. -/
def backoutBaseCcwAction (s : State) : State := baseCwAction s

/-- Source `compositeAction`: `baseCwAction` then `tiltCwAction`. -/
def compositeAction (s : State) : State := tiltCwAction (baseCwAction s)

/-- Source `backoutCompositeAction`: `tiltCcwAction` then `baseCcwAction`. -/
def backoutCompositeAction (s : State) : State := baseCcwAction (tiltCcwAction s)

/-! ## Reward (rl.cpp lines 210-222) -/

/-- Source `calculateReward`: settle, sample, compare with `previousV`, and
keep the sample as the new `previousV` when the reward is positive. -/
def calculateReward (s : State) : Option (Int × State) :=
  match analogRead (delay trackerNewPositionSettleDelay s) with
  | none => none
  | some (currentV, s1) =>
    let reward := currentV - s1.previousV
    if reward > 0 then some (reward, { s1 with previousV := currentV })
    else some (reward, s1)

/-! ## Sweep (rl.cpp lines 172-207) -/

/-- First `for` loop of `sweepAction`, entered at the loop test with loop
variable `da`.  The local `maxAngle` has no initial value in the source and is
`none` until its first assignment. -/
def sweepCwLoop (curAngle : Int) : Nat → Int → Int → Option Int → State →
    Option (Int × Option Int × State)
  | 0, _, _, _, _ => none
  | fuel + 1, da, maxV, maxAngle, s =>
    if da ≤ sweepTiltAngleRange then
      match analogRead (delay trackerNewPositionSettleDelay (tiltServoWrite (curAngle + da) s)) with
      | none => none
      | some (curV, s1) =>
        if curV > maxV then
          sweepCwLoop curAngle fuel (da + sweepTiltIncrAngle) curV (some (curAngle + da)) s1
        else
          sweepCwLoop curAngle fuel (da + sweepTiltIncrAngle) maxV maxAngle s1
    else some (maxV, maxAngle, s)

/-- Second `for` loop of `sweepAction`, entered at the loop test. -/
def sweepCcwLoop (curAngle : Int) : Nat → Int → Int → Option Int → State →
    Option (Int × Option Int × State)
  | 0, _, _, _, _ => none
  | fuel + 1, da, maxV, maxAngle, s =>
    if da ≤ sweepTiltAngleRange then
      match analogRead (delay trackerNewPositionSettleDelay (tiltServoWrite (curAngle - da) s)) with
      | none => none
      | some (curV, s1) =>
        if curV > maxV then
          sweepCcwLoop curAngle fuel (da + sweepTiltIncrAngle) curV (some (curAngle - da)) s1
        else
          sweepCcwLoop curAngle fuel (da + sweepTiltIncrAngle) maxV maxAngle s1
    else some (maxV, maxAngle, s)

/-- Loop tests one `for` loop of `sweepAction` performs: one per pass through
the body and the final failing one. -/
def sweepFuel : Nat := (sweepTiltAngleRange / sweepTiltIncrAngle).toNat + 2

/-- Source `sweepAction`.  Reading `maxAngle` before any assignment has no
defined result. -/
def sweepAction (s : State) : Option State :=
  let curAngle := s.prevAngle
  match sweepCwLoop curAngle sweepFuel 0 (-1) none s with
  | none => none
  | some (maxV1, maxAngle1, s1) =>
    match sweepCcwLoop curAngle sweepFuel 0 maxV1 maxAngle1 s1 with
    | none => none
    | some (_, none, _) => none
    | some (maxV, some maxAngle, s2) =>
      let s3 := tiltServoWrite maxAngle s2
      some { s3 with prevAngle := maxAngle, previousV := maxV }

/-! ## Axis exploiters (rl.cpp lines 227-297) -/

/-- The loop `do { tiltCwAction(); reward = calculateReward(); } while (reward > 0)`. -/
def tiltCwLoop : Nat → State → Option State
  | 0, _ => none
  | fuel + 1, s =>
    match calculateReward (tiltCwAction s) with
    | none => none
    | some (reward, s1) => if reward > 0 then tiltCwLoop fuel s1 else some s1

/-- The loop `do { tiltCcwAction(); reward = calculateReward(); count++; } while (reward > 0)`;
the result carries the final `count`. -/
def tiltCcwLoop : Nat → Int → State → Option (Int × State)
  | 0, _, _ => none
  | fuel + 1, count, s =>
    match calculateReward (tiltCcwAction s) with
    | none => none
    | some (reward, s1) =>
      if reward > 0 then tiltCcwLoop fuel (count + 1) s1 else some (count + 1, s1)

/-- Source `exploitTiltAngle`. -/
def exploitTiltAngle (s : State) : Option (Bool × State) :=
  match calculateReward (tiltCwAction s) with
  | none => none
  | some (reward, s1) =>
    if reward > 0 then
      match tiltCwLoop s1.input.length s1 with
      | none => none
      | some s2 => some (true, backoutTiltCwAction s2)
    else
      let s2 := backoutTiltCwAction s1
      match tiltCcwLoop s2.input.length 0 s2 with
      | none => none
      | some (count, s3) =>
        let s4 := backoutTiltCcwAction s3
        if count = 1 then some (false, s4) else some (true, s4)

/-- The loop `do { baseCwAction(); reward = calculateReward(); } while (reward > 0)`. -/
def baseCwLoop : Nat → State → Option State
  | 0, _ => none
  | fuel + 1, s =>
    match calculateReward (baseCwAction s) with
    | none => none
    | some (reward, s1) => if reward > 0 then baseCwLoop fuel s1 else some s1

/-- The loop `do { baseCcwAction(); reward = calculateReward(); count++; } while (reward > 0)`;
the result carries the final `count`. -/
def baseCcwLoop : Nat → Int → State → Option (Int × State)
  | 0, _, _ => none
  | fuel + 1, count, s =>
    match calculateReward (baseCcwAction s) with
    | none => none
    | some (reward, s1) =>
      if reward > 0 then baseCcwLoop fuel (count + 1) s1 else some (count + 1, s1)

/-- Source `exploitBaseAngle`. -/
def exploitBaseAngle (s : State) : Option (Bool × State) :=
  match calculateReward (baseCwAction s) with
  | none => none
  | some (reward, s1) =>
    if reward > 0 then
      match baseCwLoop s1.input.length s1 with
      | none => none
      | some s2 => some (true, backoutBaseCwAction s2)
    else
      let s2 := backoutBaseCwAction s1
      match baseCcwLoop s2.input.length 0 s2 with
      | none => none
      | some (count, s3) =>
        let s4 := backoutBaseCcwAction s3
        if count = 1 then some (false, s4) else some (true, s4)

/-! ## Coordinator, exploration and cycle driver (rl.cpp lines 305-366) -/

/-- The `do ... while (baseReturnValue)` loop of `exploitRL`, with the local
`newAngle` as an argument. -/
def exploitRLLoop : Nat → Bool → State → Option (Bool × State)
  | 0, _, _ => none
  | fuel + 1, newAngle, s =>
    match exploitTiltAngle s with
    | none => none
    | some (tiltReturnValue, s1) =>
      let newAngle1 := if tiltReturnValue then true else newAngle
      match exploitBaseAngle s1 with
      | none => none
      | some (baseReturnValue, s2) =>
        let newAngle2 := if baseReturnValue then true else newAngle1
        if baseReturnValue then exploitRLLoop fuel newAngle2 s2 else some (newAngle2, s2)

/-- Source `exploitRL`. -/
def exploitRL (s : State) : Option (Bool × State) :=
  exploitRLLoop s.input.length false s

/-- Source `exploreRL`. -/
def exploreRL (s : State) : Option State :=
  match calculateReward (compositeAction s) with
  | none => none
  | some (reward, s1) =>
    if reward > 0 then
      match exploitRL s1 with
      | none => none
      | some (_, s2) => some s2
    else sweepAction (backoutCompositeAction s1)

/-- Source `executeRL`. -/
def executeRL (s : State) : Option State :=
  match analogRead (delay trackerNewPositionSettleDelay s) with
  | none => none
  | some (v, s1) =>
    let s2 := { s1 with previousV := v }
    match exploitRL s2 with
    | none => none
    | some (r, s3) => if !r then exploreRL s3 else some s3

/-! ## Calibration and cycle period (rl.cpp lines 46-60, 372-410)

`float` arithmetic is read over the rationals.  A table read outside the
fourteen entries and a division by zero have no result. -/

/-- Global `trackerDigitalInt`. -/
def trackerDigitalInt : List Int := [3, 4, 7, 10, 16, 34, 65, 129, 297, 569, 665, 727, 797, 827]

/-- Global `trackerAnalogOpenV`. -/
def trackerAnalogOpenV : List ℚ :=
  [4.02, 5.01, 6.01, 7.02, 8.00, 9.05, 10.01, 11.01, 12.01, 12.99, 14.01, 14.99, 16.02, 16.51]

/-- Global `baselineDigitalInt`. -/
def baselineDigitalInt : List Int :=
  [15, 22, 29, 44, 68, 99, 140, 250, 436, 601, 691, 748, 806, 838]

/-- Global `baselineAnalogOpenV`. -/
def baselineAnalogOpenV : List ℚ :=
  [4.04, 5.02, 6.00, 7.01, 8.01, 9.00, 10.01, 11.00, 12.01, 12.97, 14.00, 15.00, 16.01, 16.50]

/-- The loop `for (i = 0; i < 14; i++) { if (digitalV <= digitalInt[i]) break; }`
of both conversion functions, entered at the loop test with loop variable
`i`; the result is the value of `i` after the loop. -/
def breakpointLoop (digitalInt : List Int) (digitalV : Int) : Nat → Nat → Option Nat
  | 0, _ => none
  | fuel + 1, i =>
    if i < 14 then
      match digitalInt[i]? with
      | none => none
      | some b =>
        if digitalV ≤ b then some i else breakpointLoop digitalInt digitalV fuel (i + 1)
    else some i

/-- Body of `convertTrackerV` and of `convertBaselineV`, which differ only in
the two tables they read. -/
def interpolate (digitalInt : List Int) (analogOpenV : List ℚ) (digitalV : Int) : Option ℚ :=
  match breakpointLoop digitalInt digitalV 15 0 with
  | none => none
  | some i =>
    if i = 0 then analogOpenV[0]?
    else if i = 14 then analogOpenV[13]?
    else
      match analogOpenV[i]?, analogOpenV[i - 1]?, digitalInt[i]?, digitalInt[i - 1]? with
      | some vi, some vp, some di, some dp =>
        if di - dp = 0 then none
        else
          let ratio : ℚ := (vi - vp) / ((di - dp : Int) : ℚ)
          some (vp + ratio * ((digitalV - dp : Int) : ℚ))
      | _, _, _, _ => none

/-- Source `convertTrackerV`. -/
def convertTrackerV (digitalV : Int) : Option ℚ :=
  interpolate trackerDigitalInt trackerAnalogOpenV digitalV

/-- Source `convertBaselineV`. -/
def convertBaselineV (digitalV : Int) : Option ℚ :=
  interpolate baselineDigitalInt baselineAnalogOpenV digitalV

/-- Value a C `int` of `w` bits holds after a result `x` wraps around modulo
`2 ^ w` (two's complement). -/
def wrapInt (w : Nat) (x : Int) : Int := (x + 2 ^ (w - 1)) % 2 ^ w - 2 ^ (w - 1)

/-- Global `interval`: the expression `15 * 60 * 1000`, evaluated from the
left in `int` of `w` bits. -/
def interval (w : Nat) : Int := wrapInt w (wrapInt w (15 * 60) * 1000)

/-- What `delay(unsigned long)` receives from the call `delay(interval)` of
`loop`: the `int` converted to an unsigned 32-bit number. -/
def loopDelayArgument (w : Nat) : Int := interval w % 2 ^ 32

/-! ## Vocabulary of the specification -/

/-- Contribution of one event to the base position: a clockwise pulse starts
with `baseServo.write(20)`, a counterclockwise one with `baseServo.write(150)`. -/
def pulseOf : Event → Int
  | Event.baseWrite a => if a = 20 then 1 else if a = 150 then -1 else 0
  | _ => 0

/-- Net number of base pulses in a trace, clockwise minus counterclockwise. -/
def netBasePulses (tr : List Event) : Int := (tr.map pulseOf).sum

/-- The rewards `calculateReward` computes along the samples `xs`, starting
from best reading `p`, are all strictly positive. -/
def rewardsPositive : Int → List Nat → Prop
  | _, [] => True
  | p, x :: xs => (x : Int) - p > 0 ∧ rewardsPositive (x : Int) xs

instance rewardsPositiveDecidable : ∀ (p : Int) (xs : List Nat), Decidable (rewardsPositive p xs)
  | _, [] => isTrue trivial
  | p, x :: xs =>
    match Int.decLt 0 ((x : Int) - p), rewardsPositiveDecidable (x : Int) xs with
    | isTrue h1, isTrue h2 => isTrue ⟨h1, h2⟩
    | isFalse h1, _ => isFalse (fun h => h1 h.1)
    | _, isFalse h2 => isFalse (fun h => h2 h.2)

/-- Best reading after the samples `xs`, each with a positive reward, were
evaluated from best reading `p`: the last sample, or `p` when there is none. -/
def lastReading : Int → List Nat → Int
  | p, [] => p
  | _, x :: xs => lastReading (x : Int) xs

/-- Passes through the loop body of `exploitRL`: from `s`, one call of
`exploitTiltAngle` followed by one call of `exploitBaseAngle` per entry of the
list, with the recorded pair of results, ending in `s'`. -/
def iterations : State → List (Bool × Bool) → State → Prop
  | s, [], s' => s' = s
  | s, (t, b) :: its, s' =>
    ∃ s1 s2, exploitTiltAngle s = some (t, s1) ∧ exploitBaseAngle s1 = some (b, s2) ∧
      iterations s2 its s'

/-- Angles probed by `sweepAction` from tilt angle `a`, in emission order. -/
def sweepAngles (a : Int) : List Int :=
  [a + 0, a + 6, a + 12, a + 18, a + 24, a + 30, a - 0, a - 6, a - 12, a - 18, a - 24, a - 30]

/-- Probes of a sweep from tilt angle `a` over the samples `vs`: pairs of
commanded angle and sample read there, in emission order. -/
def sweepProbes (a : Int) (vs : List Nat) : List (Int × Int) :=
  (sweepAngles a).zip (vs.map Int.ofNat)

/-- Events of one sweep probe: command the angle, settle, sample. -/
def probeEvents (q : Int × Int) : List Event :=
  [Event.tiltWrite q.1, Event.delay 1500, Event.trackerRead q.2]

/-- What one sweep probe `q` (angle, sample) does to the pair of locals
(`maxV`, `maxAngle`): the probe replaces the pair only when its sample is
strictly larger than `maxV`. -/
def sweepKeep (acc : Int × Option Int) (q : Int × Int) : Int × Option Int :=
  if q.2 > acc.1 then (q.2, some q.1) else acc

/-- What an observer of the trace keeps track of while the exploiters run: the
tilt angle last commanded, the net base pulses, the best reading as
`calculateReward` maintains it, the position held when the best reading was
last updated, and the number of positive rewards seen. -/
structure Ghost where
  /-- Tilt angle last commanded. -/
  angle : Int
  /-- Net base pulses so far. -/
  base : Int
  /-- Best reading so far. -/
  best : Int
  /-- Tilt angle held at the last update of `best`. -/
  bestAngle : Int
  /-- Net base pulses at the last update of `best`. -/
  bestBase : Int
  /-- Number of samples read with a positive reward. -/
  positives : Nat
  deriving DecidableEq, Repr

/-- Observer at the entry of a call: position `(a, b)`, best reading `p`, no
update yet, so the position of the best reading is the entry position. -/
def Ghost.start (a b p : Int) : Ghost := ⟨a, b, p, a, b, 0⟩

/-- Effect of one event on the observer.  A tilt command sets the angle, a
base pulse moves the base by one, and a sample with a positive reward becomes
the best reading, taken at the current position. -/
def Ghost.step (g : Ghost) : Event → Ghost
  | Event.tiltWrite x => { g with angle := x }
  | Event.baseWrite x => { g with base := g.base + pulseOf (Event.baseWrite x) }
  | Event.delay _ => g
  | Event.trackerRead v =>
    if v - g.best > 0 then
      { g with best := v, bestAngle := g.angle, bestBase := g.base, positives := g.positives + 1 }
    else g

/-- Observer after a sequence of events. -/
def replay (g : Ghost) (es : List Event) : Ghost := es.foldl Ghost.step g

/-- Samples read in a sequence of events, each with the position (tilt angle,
net base pulses) held when it was read, from position `(a, b)`. -/
def readings : Int → Int → List Event → List (Int × Int × Int)
  | _, _, [] => []
  | _, b, Event.tiltWrite x :: es => readings x b es
  | a, b, Event.baseWrite x :: es => readings a (b + pulseOf (Event.baseWrite x)) es
  | a, b, Event.delay _ :: es => readings a b es
  | a, b, Event.trackerRead v :: es => (a, b, v) :: readings a b es

/-- Samples read in a sequence of events, in order. -/
def samplesOf : List Event → List Int
  | [] => []
  | Event.trackerRead v :: es => v :: samplesOf es
  | _ :: es => samplesOf es

/-- Tilt angle last commanded after a sequence of events, from angle `a`. -/
def angleAfter : Int → List Event → Int
  | a, [] => a
  | _, Event.tiltWrite x :: es => angleAfter x es
  | a, Event.baseWrite _ :: es => angleAfter a es
  | a, Event.delay _ :: es => angleAfter a es
  | a, Event.trackerRead _ :: es => angleAfter a es

/-! ## Basic facts -/

theorem netBasePulses_append (t1 t2 : List Event) :
    netBasePulses (t1 ++ t2) = netBasePulses t1 + netBasePulses t2 := by
  simp [netBasePulses]

theorem calculateReward_cons (a p : Int) (v : Nat) (rest : List Nat) (tr : List Event) :
    calculateReward ⟨a, p, v :: rest, tr⟩ =
      some ((v : Int) - p,
        ⟨a, if (v : Int) - p > 0 then (v : Int) else p, rest,
          tr ++ [Event.delay trackerNewPositionSettleDelay, Event.trackerRead (v : Int)]⟩) := by
  simp only [calculateReward, analogRead, delay]
  split_ifs <;> simp

theorem calculateReward_nil (a p : Int) (tr : List Event) :
    calculateReward ⟨a, p, [], tr⟩ = none := by
  simp [calculateReward, analogRead, delay]

/-- C1. For every `previousV = p` and every sample `v`, `calculateReward`
returns `v - p`, leaves `previousV` equal to `v` when `v > p` and to `p`
otherwise (that is `max p v`), takes exactly one sample off the input and
leaves `prevAngle` as it was. -/
theorem calculateReward_spec (a p : Int) (v : Nat) (rest : List Nat) (tr : List Event) :
    ∃ s', calculateReward ⟨a, p, v :: rest, tr⟩ = some ((v : Int) - p, s') ∧
      s'.previousV = (if (v : Int) > p then (v : Int) else p) ∧
      s'.previousV = max p (v : Int) ∧
      s'.input = rest ∧ s'.prevAngle = a ∧
      s'.trace = tr ++ [Event.delay 1500, Event.trackerRead (v : Int)] := by
  refine ⟨_, calculateReward_cons a p v rest tr, ?_, ?_, rfl, rfl, rfl⟩
  · by_cases h : (v : Int) > p
    · have h2 : (v : Int) - p > 0 := by omega
      simp [h, h2]
    · have h2 : ¬ ((v : Int) - p > 0) := by omega
      simp only [h, h2, if_false]
  · by_cases h : (v : Int) - p > 0
    · simp only [h, if_true]; omega
    · simp only [h, if_false]; omega

/-! ## Runs of the tilt exploiter on a given reward pattern -/

theorem tiltCwAction_mk (a p : Int) (i : List Nat) (tr : List Event) :
    tiltCwAction ⟨a, p, i, tr⟩ = ⟨a + tiltIncrAngle, p, i, tr ++ [Event.tiltWrite (a + tiltIncrAngle)]⟩ := rfl

theorem tiltCcwAction_mk (a p : Int) (i : List Nat) (tr : List Event) :
    tiltCcwAction ⟨a, p, i, tr⟩ = ⟨a - tiltIncrAngle, p, i, tr ++ [Event.tiltWrite (a - tiltIncrAngle)]⟩ := rfl

theorem baseCwAction_mk (a p : Int) (i : List Nat) (tr : List Event) :
    baseCwAction ⟨a, p, i, tr⟩ =
      ⟨a, p, i, tr ++ [Event.baseWrite 20, Event.delay baseIncrDelay, Event.baseWrite 90]⟩ := by
  simp [baseCwAction, baseServoWrite, delay]

theorem baseCcwAction_mk (a p : Int) (i : List Nat) (tr : List Event) :
    baseCcwAction ⟨a, p, i, tr⟩ =
      ⟨a, p, i, tr ++ [Event.baseWrite 150, Event.delay baseIncrDelay, Event.baseWrite 90]⟩ := by
  simp [baseCcwAction, baseServoWrite, delay]

theorem calculateReward_some {s s' : State} {r : Int} (h : calculateReward s = some (r, s')) :
    ∃ (v : Nat) (rest : List Nat), s.input = v :: rest ∧ r = (v : Int) - s.previousV ∧
      s' = ⟨s.prevAngle, if r > 0 then (v : Int) else s.previousV, rest,
        s.trace ++ [Event.delay trackerNewPositionSettleDelay, Event.trackerRead (v : Int)]⟩ := by
  obtain ⟨a, p, i, tr⟩ := s
  cases i with
  | nil => simp [calculateReward_nil] at h
  | cons v rest =>
    rw [calculateReward_cons] at h
    simp only [Option.some.injEq, Prod.mk.injEq] at h
    obtain ⟨h1, h2⟩ := h
    exact ⟨v, rest, rfl, h1.symm, by rw [← h2, ← h1]⟩

theorem tiltCwLoop_run (xs : List Nat) : ∀ (fuel : Nat) (a p : Int) (y : Nat) (rest : List Nat)
    (tr : List Event), rewardsPositive p xs → (y : Int) - lastReading p xs ≤ 0 →
    xs.length + 1 ≤ fuel →
    ∃ tr', tiltCwLoop fuel ⟨a, p, xs ++ y :: rest, tr⟩ =
      some ⟨a + ((xs.length : Int) + 1) * tiltIncrAngle, lastReading p xs, rest, tr'⟩ := by
  induction xs with
  | nil =>
    intro fuel a p y rest tr _ hy hf
    obtain ⟨f, rfl⟩ : ∃ f, fuel = f + 1 := ⟨fuel - 1, by omega⟩
    simp only [lastReading] at hy
    have hy2 : ¬ ((y : Int) - p > 0) := by omega
    simp [tiltCwLoop, tiltCwAction_mk, calculateReward_cons, hy2, lastReading]
  | cons x xs ih =>
    intro fuel a p y rest tr hp hy hf
    obtain ⟨f, rfl⟩ : ∃ f, fuel = f + 1 := ⟨fuel - 1, by omega⟩
    obtain ⟨hx, hp2⟩ := hp
    simp only [lastReading] at hy
    simp only [List.length_cons] at hf
    obtain ⟨tr', h⟩ := ih f (a + tiltIncrAngle) x y rest
      (tr ++ [Event.tiltWrite (a + tiltIncrAngle)] ++
        [Event.delay trackerNewPositionSettleDelay, Event.trackerRead (x : Int)]) hp2 hy (by omega)
    refine ⟨tr', ?_⟩
    simp only [tiltCwLoop, tiltCwAction_mk, List.cons_append, calculateReward_cons, hx, if_true,
      lastReading, List.length_cons]
    rw [h]
    congr 2
    push_cast
    ring

theorem tiltCcwLoop_run (xs : List Nat) : ∀ (fuel : Nat) (c a p : Int) (y : Nat) (rest : List Nat)
    (tr : List Event), rewardsPositive p xs → (y : Int) - lastReading p xs ≤ 0 →
    xs.length + 1 ≤ fuel →
    ∃ tr', tiltCcwLoop fuel c ⟨a, p, xs ++ y :: rest, tr⟩ =
      some (c + (xs.length : Int) + 1,
        ⟨a - ((xs.length : Int) + 1) * tiltIncrAngle, lastReading p xs, rest, tr'⟩) := by
  induction xs with
  | nil =>
    intro fuel c a p y rest tr _ hy hf
    obtain ⟨f, rfl⟩ : ∃ f, fuel = f + 1 := ⟨fuel - 1, by omega⟩
    simp only [lastReading] at hy
    have hy2 : ¬ ((y : Int) - p > 0) := by omega
    simp [tiltCcwLoop, tiltCcwAction_mk, calculateReward_cons, hy2, lastReading]
  | cons x xs ih =>
    intro fuel c a p y rest tr hp hy hf
    obtain ⟨f, rfl⟩ : ∃ f, fuel = f + 1 := ⟨fuel - 1, by omega⟩
    obtain ⟨hx, hp2⟩ := hp
    simp only [lastReading] at hy
    simp only [List.length_cons] at hf
    obtain ⟨tr', h⟩ := ih f (c + 1) (a - tiltIncrAngle) x y rest
      (tr ++ [Event.tiltWrite (a - tiltIncrAngle)] ++
        [Event.delay trackerNewPositionSettleDelay, Event.trackerRead (x : Int)]) hp2 hy (by omega)
    refine ⟨tr', ?_⟩
    simp only [tiltCcwLoop, tiltCcwAction_mk, List.cons_append, calculateReward_cons, hx, if_true,
      lastReading, List.length_cons]
    rw [h]
    congr 2
    · push_cast; ring
    · congr 1; push_cast; ring

theorem lastReading_getLast (xs : List Nat) : ∀ (p : Int), xs ≠ [] →
    (xs.map Int.ofNat).getLast? = some (lastReading p xs) := by
  induction xs with
  | nil => intro p h; exact absurd rfl h
  | cons x xs ih =>
    intro p _
    cases xs with
    | nil => simp [lastReading]
    | cons z zs =>
      have h := ih (x : Int) (by simp)
      simp only [lastReading] at h ⊢
      rw [← h]
      simp [List.getLast?_cons_cons]

/-- C2. For every starting `prevAngle = a`, every `previousV = p` and every
`n ≥ 1`: when the first `n` rewards seen by `exploitTiltAngle` are strictly
positive (samples `xs`, `n = xs.length`) and the next one is not (sample `y`),
`exploitTiltAngle` returns `true`, has consumed exactly those `n + 1` samples,
and ends with `prevAngle = a + n * tiltIncrAngle` and `previousV` the `n`-th
sample. -/
theorem exploitTiltAngle_cw_accepts (a p : Int) (tr : List Event) (xs : List Nat) (y : Nat)
    (rest : List Nat) (hn : 1 ≤ xs.length) (hpos : rewardsPositive p xs)
    (hy : (y : Int) - lastReading p xs ≤ 0) :
    ∃ s', exploitTiltAngle ⟨a, p, xs ++ y :: rest, tr⟩ = some (true, s') ∧
      s'.input = rest ∧
      s'.prevAngle = a + (xs.length : Int) * tiltIncrAngle ∧
      (xs.map Int.ofNat).getLast? = some s'.previousV := by
  cases xs with
  | nil => simp at hn
  | cons x xs =>
    obtain ⟨hx, hp2⟩ := hpos
    simp only [lastReading] at hy
    obtain ⟨tr', h⟩ := tiltCwLoop_run xs (xs ++ y :: rest).length (a + tiltIncrAngle) x y rest
      (tr ++ [Event.tiltWrite (a + tiltIncrAngle)] ++
        [Event.delay trackerNewPositionSettleDelay, Event.trackerRead (x : Int)]) hp2 hy
      (by simp)
    refine ⟨backoutTiltCwAction ⟨a + tiltIncrAngle + ((xs.length : Int) + 1) * tiltIncrAngle,
      lastReading (x : Int) xs, rest, tr'⟩, ?_, ?_, ?_, ?_⟩
    · simp only [exploitTiltAngle, tiltCwAction_mk, List.cons_append, calculateReward_cons, hx,
        if_true]
      rw [h]
    · rfl
    · simp only [backoutTiltCwAction, tiltCcwAction_mk, List.length_cons]
      push_cast
      ring
    · rw [lastReading_getLast (x :: xs) p (by simp)]
      rfl

theorem exploitTiltAngle_cw_accepts_witness :
    ∃ s', exploitTiltAngle ⟨100, 0, [10, 20, 5], []⟩ = some (true, s') ∧
      s'.input = [] ∧ s'.prevAngle = 106 ∧ some (20 : Int) = some s'.previousV :=
  exploitTiltAngle_cw_accepts 100 0 [] [10, 20] 5 [] (by decide)
    (by simp [rewardsPositive]) (by simp [lastReading])

/-- C3. For every starting `prevAngle = a` and every `m ≥ 0`: when the first
reward seen by `exploitTiltAngle` is not positive (sample `y0`), the next `m`
rewards are strictly positive (samples `xs`, `m = xs.length`) and the one
after them is not (sample `y1`), `exploitTiltAngle` ends with
`prevAngle = a - m * tiltIncrAngle`, returns `true` exactly when `m ≥ 1`, has
consumed exactly those `m + 2` samples and leaves `previousV` at the last
accepted sample (at its old value when `m = 0`). -/
theorem exploitTiltAngle_ccw_accepts (a p : Int) (tr : List Event) (y0 : Nat) (xs : List Nat)
    (y1 : Nat) (rest : List Nat) (h0 : (y0 : Int) - p ≤ 0) (hpos : rewardsPositive p xs)
    (h1 : (y1 : Int) - lastReading p xs ≤ 0) :
    ∃ s', exploitTiltAngle ⟨a, p, y0 :: (xs ++ y1 :: rest), tr⟩ =
        some (decide (1 ≤ xs.length), s') ∧
      s'.input = rest ∧
      s'.prevAngle = a - (xs.length : Int) * tiltIncrAngle ∧
      s'.previousV = lastReading p xs := by
  have h0n : ¬ ((y0 : Int) - p > 0) := by omega
  obtain ⟨tr', h⟩ := tiltCcwLoop_run xs (xs ++ y1 :: rest).length 0
    (a + tiltIncrAngle - tiltIncrAngle) p y1 rest
    (tr ++ [Event.tiltWrite (a + tiltIncrAngle)] ++
      [Event.delay trackerNewPositionSettleDelay, Event.trackerRead (y0 : Int)] ++
      [Event.tiltWrite (a + tiltIncrAngle - tiltIncrAngle)]) hpos h1 (by simp)
  have hc : ((0 : Int) + (xs.length : Int) + 1 = 1) ↔ ¬ (1 ≤ xs.length) := by omega
  by_cases hlen : 1 ≤ xs.length
  · refine ⟨backoutTiltCcwAction ⟨a + tiltIncrAngle - tiltIncrAngle -
      ((xs.length : Int) + 1) * tiltIncrAngle, lastReading p xs, rest, tr'⟩, ?_, ?_, ?_, ?_⟩
    · simp only [exploitTiltAngle, tiltCwAction_mk, calculateReward_cons, h0n, if_false,
        backoutTiltCwAction, tiltCcwAction_mk]
      rw [h]
      have hc2 : ¬ ((0 : Int) + (xs.length : Int) + 1 = 1) := by omega
      simp only [hc2, if_false, hlen, decide_True]
    · rfl
    · simp only [backoutTiltCcwAction, tiltCwAction_mk]; ring
    · rfl
  · refine ⟨backoutTiltCcwAction ⟨a + tiltIncrAngle - tiltIncrAngle -
      ((xs.length : Int) + 1) * tiltIncrAngle, lastReading p xs, rest, tr'⟩, ?_, ?_, ?_, ?_⟩
    · simp only [exploitTiltAngle, tiltCwAction_mk, calculateReward_cons, h0n, if_false,
        backoutTiltCwAction, tiltCcwAction_mk]
      rw [h]
      have hc2 : (0 : Int) + (xs.length : Int) + 1 = 1 := by omega
      simp only [hc2, if_true, hlen, decide_False]
    · rfl
    · simp only [backoutTiltCcwAction, tiltCwAction_mk]; ring
    · rfl

theorem exploitTiltAngle_ccw_accepts_witness :
    (∃ s', exploitTiltAngle ⟨100, 50, [40, 45], []⟩ = some (false, s') ∧
      s'.input = [] ∧ s'.prevAngle = 100 ∧ s'.previousV = 50) ∧
    (∃ s', exploitTiltAngle ⟨100, 50, [40, 60, 55], []⟩ = some (true, s') ∧
      s'.input = [] ∧ s'.prevAngle = 100 - tiltIncrAngle ∧ s'.previousV = 60) :=
  ⟨exploitTiltAngle_ccw_accepts 100 50 [] 40 [] 45 [] (by decide) (by simp [rewardsPositive])
      (by simp [lastReading]),
    exploitTiltAngle_ccw_accepts 100 50 [] 40 [60] 55 [] (by decide) (by simp [rewardsPositive])
      (by simp [lastReading])⟩

/-! ## What a returning exploiter has done -/

theorem tiltCwLoop_some : ∀ (fuel : Nat) (s s' : State), tiltCwLoop fuel s = some s' →
    ∃ k : Nat, 1 ≤ k ∧ s'.prevAngle = s.prevAngle + (k : Int) * tiltIncrAngle := by
  intro fuel
  induction fuel with
  | zero => intro s s' h; simp [tiltCwLoop] at h
  | succ f ih =>
    intro s s' h
    obtain ⟨a, p, i, tr⟩ := s
    cases i with
    | nil => simp [tiltCwLoop, tiltCwAction_mk, calculateReward_nil] at h
    | cons v rest =>
      simp only [tiltCwLoop, tiltCwAction_mk, calculateReward_cons] at h
      by_cases hr : (v : Int) - p > 0
      · simp only [hr, if_true] at h
        obtain ⟨k, hk, e⟩ := ih _ _ h
        refine ⟨k + 1, by omega, ?_⟩
        rw [e]; push_cast; ring
      · simp only [hr, if_false, Option.some.injEq] at h
        subst h
        exact ⟨1, le_refl 1, by simp⟩

theorem tiltCcwLoop_some : ∀ (fuel : Nat) (c : Int) (s : State) (c' : Int) (s' : State),
    tiltCcwLoop fuel c s = some (c', s') →
    c + 1 ≤ c' ∧ s'.prevAngle = s.prevAngle - (c' - c) * tiltIncrAngle := by
  intro fuel
  induction fuel with
  | zero => intro c s c' s' h; simp [tiltCcwLoop] at h
  | succ f ih =>
    intro c s c' s' h
    obtain ⟨a, p, i, tr⟩ := s
    cases i with
    | nil => simp [tiltCcwLoop, tiltCcwAction_mk, calculateReward_nil] at h
    | cons v rest =>
      simp only [tiltCcwLoop, tiltCcwAction_mk, calculateReward_cons] at h
      by_cases hr : (v : Int) - p > 0
      · simp only [hr, if_true] at h
        obtain ⟨hc, e⟩ := ih _ _ _ _ h
        refine ⟨by omega, ?_⟩
        rw [e]; ring
      · simp only [hr, if_false, Option.some.injEq, Prod.mk.injEq] at h
        obtain ⟨h1, h2⟩ := h
        subst h1 h2
        exact ⟨le_refl _, by simp⟩

theorem baseCwLoop_some : ∀ (fuel : Nat) (s s' : State), baseCwLoop fuel s = some s' →
    s'.prevAngle = s.prevAngle ∧
    ∃ em, s'.trace = s.trace ++ em ∧ 1 ≤ netBasePulses em := by
  intro fuel
  induction fuel with
  | zero => intro s s' h; simp [baseCwLoop] at h
  | succ f ih =>
    intro s s' h
    obtain ⟨a, p, i, tr⟩ := s
    cases i with
    | nil => simp [baseCwLoop, baseCwAction_mk, calculateReward_nil] at h
    | cons v rest =>
      simp only [baseCwLoop, baseCwAction_mk, calculateReward_cons] at h
      by_cases hr : (v : Int) - p > 0
      · simp only [hr, if_true] at h
        obtain ⟨e, em, he, hn⟩ := ih _ _ h
        refine ⟨e, _, by rw [he, List.append_assoc, List.append_assoc], ?_⟩
        rw [netBasePulses_append, netBasePulses_append]
        have h1 : netBasePulses [Event.baseWrite 20, Event.delay baseIncrDelay, Event.baseWrite 90]
            = 1 := by decide
        have h2 : netBasePulses [Event.delay trackerNewPositionSettleDelay,
            Event.trackerRead (v : Int)] = 0 := by simp [netBasePulses, pulseOf]
        omega
      · simp only [hr, if_false, Option.some.injEq] at h
        subst h
        refine ⟨rfl, _, by rw [List.append_assoc], ?_⟩
        simp [netBasePulses, pulseOf]

theorem baseCcwLoop_some : ∀ (fuel : Nat) (c : Int) (s : State) (c' : Int) (s' : State),
    baseCcwLoop fuel c s = some (c', s') →
    c + 1 ≤ c' ∧ s'.prevAngle = s.prevAngle ∧
    ∃ em, s'.trace = s.trace ++ em ∧ netBasePulses em = - (c' - c) := by
  intro fuel
  induction fuel with
  | zero => intro c s c' s' h; simp [baseCcwLoop] at h
  | succ f ih =>
    intro c s c' s' h
    obtain ⟨a, p, i, tr⟩ := s
    cases i with
    | nil => simp [baseCcwLoop, baseCcwAction_mk, calculateReward_nil] at h
    | cons v rest =>
      simp only [baseCcwLoop, baseCcwAction_mk, calculateReward_cons] at h
      have h1 : netBasePulses [Event.baseWrite 150, Event.delay baseIncrDelay, Event.baseWrite 90]
          = -1 := by decide
      have h2 : netBasePulses [Event.delay trackerNewPositionSettleDelay,
          Event.trackerRead (v : Int)] = 0 := by simp [netBasePulses, pulseOf]
      by_cases hr : (v : Int) - p > 0
      · simp only [hr, if_true] at h
        obtain ⟨hc, e, em, he, hn⟩ := ih _ _ _ _ h
        refine ⟨by omega, e, _, by rw [he, List.append_assoc, List.append_assoc], ?_⟩
        rw [netBasePulses_append, netBasePulses_append]
        omega
      · simp only [hr, if_false, Option.some.injEq, Prod.mk.injEq] at h
        obtain ⟨h3, h4⟩ := h
        subst h3 h4
        refine ⟨le_refl _, rfl, _, by rw [List.append_assoc], ?_⟩
        rw [netBasePulses_append]
        omega


theorem exploitTiltAngle_some {s s' : State} {r : Bool} (h : exploitTiltAngle s = some (r, s')) :
    (r = true ↔ s'.prevAngle ≠ s.prevAngle) := by
  obtain ⟨a, p, i, tr⟩ := s
  cases i with
  | nil => simp [exploitTiltAngle, tiltCwAction_mk, calculateReward_nil] at h
  | cons v rest =>
    simp only [exploitTiltAngle, tiltCwAction_mk, calculateReward_cons] at h
    by_cases hr : (v : Int) - p > 0
    · simp only [hr, if_true] at h
      cases hl : tiltCwLoop rest.length
          ⟨a + tiltIncrAngle, (v : Int), rest,
            tr ++ [Event.tiltWrite (a + tiltIncrAngle)] ++
              [Event.delay trackerNewPositionSettleDelay, Event.trackerRead (v : Int)]⟩ with
      | none => rw [hl] at h; simp at h
      | some s2 =>
        rw [hl] at h
        simp only [Option.some.injEq, Prod.mk.injEq] at h
        obtain ⟨h1, h2⟩ := h
        obtain ⟨k, hk, e⟩ := tiltCwLoop_some _ _ _ hl
        obtain ⟨a2, p2, i2, tr2⟩ := s2
        subst h1 h2
        simp only [backoutTiltCwAction, tiltCcwAction_mk, tiltIncrAngle] at e ⊢
        simp only [true_iff, ne_eq]
        omega
    · simp only [hr, if_false, backoutTiltCwAction, tiltCcwAction_mk] at h
      cases hl : tiltCcwLoop rest.length 0
          ⟨a + tiltIncrAngle - tiltIncrAngle, p, rest,
            tr ++ [Event.tiltWrite (a + tiltIncrAngle)] ++
              [Event.delay trackerNewPositionSettleDelay, Event.trackerRead (v : Int)] ++
              [Event.tiltWrite (a + tiltIncrAngle - tiltIncrAngle)]⟩ with
      | none => rw [hl] at h; simp at h
      | some cs =>
        obtain ⟨c, s3⟩ := cs
        rw [hl] at h
        obtain ⟨hc, e⟩ := tiltCcwLoop_some _ _ _ _ _ hl
        obtain ⟨a3, p3, i3, tr3⟩ := s3
        simp only [backoutTiltCcwAction, tiltCwAction_mk] at h e
        by_cases hc1 : c = 1
        · simp only [hc1, if_true, Option.some.injEq, Prod.mk.injEq] at h
          obtain ⟨h1, h2⟩ := h
          subst h1 h2
          simp only [tiltIncrAngle] at e ⊢
          simp only [Bool.false_eq_true, false_iff, ne_eq, not_not]
          omega
        · simp only [hc1, if_false, Option.some.injEq, Prod.mk.injEq] at h
          obtain ⟨h1, h2⟩ := h
          subst h1 h2
          simp only [tiltIncrAngle] at e ⊢
          simp only [true_iff, ne_eq]
          omega


theorem netBasePulses_cw :
    netBasePulses [Event.baseWrite 20, Event.delay baseIncrDelay, Event.baseWrite 90] = 1 := by
  decide

theorem netBasePulses_ccw :
    netBasePulses [Event.baseWrite 150, Event.delay baseIncrDelay, Event.baseWrite 90] = -1 := by
  decide

theorem netBasePulses_sample (v : Int) :
    netBasePulses [Event.delay trackerNewPositionSettleDelay, Event.trackerRead v] = 0 := by
  simp [netBasePulses, pulseOf]

theorem exploitBaseAngle_some {s s' : State} {r : Bool} (h : exploitBaseAngle s = some (r, s')) :
    s'.prevAngle = s.prevAngle ∧
    ∃ em, s'.trace = s.trace ++ em ∧ (r = true ↔ netBasePulses em ≠ 0) := by
  obtain ⟨a, p, i, tr⟩ := s
  cases i with
  | nil => simp [exploitBaseAngle, baseCwAction_mk, calculateReward_nil] at h
  | cons v rest =>
    simp only [exploitBaseAngle, baseCwAction_mk, calculateReward_cons] at h
    by_cases hr : (v : Int) - p > 0
    · simp only [hr, if_true] at h
      cases hl : baseCwLoop rest.length
          ⟨a, (v : Int), rest,
            tr ++ [Event.baseWrite 20, Event.delay baseIncrDelay, Event.baseWrite 90] ++
              [Event.delay trackerNewPositionSettleDelay, Event.trackerRead (v : Int)]⟩ with
      | none => rw [hl] at h; simp at h
      | some s2 =>
        rw [hl] at h
        simp only [Option.some.injEq, Prod.mk.injEq] at h
        obtain ⟨h1, h2⟩ := h
        obtain ⟨e, em, he, hn⟩ := baseCwLoop_some _ _ _ hl
        obtain ⟨a2, p2, i2, tr2⟩ := s2
        subst h1 h2
        simp only [backoutBaseCwAction, baseCcwAction_mk] at e he ⊢
        refine ⟨e, _, by rw [he, List.append_assoc, List.append_assoc, List.append_assoc], ?_⟩
        simp only [true_iff, ne_eq, netBasePulses_append, netBasePulses_cw, netBasePulses_ccw,
          netBasePulses_sample]
        omega
    · simp only [hr, if_false, backoutBaseCwAction, baseCcwAction_mk] at h
      cases hl : baseCcwLoop rest.length 0
          ⟨a, p, rest,
            tr ++ [Event.baseWrite 20, Event.delay baseIncrDelay, Event.baseWrite 90] ++
              [Event.delay trackerNewPositionSettleDelay, Event.trackerRead (v : Int)] ++
              [Event.baseWrite 150, Event.delay baseIncrDelay, Event.baseWrite 90]⟩ with
      | none => rw [hl] at h; simp at h
      | some cs =>
        obtain ⟨c, s3⟩ := cs
        rw [hl] at h
        obtain ⟨hc, e, em, he, hn⟩ := baseCcwLoop_some _ _ _ _ _ hl
        obtain ⟨a3, p3, i3, tr3⟩ := s3
        simp only [backoutBaseCcwAction, baseCwAction_mk] at h e he
        by_cases hc1 : c = 1
        · simp only [hc1, if_true, Option.some.injEq, Prod.mk.injEq] at h
          obtain ⟨h1, h2⟩ := h
          subst h1 h2
          refine ⟨e, _, by
            rw [he, List.append_assoc, List.append_assoc, List.append_assoc, List.append_assoc], ?_⟩
          simp only [Bool.false_eq_true, false_iff, ne_eq, not_not, netBasePulses_append,
            netBasePulses_cw, netBasePulses_ccw, netBasePulses_sample]
          omega
        · simp only [hc1, if_false, Option.some.injEq, Prod.mk.injEq] at h
          obtain ⟨h1, h2⟩ := h
          subst h1 h2
          refine ⟨e, _, by
            rw [he, List.append_assoc, List.append_assoc, List.append_assoc, List.append_assoc], ?_⟩
          simp only [true_iff, ne_eq, netBasePulses_append,
            netBasePulses_cw, netBasePulses_ccw, netBasePulses_sample]
          omega

/-- C4. Whenever `exploitTiltAngle` returns, its result is `true` exactly
when `prevAngle` at return differs from `prevAngle` at entry; whenever
`exploitBaseAngle` returns, its result is `true` exactly when the net number
of base pulses among the events it issued (`em`) is not zero.  So a `false`
result leaves the axis where it started. -/
theorem exploit_true_iff_moved (s s' : State) (r : Bool) :
    (exploitTiltAngle s = some (r, s') → (r = true ↔ s'.prevAngle ≠ s.prevAngle)) ∧
    (exploitBaseAngle s = some (r, s') →
      ∃ em, s'.trace = s.trace ++ em ∧ (r = true ↔ netBasePulses em ≠ 0)) :=
  ⟨fun h => exploitTiltAngle_some h, fun h => (exploitBaseAngle_some h).2⟩

theorem exploit_true_iff_moved_witness :
    (exploitTiltAngle ⟨100, 0, [10, 20, 5], []⟩ =
        some (true, ⟨106, 20, [], [Event.tiltWrite 103, Event.delay 1500, Event.trackerRead 10,
          Event.tiltWrite 106, Event.delay 1500, Event.trackerRead 20, Event.tiltWrite 109,
          Event.delay 1500, Event.trackerRead 5, Event.tiltWrite 106]⟩) ∧
      (true = true ↔ (106 : Int) ≠ 100)) ∧
    (exploitBaseAngle ⟨100, 50, [40, 45], []⟩ =
        some (false, ⟨100, 50, [], [Event.baseWrite 20, Event.delay 50, Event.baseWrite 90,
          Event.delay 1500, Event.trackerRead 40, Event.baseWrite 150, Event.delay 50,
          Event.baseWrite 90, Event.baseWrite 150, Event.delay 50, Event.baseWrite 90,
          Event.delay 1500, Event.trackerRead 45, Event.baseWrite 20, Event.delay 50,
          Event.baseWrite 90]⟩) ∧
      ∃ em, [Event.baseWrite 20, Event.delay 50, Event.baseWrite 90, Event.delay 1500,
          Event.trackerRead 40, Event.baseWrite 150, Event.delay 50, Event.baseWrite 90,
          Event.baseWrite 150, Event.delay 50, Event.baseWrite 90, Event.delay 1500,
          Event.trackerRead 45, Event.baseWrite 20, Event.delay 50, Event.baseWrite 90] = [] ++ em ∧
        (false = true ↔ netBasePulses em ≠ 0)) :=
  ⟨⟨by decide, (exploit_true_iff_moved ⟨100, 0, [10, 20, 5], []⟩ _ true).1 rfl⟩,
    ⟨by decide, (exploit_true_iff_moved ⟨100, 50, [40, 45], []⟩ _ false).2 rfl⟩⟩

/-! ## Fuel

Every pass of a loop takes at least one sample, so a loop given at least as
much fuel as there are samples left behaves as with exactly that much. -/

theorem tiltCwLoop_fuel (i : List Nat) : ∀ (fuel : Nat) (a p : Int) (tr : List Event),
    i.length ≤ fuel → tiltCwLoop fuel ⟨a, p, i, tr⟩ = tiltCwLoop i.length ⟨a, p, i, tr⟩ := by
  induction i with
  | nil =>
    intro fuel a p tr _
    cases fuel with
    | zero => rfl
    | succ f => simp [tiltCwLoop, tiltCwAction_mk, calculateReward_nil]
  | cons v rest ih =>
    intro fuel a p tr hf
    obtain ⟨f, rfl⟩ : ∃ f, fuel = f + 1 := ⟨fuel - 1, by simp at hf; omega⟩
    simp only [List.length_cons, Nat.add_le_add_iff_right] at hf
    simp only [tiltCwLoop, tiltCwAction_mk, calculateReward_cons, List.length_cons]
    split_ifs
    · exact ih f _ _ _ hf
    · rfl

theorem tiltCcwLoop_fuel (i : List Nat) : ∀ (fuel : Nat) (c a p : Int) (tr : List Event),
    i.length ≤ fuel →
    tiltCcwLoop fuel c ⟨a, p, i, tr⟩ = tiltCcwLoop i.length c ⟨a, p, i, tr⟩ := by
  induction i with
  | nil =>
    intro fuel c a p tr _
    cases fuel with
    | zero => rfl
    | succ f => simp [tiltCcwLoop, tiltCcwAction_mk, calculateReward_nil]
  | cons v rest ih =>
    intro fuel c a p tr hf
    obtain ⟨f, rfl⟩ : ∃ f, fuel = f + 1 := ⟨fuel - 1, by simp at hf; omega⟩
    simp only [List.length_cons, Nat.add_le_add_iff_right] at hf
    simp only [tiltCcwLoop, tiltCcwAction_mk, calculateReward_cons, List.length_cons]
    split_ifs
    · exact ih f _ _ _ _ hf
    · rfl

theorem baseCwLoop_fuel (i : List Nat) : ∀ (fuel : Nat) (a p : Int) (tr : List Event),
    i.length ≤ fuel → baseCwLoop fuel ⟨a, p, i, tr⟩ = baseCwLoop i.length ⟨a, p, i, tr⟩ := by
  induction i with
  | nil =>
    intro fuel a p tr _
    cases fuel with
    | zero => rfl
    | succ f => simp [baseCwLoop, baseCwAction_mk, calculateReward_nil]
  | cons v rest ih =>
    intro fuel a p tr hf
    obtain ⟨f, rfl⟩ : ∃ f, fuel = f + 1 := ⟨fuel - 1, by simp at hf; omega⟩
    simp only [List.length_cons, Nat.add_le_add_iff_right] at hf
    simp only [baseCwLoop, baseCwAction_mk, calculateReward_cons, List.length_cons]
    split_ifs
    · exact ih f _ _ _ hf
    · rfl

theorem baseCcwLoop_fuel (i : List Nat) : ∀ (fuel : Nat) (c a p : Int) (tr : List Event),
    i.length ≤ fuel →
    baseCcwLoop fuel c ⟨a, p, i, tr⟩ = baseCcwLoop i.length c ⟨a, p, i, tr⟩ := by
  induction i with
  | nil =>
    intro fuel c a p tr _
    cases fuel with
    | zero => rfl
    | succ f => simp [baseCcwLoop, baseCcwAction_mk, calculateReward_nil]
  | cons v rest ih =>
    intro fuel c a p tr hf
    obtain ⟨f, rfl⟩ : ∃ f, fuel = f + 1 := ⟨fuel - 1, by simp at hf; omega⟩
    simp only [List.length_cons, Nat.add_le_add_iff_right] at hf
    simp only [baseCcwLoop, baseCcwAction_mk, calculateReward_cons, List.length_cons]
    split_ifs
    · exact ih f _ _ _ _ hf
    · rfl

theorem tiltCwLoop_input : ∀ (fuel : Nat) (s s' : State), tiltCwLoop fuel s = some s' →
    s'.input.length < s.input.length := by
  intro fuel
  induction fuel with
  | zero => intro s s' h; simp [tiltCwLoop] at h
  | succ f ih =>
    intro s s' h
    obtain ⟨a, p, i, tr⟩ := s
    cases i with
    | nil => simp [tiltCwLoop, tiltCwAction_mk, calculateReward_nil] at h
    | cons v rest =>
      simp only [tiltCwLoop, tiltCwAction_mk, calculateReward_cons] at h
      by_cases hr : (v : Int) - p > 0
      · simp only [hr, if_true] at h
        have := ih _ _ h
        simp only [List.length_cons] at this ⊢
        omega
      · simp only [hr, if_false, Option.some.injEq] at h
        subst h
        simp

theorem tiltCcwLoop_input : ∀ (fuel : Nat) (c : Int) (s : State) (c' : Int) (s' : State),
    tiltCcwLoop fuel c s = some (c', s') → s'.input.length < s.input.length := by
  intro fuel
  induction fuel with
  | zero => intro c s c' s' h; simp [tiltCcwLoop] at h
  | succ f ih =>
    intro c s c' s' h
    obtain ⟨a, p, i, tr⟩ := s
    cases i with
    | nil => simp [tiltCcwLoop, tiltCcwAction_mk, calculateReward_nil] at h
    | cons v rest =>
      simp only [tiltCcwLoop, tiltCcwAction_mk, calculateReward_cons] at h
      by_cases hr : (v : Int) - p > 0
      · simp only [hr, if_true] at h
        have := ih _ _ _ _ h
        simp only [List.length_cons] at this ⊢
        omega
      · simp only [hr, if_false, Option.some.injEq, Prod.mk.injEq] at h
        obtain ⟨_, h2⟩ := h
        subst h2
        simp

theorem baseCwLoop_input : ∀ (fuel : Nat) (s s' : State), baseCwLoop fuel s = some s' →
    s'.input.length < s.input.length := by
  intro fuel
  induction fuel with
  | zero => intro s s' h; simp [baseCwLoop] at h
  | succ f ih =>
    intro s s' h
    obtain ⟨a, p, i, tr⟩ := s
    cases i with
    | nil => simp [baseCwLoop, baseCwAction_mk, calculateReward_nil] at h
    | cons v rest =>
      simp only [baseCwLoop, baseCwAction_mk, calculateReward_cons] at h
      by_cases hr : (v : Int) - p > 0
      · simp only [hr, if_true] at h
        have := ih _ _ h
        simp only [List.length_cons] at this ⊢
        omega
      · simp only [hr, if_false, Option.some.injEq] at h
        subst h
        simp

theorem baseCcwLoop_input : ∀ (fuel : Nat) (c : Int) (s : State) (c' : Int) (s' : State),
    baseCcwLoop fuel c s = some (c', s') → s'.input.length < s.input.length := by
  intro fuel
  induction fuel with
  | zero => intro c s c' s' h; simp [baseCcwLoop] at h
  | succ f ih =>
    intro c s c' s' h
    obtain ⟨a, p, i, tr⟩ := s
    cases i with
    | nil => simp [baseCcwLoop, baseCcwAction_mk, calculateReward_nil] at h
    | cons v rest =>
      simp only [baseCcwLoop, baseCcwAction_mk, calculateReward_cons] at h
      by_cases hr : (v : Int) - p > 0
      · simp only [hr, if_true] at h
        have := ih _ _ _ _ h
        simp only [List.length_cons] at this ⊢
        omega
      · simp only [hr, if_false, Option.some.injEq, Prod.mk.injEq] at h
        obtain ⟨_, h2⟩ := h
        subst h2
        simp

theorem exploitTiltAngle_input {s s' : State} {r : Bool}
    (h : exploitTiltAngle s = some (r, s')) : s'.input.length + 2 ≤ s.input.length := by
  obtain ⟨a, p, i, tr⟩ := s
  cases i with
  | nil => simp [exploitTiltAngle, tiltCwAction_mk, calculateReward_nil] at h
  | cons v rest =>
    simp only [exploitTiltAngle, tiltCwAction_mk, calculateReward_cons] at h
    by_cases hr : (v : Int) - p > 0
    · simp only [hr, if_true] at h
      cases hl : tiltCwLoop rest.length
          ⟨a + tiltIncrAngle, (v : Int), rest,
            tr ++ [Event.tiltWrite (a + tiltIncrAngle)] ++
              [Event.delay trackerNewPositionSettleDelay, Event.trackerRead (v : Int)]⟩ with
      | none => rw [hl] at h; simp at h
      | some s2 =>
        rw [hl] at h
        simp only [Option.some.injEq, Prod.mk.injEq] at h
        obtain ⟨_, h2⟩ := h
        have := tiltCwLoop_input _ _ _ hl
        obtain ⟨a2, p2, i2, tr2⟩ := s2
        subst h2
        simp only [backoutTiltCwAction, tiltCcwAction_mk, List.length_cons] at this ⊢
        omega
    · simp only [hr, if_false, backoutTiltCwAction, tiltCcwAction_mk] at h
      cases hl : tiltCcwLoop rest.length 0
          ⟨a + tiltIncrAngle - tiltIncrAngle, p, rest,
            tr ++ [Event.tiltWrite (a + tiltIncrAngle)] ++
              [Event.delay trackerNewPositionSettleDelay, Event.trackerRead (v : Int)] ++
              [Event.tiltWrite (a + tiltIncrAngle - tiltIncrAngle)]⟩ with
      | none => rw [hl] at h; simp at h
      | some cs =>
        obtain ⟨c, s3⟩ := cs
        rw [hl] at h
        have := tiltCcwLoop_input _ _ _ _ _ hl
        obtain ⟨a3, p3, i3, tr3⟩ := s3
        simp only [backoutTiltCcwAction, tiltCwAction_mk] at h this
        have e : s'.input = i3 := by
          split_ifs at h <;>
            (simp only [Option.some.injEq, Prod.mk.injEq] at h; rw [← h.2])
        rw [e]
        simp only [List.length_cons]
        omega

theorem exploitBaseAngle_input {s s' : State} {r : Bool}
    (h : exploitBaseAngle s = some (r, s')) : s'.input.length + 2 ≤ s.input.length := by
  obtain ⟨a, p, i, tr⟩ := s
  cases i with
  | nil => simp [exploitBaseAngle, baseCwAction_mk, calculateReward_nil] at h
  | cons v rest =>
    simp only [exploitBaseAngle, baseCwAction_mk, calculateReward_cons] at h
    by_cases hr : (v : Int) - p > 0
    · simp only [hr, if_true] at h
      cases hl : baseCwLoop rest.length
          ⟨a, (v : Int), rest,
            tr ++ [Event.baseWrite 20, Event.delay baseIncrDelay, Event.baseWrite 90] ++
              [Event.delay trackerNewPositionSettleDelay, Event.trackerRead (v : Int)]⟩ with
      | none => rw [hl] at h; simp at h
      | some s2 =>
        rw [hl] at h
        simp only [Option.some.injEq, Prod.mk.injEq] at h
        obtain ⟨_, h2⟩ := h
        have := baseCwLoop_input _ _ _ hl
        obtain ⟨a2, p2, i2, tr2⟩ := s2
        subst h2
        simp only [backoutBaseCwAction, baseCcwAction_mk, List.length_cons] at this ⊢
        omega
    · simp only [hr, if_false, backoutBaseCwAction, baseCcwAction_mk] at h
      cases hl : baseCcwLoop rest.length 0
          ⟨a, p, rest,
            tr ++ [Event.baseWrite 20, Event.delay baseIncrDelay, Event.baseWrite 90] ++
              [Event.delay trackerNewPositionSettleDelay, Event.trackerRead (v : Int)] ++
              [Event.baseWrite 150, Event.delay baseIncrDelay, Event.baseWrite 90]⟩ with
      | none => rw [hl] at h; simp at h
      | some cs =>
        obtain ⟨c, s3⟩ := cs
        rw [hl] at h
        have := baseCcwLoop_input _ _ _ _ _ hl
        obtain ⟨a3, p3, i3, tr3⟩ := s3
        simp only [backoutBaseCcwAction, baseCwAction_mk] at h this
        have e : s'.input = i3 := by
          split_ifs at h <;>
            (simp only [Option.some.injEq, Prod.mk.injEq] at h; rw [← h.2])
        rw [e]
        simp only [List.length_cons]
        omega

/-- More fuel than samples left changes nothing in the coordinator loop. -/
theorem exploitRLLoop_fuel : ∀ (n fuel : Nat) (na : Bool) (s : State),
    s.input.length ≤ n → n ≤ fuel →
    exploitRLLoop fuel na s = exploitRLLoop n na s := by
  intro n
  induction n with
  | zero =>
    intro fuel na s hn _
    have hi : s.input = [] := List.length_eq_zero.mp (by omega)
    obtain ⟨a, p, i, tr⟩ := s
    simp only at hi
    subst hi
    cases fuel with
    | zero => rfl
    | succ f => simp [exploitRLLoop, exploitTiltAngle, tiltCwAction_mk, calculateReward_nil]
  | succ n ih =>
    intro fuel na s hn hf
    obtain ⟨f, rfl⟩ : ∃ f, fuel = f + 1 := ⟨fuel - 1, by omega⟩
    simp only [exploitRLLoop]
    cases hT : exploitTiltAngle s with
    | none => rfl
    | some ts =>
      obtain ⟨t, s1⟩ := ts
      simp only
      cases hB : exploitBaseAngle s1 with
      | none => rfl
      | some bs =>
        obtain ⟨b, s2⟩ := bs
        have h1 := exploitTiltAngle_input hT
        have h2 := exploitBaseAngle_input hB
        cases b with
        | false => rfl
        | true =>
          simp only [if_true]
          exact ih f _ s2 (by omega) (by omega)

/-! ## Coordinator -/

theorem exploitRLLoop_some : ∀ (fuel : Nat) (na : Bool) (s : State) (r : Bool) (s' : State),
    exploitRLLoop fuel na s = some (r, s') →
    ∃ (init : List (Bool × Bool)) (t : Bool),
      iterations s (init ++ [(t, false)]) s' ∧ (∀ it ∈ init, it.2 = true) ∧
      r = (na || (init ++ [(t, false)]).any (fun it => it.1 || it.2)) := by
  intro fuel
  induction fuel with
  | zero => intro na s r s' h; simp [exploitRLLoop] at h
  | succ f ih =>
    intro na s r s' h
    simp only [exploitRLLoop] at h
    cases hT : exploitTiltAngle s with
    | none => rw [hT] at h; simp at h
    | some ts =>
      obtain ⟨t, s1⟩ := ts
      rw [hT] at h
      simp only at h
      cases hB : exploitBaseAngle s1 with
      | none => rw [hB] at h; simp at h
      | some bs =>
        obtain ⟨b, s2⟩ := bs
        rw [hB] at h
        cases b with
        | false =>
          simp only [Bool.false_eq_true, if_false, Option.some.injEq, Prod.mk.injEq] at h
          obtain ⟨h1, h2⟩ := h
          refine ⟨[], t, ⟨s1, s2, hT, hB, h2.symm⟩, by simp, ?_⟩
          rw [← h1]
          cases t <;> cases na <;> simp
        | true =>
          simp only [if_true] at h
          obtain ⟨init, t', hit, hall, hr⟩ := ih _ _ _ _ h
          refine ⟨(t, true) :: init, t', ⟨s1, s2, hT, hB, hit⟩, ?_, ?_⟩
          · intro it hmem
            rcases List.mem_cons.mp hmem with e | e
            · rw [e]
            · exact hall it e
          · rw [hr]; simp

theorem exploitRLLoop_input : ∀ (fuel : Nat) (na : Bool) (s : State) (r : Bool) (s' : State),
    exploitRLLoop fuel na s = some (r, s') → s'.input.length + 4 ≤ s.input.length := by
  intro fuel
  induction fuel with
  | zero => intro na s r s' h; simp [exploitRLLoop] at h
  | succ f ih =>
    intro na s r s' h
    simp only [exploitRLLoop] at h
    cases hT : exploitTiltAngle s with
    | none => rw [hT] at h; simp at h
    | some ts =>
      obtain ⟨t, s1⟩ := ts
      rw [hT] at h
      simp only at h
      cases hB : exploitBaseAngle s1 with
      | none => rw [hB] at h; simp at h
      | some bs =>
        obtain ⟨b, s2⟩ := bs
        rw [hB] at h
        have l1 := exploitTiltAngle_input hT
        have l2 := exploitBaseAngle_input hB
        cases b with
        | false =>
          simp only [Bool.false_eq_true, if_false, Option.some.injEq, Prod.mk.injEq] at h
          rw [← h.2]; omega
        | true =>
          simp only [if_true] at h
          have := ih _ _ _ _ h
          omega

/-- C5. Whenever `exploitRL` returns, its run is a non-empty sequence of
passes through the loop body, each one call of `exploitTiltAngle` followed by
one call of `exploitBaseAngle` whatever the tilt result was; the base result
is `false` in the last pass and `true` in every earlier one, and the value
returned is the disjunction of all tilt and base results. -/
theorem exploitRL_iterations (s s' : State) (r : Bool) (h : exploitRL s = some (r, s')) :
    ∃ (init : List (Bool × Bool)) (t : Bool),
      iterations s (init ++ [(t, false)]) s' ∧
      1 ≤ (init ++ [(t, false)]).length ∧
      (∀ it ∈ init, it.2 = true) ∧
      r = (init ++ [(t, false)]).any (fun it => it.1 || it.2) := by
  obtain ⟨init, t, h1, h2, h3⟩ := exploitRLLoop_some _ _ _ _ _ h
  exact ⟨init, t, h1, by simp, h2, by simpa using h3⟩


theorem exploitRL_iterations_witness :
    ∃ s', exploitRL ⟨100, 50, [40, 45, 60, 55, 50, 50, 50, 50], []⟩ = some (true, s') ∧
      ∃ (init : List (Bool × Bool)) (t : Bool),
        iterations ⟨100, 50, [40, 45, 60, 55, 50, 50, 50, 50], []⟩ (init ++ [(t, false)]) s' ∧
        1 ≤ (init ++ [(t, false)]).length ∧
        (∀ it ∈ init, it.2 = true) ∧
        true = (init ++ [(t, false)]).any (fun it => it.1 || it.2) :=
  ⟨_, rfl, exploitRL_iterations ⟨100, 50, [40, 45, 60, 55, 50, 50, 50, 50], []⟩ _ true rfl⟩

/-! ## Sweep -/

theorem sweepCwLoop_step (cur : Int) (fuel : Nat) (da maxV : Int) (maxAngle : Option Int)
    (a p : Int) (v : Nat) (rest : List Nat) (tr : List Event) (h : da ≤ 30) :
    sweepCwLoop cur (fuel + 1) da maxV maxAngle ⟨a, p, v :: rest, tr⟩ =
      sweepCwLoop cur fuel (da + 6) (sweepKeep (maxV, maxAngle) (cur + da, (v : Int))).1
        (sweepKeep (maxV, maxAngle) (cur + da, (v : Int))).2
        ⟨a, p, rest, tr ++ probeEvents (cur + da, (v : Int))⟩ := by
  simp only [sweepCwLoop, sweepTiltAngleRange, h, if_true, analogRead, delay, tiltServoWrite,
    sweepKeep, sweepTiltIncrAngle, probeEvents, trackerNewPositionSettleDelay, List.append_assoc,
    List.singleton_append]
  split_ifs <;> rfl

theorem sweepCwLoop_exit (cur : Int) (fuel : Nat) (da maxV : Int) (maxAngle : Option Int)
    (s : State) (h : ¬ da ≤ 30) :
    sweepCwLoop cur (fuel + 1) da maxV maxAngle s = some (maxV, maxAngle, s) := by
  simp only [sweepCwLoop, sweepTiltAngleRange, h, if_false]

theorem sweepCcwLoop_step (cur : Int) (fuel : Nat) (da maxV : Int) (maxAngle : Option Int)
    (a p : Int) (v : Nat) (rest : List Nat) (tr : List Event) (h : da ≤ 30) :
    sweepCcwLoop cur (fuel + 1) da maxV maxAngle ⟨a, p, v :: rest, tr⟩ =
      sweepCcwLoop cur fuel (da + 6) (sweepKeep (maxV, maxAngle) (cur - da, (v : Int))).1
        (sweepKeep (maxV, maxAngle) (cur - da, (v : Int))).2
        ⟨a, p, rest, tr ++ probeEvents (cur - da, (v : Int))⟩ := by
  simp only [sweepCcwLoop, sweepTiltAngleRange, h, if_true, analogRead, delay, tiltServoWrite,
    sweepKeep, sweepTiltIncrAngle, probeEvents, trackerNewPositionSettleDelay, List.append_assoc,
    List.singleton_append]
  split_ifs <;> rfl

theorem sweepCcwLoop_exit (cur : Int) (fuel : Nat) (da maxV : Int) (maxAngle : Option Int)
    (s : State) (h : ¬ da ≤ 30) :
    sweepCcwLoop cur (fuel + 1) da maxV maxAngle s = some (maxV, maxAngle, s) := by
  simp only [sweepCcwLoop, sweepTiltAngleRange, h, if_false]

theorem sweepFuel_eq : sweepFuel = 7 := by decide

/-- Six passes of the first loop. -/
theorem sweepCwLoop_six (a p : Int) (v0 v1 v2 v3 v4 v5 : Nat) (rest : List Nat)
    (tr : List Event) (acc : Int × Option Int) :
    sweepCwLoop a 7 0 acc.1 acc.2 ⟨a, p, v0 :: v1 :: v2 :: v3 :: v4 :: v5 :: rest, tr⟩ =
      some ((List.foldl sweepKeep acc
          [(a + 0, (v0 : Int)), (a + 6, (v1 : Int)), (a + 12, (v2 : Int)), (a + 18, (v3 : Int)),
            (a + 24, (v4 : Int)), (a + 30, (v5 : Int))]).1,
        (List.foldl sweepKeep acc
          [(a + 0, (v0 : Int)), (a + 6, (v1 : Int)), (a + 12, (v2 : Int)), (a + 18, (v3 : Int)),
            (a + 24, (v4 : Int)), (a + 30, (v5 : Int))]).2,
        ⟨a, p, rest, tr ++ (probeEvents (a + 0, (v0 : Int)) ++ probeEvents (a + 6, (v1 : Int)) ++
          probeEvents (a + 12, (v2 : Int)) ++ probeEvents (a + 18, (v3 : Int)) ++
          probeEvents (a + 24, (v4 : Int)) ++ probeEvents (a + 30, (v5 : Int)))⟩) := by
  rw [sweepCwLoop_step _ _ _ _ _ _ _ _ _ _ (by norm_num)]
  rw [sweepCwLoop_step _ _ _ _ _ _ _ _ _ _ (by norm_num)]
  rw [sweepCwLoop_step _ _ _ _ _ _ _ _ _ _ (by norm_num)]
  rw [sweepCwLoop_step _ _ _ _ _ _ _ _ _ _ (by norm_num)]
  rw [sweepCwLoop_step _ _ _ _ _ _ _ _ _ _ (by norm_num)]
  rw [sweepCwLoop_step _ _ _ _ _ _ _ _ _ _ (by norm_num)]
  rw [sweepCwLoop_exit _ _ _ _ _ _ (by norm_num)]
  simp only [List.foldl, List.append_assoc]
  norm_num

/-- Six passes of the second loop. -/
theorem sweepCcwLoop_six (a p : Int) (v0 v1 v2 v3 v4 v5 : Nat) (rest : List Nat)
    (tr : List Event) (acc : Int × Option Int) :
    sweepCcwLoop a 7 0 acc.1 acc.2 ⟨a, p, v0 :: v1 :: v2 :: v3 :: v4 :: v5 :: rest, tr⟩ =
      some ((List.foldl sweepKeep acc
          [(a - 0, (v0 : Int)), (a - 6, (v1 : Int)), (a - 12, (v2 : Int)), (a - 18, (v3 : Int)),
            (a - 24, (v4 : Int)), (a - 30, (v5 : Int))]).1,
        (List.foldl sweepKeep acc
          [(a - 0, (v0 : Int)), (a - 6, (v1 : Int)), (a - 12, (v2 : Int)), (a - 18, (v3 : Int)),
            (a - 24, (v4 : Int)), (a - 30, (v5 : Int))]).2,
        ⟨a, p, rest, tr ++ (probeEvents (a - 0, (v0 : Int)) ++ probeEvents (a - 6, (v1 : Int)) ++
          probeEvents (a - 12, (v2 : Int)) ++ probeEvents (a - 18, (v3 : Int)) ++
          probeEvents (a - 24, (v4 : Int)) ++ probeEvents (a - 30, (v5 : Int)))⟩) := by
  rw [sweepCcwLoop_step _ _ _ _ _ _ _ _ _ _ (by norm_num)]
  rw [sweepCcwLoop_step _ _ _ _ _ _ _ _ _ _ (by norm_num)]
  rw [sweepCcwLoop_step _ _ _ _ _ _ _ _ _ _ (by norm_num)]
  rw [sweepCcwLoop_step _ _ _ _ _ _ _ _ _ _ (by norm_num)]
  rw [sweepCcwLoop_step _ _ _ _ _ _ _ _ _ _ (by norm_num)]
  rw [sweepCcwLoop_step _ _ _ _ _ _ _ _ _ _ (by norm_num)]
  rw [sweepCcwLoop_exit _ _ _ _ _ _ (by norm_num)]
  simp only [List.foldl, List.append_assoc]
  norm_num

theorem sweepProbes_twelve (a : Int) (v0 v1 v2 v3 v4 v5 v6 v7 v8 v9 v10 v11 : Nat) :
    sweepProbes a [v0, v1, v2, v3, v4, v5, v6, v7, v8, v9, v10, v11] =
      [(a + 0, (v0 : Int)), (a + 6, (v1 : Int)), (a + 12, (v2 : Int)), (a + 18, (v3 : Int)),
        (a + 24, (v4 : Int)), (a + 30, (v5 : Int))] ++
      [(a - 0, (v6 : Int)), (a - 6, (v7 : Int)), (a - 12, (v8 : Int)), (a - 18, (v9 : Int)),
        (a - 24, (v10 : Int)), (a - 30, (v11 : Int))] := rfl

/-- The sweep over twelve samples, in terms of the probes and `sweepKeep`. -/
theorem sweepAction_twelve (a p : Int) (v0 v1 v2 v3 v4 v5 v6 v7 v8 v9 v10 v11 : Nat)
    (rest : List Nat) (tr : List Event) (m ang : Int)
    (h : List.foldl sweepKeep (-1, none)
      (sweepProbes a [v0, v1, v2, v3, v4, v5, v6, v7, v8, v9, v10, v11]) = (m, some ang)) :
    sweepAction ⟨a, p, v0 :: v1 :: v2 :: v3 :: v4 :: v5 :: v6 :: v7 :: v8 :: v9 :: v10 :: v11 ::
        rest, tr⟩ =
      some ⟨ang, m, rest,
        tr ++ (sweepProbes a [v0, v1, v2, v3, v4, v5, v6, v7, v8, v9, v10, v11]).flatMap
          probeEvents ++ [Event.tiltWrite ang]⟩ := by
  rw [sweepProbes_twelve, List.foldl_append] at h
  have h1 := sweepCwLoop_six a p v0 v1 v2 v3 v4 v5
    (v6 :: v7 :: v8 :: v9 :: v10 :: v11 :: rest) tr (-1, none)
  simp only at h1
  simp only [sweepAction, sweepFuel_eq]
  rw [h1]
  simp only
  rw [sweepCcwLoop_six a p v6 v7 v8 v9 v10 v11 rest _ _, h]
  simp only [tiltServoWrite, sweepProbes_twelve, List.flatMap_append, List.flatMap_cons,
    List.flatMap_nil, List.append_assoc, List.append_nil]


/-- The pair kept after a non-empty run of probes with non-negative samples
is the earliest probe with the largest sample. -/
theorem foldl_sweepKeep_first_max (qs : List (Int × Int)) :
    (∀ q ∈ qs, 0 ≤ q.2) → qs ≠ [] →
    ∃ pre ang m post, qs = pre ++ (ang, m) :: post ∧
      List.foldl sweepKeep (-1, none) qs = (m, some ang) ∧
      (∀ q ∈ pre, q.2 < m) ∧ (∀ q ∈ post, q.2 ≤ m) := by
  induction qs using List.reverseRecOn with
  | nil => intro _ h; exact absurd rfl h
  | append_singleton l q ih =>
    intro hnn _
    have hq : 0 ≤ q.2 := hnn q (by simp)
    have hl : ∀ x ∈ l, 0 ≤ x.2 := fun x hx => hnn x (by simp [hx])
    rw [List.foldl_append]
    simp only [List.foldl]
    by_cases hnil : l = []
    · subst hnil
      refine ⟨[], q.1, q.2, [], by simp, ?_, by simp, by simp⟩
      have : q.2 > (-1 : Int) := by omega
      simp [sweepKeep, this]
    · obtain ⟨pre, ang, m, post, hsplit, hfold, hpre, hpost⟩ := ih hl hnil
      rw [hfold]
      by_cases hgt : q.2 > m
      · refine ⟨l, q.1, q.2, [], by simp, by simp [sweepKeep, hgt], ?_, by simp⟩
        intro x hx
        rw [hsplit] at hx
        rcases List.mem_append.mp hx with h1 | h1
        · have := hpre x h1; omega
        · rcases List.mem_cons.mp h1 with h2 | h2
          · rw [h2]; exact hgt
          · have := hpost x h2; omega
      · refine ⟨pre, ang, m, post ++ [q], by rw [hsplit]; simp, by simp [sweepKeep, hgt], hpre, ?_⟩
        intro x hx
        rcases List.mem_append.mp hx with h1 | h1
        · exact hpost x h1
        · have : x = q := by simpa using h1
          rw [this]; omega

theorem sweepProbes_nonneg (a : Int) (vs : List Nat) : ∀ q ∈ sweepProbes a vs, 0 ≤ q.2 := by
  intro q hq
  have h2 : q.2 ∈ vs.map Int.ofNat := (List.of_mem_zip hq).2
  obtain ⟨n, _, hn⟩ := List.mem_map.mp h2
  rw [← hn]
  exact Int.ofNat_nonneg n

theorem length_twelve (vs : List Nat) (h : vs.length = 12) :
    ∃ v0 v1 v2 v3 v4 v5 v6 v7 v8 v9 v10 v11,
      vs = [v0, v1, v2, v3, v4, v5, v6, v7, v8, v9, v10, v11] := by
  rcases vs with _ | ⟨v0, _ | ⟨v1, _ | ⟨v2, _ | ⟨v3, _ | ⟨v4, _ | ⟨v5, _ | ⟨v6, _ | ⟨v7,
    _ | ⟨v8, _ | ⟨v9, _ | ⟨v10, _ | ⟨v11, _ | ⟨v12, t⟩⟩⟩⟩⟩⟩⟩⟩⟩⟩⟩⟩⟩ <;>
    simp at h
  exact ⟨v0, v1, v2, v3, v4, v5, v6, v7, v8, v9, v10, v11, rfl⟩

/-- Sweep on twelve samples: result and the probe it selected. -/
theorem sweepAction_first_max (a p : Int) (tr : List Event) (vs rest : List Nat)
    (hlen : vs.length = 12) :
    ∃ pre ang m post, sweepProbes a vs = pre ++ (ang, m) :: post ∧
      (∀ q ∈ pre, q.2 < m) ∧ (∀ q ∈ post, q.2 ≤ m) ∧
      sweepAction ⟨a, p, vs ++ rest, tr⟩ =
        some ⟨ang, m, rest, tr ++ (sweepProbes a vs).flatMap probeEvents ++
          [Event.tiltWrite ang]⟩ := by
  obtain ⟨v0, v1, v2, v3, v4, v5, v6, v7, v8, v9, v10, v11, rfl⟩ := length_twelve vs hlen
  obtain ⟨pre, ang, m, post, hsplit, hfold, hpre, hpost⟩ :=
    foldl_sweepKeep_first_max (sweepProbes a [v0, v1, v2, v3, v4, v5, v6, v7, v8, v9, v10, v11])
      (sweepProbes_nonneg a _) (by rw [sweepProbes_twelve]; simp)
  exact ⟨pre, ang, m, post, hsplit, hpre, hpost,
    sweepAction_twelve a p v0 v1 v2 v3 v4 v5 v6 v7 v8 v9 v10 v11 rest tr m ang hfold⟩

theorem sweepCwLoop_input (cur : Int) : ∀ (fuel : Nat) (da maxV : Int) (maxAngle : Option Int)
    (s : State) (r : Int × Option Int × State),
    sweepCwLoop cur fuel da maxV maxAngle s = some r → r.2.2.input.length ≤ s.input.length := by
  intro fuel
  induction fuel with
  | zero => intro da maxV maxAngle s r h; simp [sweepCwLoop] at h
  | succ f ih =>
    intro da maxV maxAngle s r h
    obtain ⟨a, p, i, tr⟩ := s
    by_cases hd : da ≤ 30
    · cases i with
      | nil => simp [sweepCwLoop, sweepTiltAngleRange, hd, analogRead, delay, tiltServoWrite] at h
      | cons v rest =>
        rw [sweepCwLoop_step _ _ _ _ _ _ _ _ _ _ hd] at h
        have := ih _ _ _ _ _ h
        simp only [List.length_cons] at this ⊢
        omega
    · rw [sweepCwLoop_exit _ _ _ _ _ _ hd] at h
      simp only [Option.some.injEq] at h
      rw [← h]

theorem sweepCcwLoop_input (cur : Int) : ∀ (fuel : Nat) (da maxV : Int) (maxAngle : Option Int)
    (s : State) (r : Int × Option Int × State),
    sweepCcwLoop cur fuel da maxV maxAngle s = some r → r.2.2.input.length ≤ s.input.length := by
  intro fuel
  induction fuel with
  | zero => intro da maxV maxAngle s r h; simp [sweepCcwLoop] at h
  | succ f ih =>
    intro da maxV maxAngle s r h
    obtain ⟨a, p, i, tr⟩ := s
    by_cases hd : da ≤ 30
    · cases i with
      | nil => simp [sweepCcwLoop, sweepTiltAngleRange, hd, analogRead, delay, tiltServoWrite] at h
      | cons v rest =>
        rw [sweepCcwLoop_step _ _ _ _ _ _ _ _ _ _ hd] at h
        have := ih _ _ _ _ _ h
        simp only [List.length_cons] at this ⊢
        omega
    · rw [sweepCcwLoop_exit _ _ _ _ _ _ hd] at h
      simp only [Option.some.injEq] at h
      rw [← h]

theorem sweepAction_input {s s' : State} (h : sweepAction s = some s') :
    s'.input.length ≤ s.input.length := by
  simp only [sweepAction] at h
  cases h1 : sweepCwLoop s.prevAngle sweepFuel 0 (-1) none s with
  | none => rw [h1] at h; simp at h
  | some r1 =>
    obtain ⟨mv1, ma1, s1⟩ := r1
    rw [h1] at h
    simp only at h
    cases h2 : sweepCcwLoop s.prevAngle sweepFuel 0 mv1 ma1 s1 with
    | none => rw [h2] at h; simp at h
    | some r2 =>
      obtain ⟨mv2, ma2, s2⟩ := r2
      rw [h2] at h
      have l1 := sweepCwLoop_input _ _ _ _ _ _ _ h1
      have l2 := sweepCcwLoop_input _ _ _ _ _ _ _ h2
      cases ma2 with
      | none => simp at h
      | some ang =>
        simp only [tiltServoWrite, Option.some.injEq] at h
        rw [← h]
        simp only at l1 l2 ⊢
        omega

/-- C8. From every starting `prevAngle = a` and on every twelve samples
(samples are non-negative), `sweepAction` ends with `previousV` equal to the
largest sample of its probes and `prevAngle` equal to the angle of the
earliest probe, in emission order, that read it: the probes it performed are
`sweepProbes a vs`, every probe before the selected one read strictly less,
every probe after it at most as much. -/
theorem sweepAction_selects (a p : Int) (tr : List Event) (vs rest : List Nat)
    (hlen : vs.length = 12) :
    ∃ s' pre post, sweepAction ⟨a, p, vs ++ rest, tr⟩ = some s' ∧ s'.input = rest ∧
      s'.trace = tr ++ (sweepProbes a vs).flatMap probeEvents ++
        [Event.tiltWrite s'.prevAngle] ∧
      sweepProbes a vs = pre ++ (s'.prevAngle, s'.previousV) :: post ∧
      (∀ q ∈ pre, q.2 < s'.previousV) ∧ (∀ q ∈ post, q.2 ≤ s'.previousV) := by
  obtain ⟨pre, ang, m, post, hsplit, hpre, hpost, h⟩ := sweepAction_first_max a p tr vs rest hlen
  exact ⟨_, pre, post, h, rfl, rfl, hsplit, hpre, hpost⟩

theorem sweepAction_selects_witness :
    ([5, 9, 3, 9, 1, 2, 9, 4, 5, 6, 7, 8] : List Nat).length = 12 ∧
    (sweepAction ⟨100, 0, [5, 9, 3, 9, 1, 2, 9, 4, 5, 6, 7, 8] ++ [], []⟩).map
        (fun s => (s.prevAngle, s.previousV)) = some (106, 9) ∧
    ∃ s' pre post,
      sweepAction ⟨100, 0, [5, 9, 3, 9, 1, 2, 9, 4, 5, 6, 7, 8] ++ [], []⟩ = some s' ∧
      s'.input = [] ∧
      s'.trace = [] ++ (sweepProbes 100 [5, 9, 3, 9, 1, 2, 9, 4, 5, 6, 7, 8]).flatMap probeEvents ++
        [Event.tiltWrite s'.prevAngle] ∧
      sweepProbes 100 [5, 9, 3, 9, 1, 2, 9, 4, 5, 6, 7, 8] =
        pre ++ (s'.prevAngle, s'.previousV) :: post ∧
      (∀ q ∈ pre, q.2 < s'.previousV) ∧ (∀ q ∈ post, q.2 ≤ s'.previousV) :=
  ⟨rfl, by decide, sweepAction_selects 100 0 [] [5, 9, 3, 9, 1, 2, 9, 4, 5, 6, 7, 8] [] rfl⟩

/-- C10. With range 30 and step 6, from `prevAngle = a`, `sweepAction`
commands, settles and samples the six angles `a`, `a + 6`, ..., `a + 30` and
then the six angles `a`, `a - 6`, ..., `a - 30` measured from `a`, before it
commands the selected angle; it takes exactly twelve samples off the input,
its result does not depend on `previousV` at entry, and both loops leave
`previousV` and `prevAngle` as they were. -/
theorem sweepAction_probes (a p : Int) (tr : List Event)
    (v0 v1 v2 v3 v4 v5 v6 v7 v8 v9 v10 v11 : Nat) (rest : List Nat) :
    ∃ s', sweepAction ⟨a, p, v0 :: v1 :: v2 :: v3 :: v4 :: v5 :: v6 :: v7 :: v8 :: v9 :: v10 ::
          v11 :: rest, tr⟩ = some s' ∧
      s'.input = rest ∧
      s'.trace = tr ++
        [Event.tiltWrite a, Event.delay 1500, Event.trackerRead (v0 : Int),
          Event.tiltWrite (a + 6), Event.delay 1500, Event.trackerRead (v1 : Int),
          Event.tiltWrite (a + 12), Event.delay 1500, Event.trackerRead (v2 : Int),
          Event.tiltWrite (a + 18), Event.delay 1500, Event.trackerRead (v3 : Int),
          Event.tiltWrite (a + 24), Event.delay 1500, Event.trackerRead (v4 : Int),
          Event.tiltWrite (a + 30), Event.delay 1500, Event.trackerRead (v5 : Int),
          Event.tiltWrite a, Event.delay 1500, Event.trackerRead (v6 : Int),
          Event.tiltWrite (a - 6), Event.delay 1500, Event.trackerRead (v7 : Int),
          Event.tiltWrite (a - 12), Event.delay 1500, Event.trackerRead (v8 : Int),
          Event.tiltWrite (a - 18), Event.delay 1500, Event.trackerRead (v9 : Int),
          Event.tiltWrite (a - 24), Event.delay 1500, Event.trackerRead (v10 : Int),
          Event.tiltWrite (a - 30), Event.delay 1500, Event.trackerRead (v11 : Int)] ++
        [Event.tiltWrite s'.prevAngle] ∧
      (∀ p', sweepAction ⟨a, p', v0 :: v1 :: v2 :: v3 :: v4 :: v5 :: v6 :: v7 :: v8 :: v9 :: v10 ::
          v11 :: rest, tr⟩ = some s') ∧
      ∃ maxV1 maxAngle1 s1 maxV2 maxAngle2 s2,
        sweepCwLoop a sweepFuel 0 (-1) none ⟨a, p, v0 :: v1 :: v2 :: v3 :: v4 :: v5 :: v6 :: v7 ::
          v8 :: v9 :: v10 :: v11 :: rest, tr⟩ = some (maxV1, maxAngle1, s1) ∧
        s1.previousV = p ∧ s1.prevAngle = a ∧ s1.input = v6 :: v7 :: v8 :: v9 :: v10 :: v11 :: rest ∧
        sweepCcwLoop a sweepFuel 0 maxV1 maxAngle1 s1 = some (maxV2, maxAngle2, s2) ∧
        s2.previousV = p ∧ s2.prevAngle = a ∧ s2.input = rest := by
  obtain ⟨pre, ang, m, post, _, hfold, _, _⟩ :=
    foldl_sweepKeep_first_max (sweepProbes a [v0, v1, v2, v3, v4, v5, v6, v7, v8, v9, v10, v11])
      (sweepProbes_nonneg a _) (by rw [sweepProbes_twelve]; simp)
  refine ⟨_, sweepAction_twelve a p v0 v1 v2 v3 v4 v5 v6 v7 v8 v9 v10 v11 rest tr m ang hfold,
    rfl, ?_, ?_, ?_⟩
  · simp only [sweepProbes_twelve, List.flatMap_append, List.flatMap_cons, List.flatMap_nil,
      probeEvents, add_zero, sub_zero, List.append_assoc, List.cons_append, List.nil_append,
      List.append_nil]
  · intro p'
    exact sweepAction_twelve a p' v0 v1 v2 v3 v4 v5 v6 v7 v8 v9 v10 v11 rest tr m ang hfold
  · have h1 := sweepCwLoop_six a p v0 v1 v2 v3 v4 v5
      (v6 :: v7 :: v8 :: v9 :: v10 :: v11 :: rest) tr (-1, none)
    simp only at h1
    rw [sweepFuel_eq]
    exact ⟨_, _, _, _, _, _, h1, rfl, rfl, rfl,
      sweepCcwLoop_six a p v6 v7 v8 v9 v10 v11 rest _ (_, _), rfl, rfl, rfl⟩

/-! ## Exploration -/

theorem tiltCwAction_tiltCcwAction (a p : Int) (i : List Nat) (tr : List Event) :
    tiltCcwAction ⟨a + tiltIncrAngle, p, i, tr⟩ = ⟨a, p, i, tr ++ [Event.tiltWrite a]⟩ := by
  simp [tiltCcwAction_mk]

theorem exploreRL_nonpos (a p : Int) (v : Nat) (rest : List Nat) (tr : List Event)
    (h : (v : Int) - p ≤ 0) :
    exploreRL ⟨a, p, v :: rest, tr⟩ =
      sweepAction ⟨a, p, rest,
        tr ++ [Event.baseWrite 20, Event.delay 50, Event.baseWrite 90,
          Event.tiltWrite (a + tiltIncrAngle), Event.delay 1500, Event.trackerRead (v : Int),
          Event.tiltWrite a, Event.baseWrite 150, Event.delay 50, Event.baseWrite 90]⟩ := by
  have h2 : ¬ ((v : Int) - p > 0) := by omega
  simp only [exploreRL, compositeAction, baseCwAction_mk, tiltCwAction_mk, calculateReward_cons,
    h2, if_false, backoutCompositeAction, tiltCwAction_tiltCcwAction, baseCcwAction_mk,
    baseIncrDelay, trackerNewPositionSettleDelay, List.append_assoc,
    List.cons_append, List.nil_append]

/-- A returning `exploreRL` has taken at least one sample. -/
theorem exploreRL_input {s s' : State} (h : exploreRL s = some s') :
    s'.input.length < s.input.length := by
  obtain ⟨a, p, i, tr⟩ := s
  cases i with
  | nil =>
    simp [exploreRL, compositeAction, baseCwAction_mk, tiltCwAction_mk, calculateReward_nil] at h
  | cons v rest =>
    by_cases hr : (v : Int) - p > 0
    · simp only [exploreRL, compositeAction, baseCwAction_mk, tiltCwAction_mk,
        calculateReward_cons, hr, if_true] at h
      cases he : exploitRL ⟨a + tiltIncrAngle, (v : Int), rest,
          tr ++ [Event.baseWrite 20, Event.delay baseIncrDelay, Event.baseWrite 90] ++
            [Event.tiltWrite (a + tiltIncrAngle)] ++
            [Event.delay trackerNewPositionSettleDelay, Event.trackerRead (v : Int)]⟩ with
      | none => rw [he] at h; simp at h
      | some rs =>
        obtain ⟨r, s2⟩ := rs
        rw [he] at h
        simp only [Option.some.injEq] at h
        have := exploitRLLoop_input _ _ _ _ _ he
        rw [← h]
        simp only [List.length_cons] at this ⊢
        omega
    · rw [exploreRL_nonpos a p v rest tr (by omega)] at h
      have := sweepAction_input h
      simp only [List.length_cons] at this ⊢
      omega

/-- C7. `exploreRL` issues one clockwise base pulse, one clockwise tilt step
and one reward evaluation.  When the reward is positive it continues with
`exploitRL` from `prevAngle + tiltIncrAngle`, one net clockwise base pulse and
`previousV` equal to the probe sample, without backout or sweep.  Otherwise it
undoes the probe by a counterclockwise tilt step followed by a
counterclockwise base pulse and continues with `sweepAction` from a state
whose `prevAngle`, net base pulses and `previousV` are those at entry. -/
theorem exploreRL_spec (a p : Int) (v : Nat) (rest : List Nat) (tr : List Event) :
    ((v : Int) - p > 0 →
      exploreRL ⟨a, p, v :: rest, tr⟩ =
          (exploitRL ⟨a + tiltIncrAngle, (v : Int), rest,
            tr ++ [Event.baseWrite 20, Event.delay 50, Event.baseWrite 90,
              Event.tiltWrite (a + tiltIncrAngle), Event.delay 1500,
              Event.trackerRead (v : Int)]⟩).map Prod.snd ∧
        netBasePulses (tr ++ [Event.baseWrite 20, Event.delay 50, Event.baseWrite 90,
              Event.tiltWrite (a + tiltIncrAngle), Event.delay 1500,
              Event.trackerRead (v : Int)]) = netBasePulses tr + 1) ∧
    ((v : Int) - p ≤ 0 →
      exploreRL ⟨a, p, v :: rest, tr⟩ =
          sweepAction ⟨a, p, rest,
            tr ++ [Event.baseWrite 20, Event.delay 50, Event.baseWrite 90,
              Event.tiltWrite (a + tiltIncrAngle), Event.delay 1500,
              Event.trackerRead (v : Int),
              Event.tiltWrite a, Event.baseWrite 150, Event.delay 50, Event.baseWrite 90]⟩ ∧
        netBasePulses (tr ++ [Event.baseWrite 20, Event.delay 50, Event.baseWrite 90,
              Event.tiltWrite (a + tiltIncrAngle), Event.delay 1500,
              Event.trackerRead (v : Int),
              Event.tiltWrite a, Event.baseWrite 150, Event.delay 50, Event.baseWrite 90]) =
          netBasePulses tr) := by
  constructor
  · intro h
    constructor
    · simp only [exploreRL, compositeAction, baseCwAction_mk, tiltCwAction_mk, calculateReward_cons,
        h, if_true, baseIncrDelay, trackerNewPositionSettleDelay, List.append_assoc,
        List.cons_append, List.nil_append]
      cases exploitRL _ <;> rfl
    · rw [netBasePulses_append]
      simp [netBasePulses, pulseOf]
  · intro h
    have h2 : ¬ ((v : Int) - p > 0) := by omega
    constructor
    · simp only [exploreRL, compositeAction, baseCwAction_mk, tiltCwAction_mk, calculateReward_cons,
        h2, if_false, backoutCompositeAction, tiltCwAction_tiltCcwAction, baseCcwAction_mk,
        baseIncrDelay, trackerNewPositionSettleDelay, List.append_assoc,
        List.cons_append, List.nil_append]
    · rw [netBasePulses_append]
      simp [netBasePulses, pulseOf]

theorem exploreRL_spec_witness :
    ((60 : Int) - 50 > 0 ∧
      exploreRL ⟨100, 50, [60, 55, 50, 60, 60], []⟩ =
          (exploitRL ⟨100 + tiltIncrAngle, 60, [55, 50, 60, 60],
            [] ++ [Event.baseWrite 20, Event.delay 50, Event.baseWrite 90,
              Event.tiltWrite (100 + tiltIncrAngle), Event.delay 1500,
              Event.trackerRead 60]⟩).map Prod.snd) ∧
    ((40 : Int) - 50 ≤ 0 ∧
      exploreRL ⟨100, 50, [40, 1, 2, 3, 4, 5, 6, 7, 8, 9, 10, 11, 12], []⟩ =
          sweepAction ⟨100, 50, [1, 2, 3, 4, 5, 6, 7, 8, 9, 10, 11, 12],
            [] ++ [Event.baseWrite 20, Event.delay 50, Event.baseWrite 90,
              Event.tiltWrite (100 + tiltIncrAngle), Event.delay 1500,
              Event.trackerRead 40,
              Event.tiltWrite 100, Event.baseWrite 150, Event.delay 50, Event.baseWrite 90]⟩) :=
  ⟨⟨by decide, ((exploreRL_spec 100 50 60 [55, 50, 60, 60] []).1 (by decide)).1⟩,
    ⟨by decide,
      ((exploreRL_spec 100 50 40 [1, 2, 3, 4, 5, 6, 7, 8, 9, 10, 11, 12] []).2 (by decide)).1⟩⟩

/-- C9. On every entry state and every stream in which the composite probe
of `exploreRL` has a reward that is not positive (sample `v`) and twelve more
samples follow (samples are non-negative), `prevAngle` and `previousV` after
`exploreRL` are the angle and sample of the earliest sweep probe with the
largest sample, whatever `previousV` was at entry; and on one such input
`previousV` after `exploreRL` is strictly lower than at entry. -/
theorem exploreRL_sweep_overwrites :
    (∀ (a p : Int) (tr : List Event) (v : Nat) (vs rest : List Nat),
      (v : Int) - p ≤ 0 → vs.length = 12 →
      ∃ s' pre post, exploreRL ⟨a, p, v :: (vs ++ rest), tr⟩ = some s' ∧ s'.input = rest ∧
        sweepProbes a vs = pre ++ (s'.prevAngle, s'.previousV) :: post ∧
        (∀ q ∈ pre, q.2 < s'.previousV) ∧ (∀ q ∈ post, q.2 ≤ s'.previousV)) ∧
    (∃ s', exploreRL ⟨100, 500, 400 :: [1, 2, 3, 4, 5, 6, 7, 8, 9, 10, 11, 12], []⟩ = some s' ∧
      (400 : Int) - 500 ≤ 0 ∧ s'.previousV = 12 ∧ s'.previousV < 500) := by
  constructor
  · intro a p tr v vs rest hv hlen
    obtain ⟨pre, ang, m, post, hsplit, hpre, hpost, h⟩ := sweepAction_first_max a p
      (tr ++ [Event.baseWrite 20, Event.delay 50, Event.baseWrite 90,
          Event.tiltWrite (a + tiltIncrAngle), Event.delay 1500, Event.trackerRead (v : Int),
          Event.tiltWrite a, Event.baseWrite 150, Event.delay 50, Event.baseWrite 90]) vs rest hlen
    rw [exploreRL_nonpos a p v (vs ++ rest) tr hv, h]
    exact ⟨_, pre, post, rfl, rfl, hsplit, hpre, hpost⟩
  · exact ⟨_, rfl, by decide, rfl, by decide⟩

theorem exploreRL_sweep_overwrites_witness :
    (400 : Int) - 500 ≤ 0 ∧ ([1, 2, 3, 4, 5, 6, 7, 8, 9, 10, 11, 12] : List Nat).length = 12 ∧
    ∃ s' pre post, exploreRL ⟨100, 500,
          400 :: ([1, 2, 3, 4, 5, 6, 7, 8, 9, 10, 11, 12] ++ []), []⟩ = some s' ∧ s'.input = [] ∧
        sweepProbes 100 [1, 2, 3, 4, 5, 6, 7, 8, 9, 10, 11, 12] =
          pre ++ (s'.prevAngle, s'.previousV) :: post ∧
        (∀ q ∈ pre, q.2 < s'.previousV) ∧ (∀ q ∈ post, q.2 ≤ s'.previousV) :=
  ⟨by decide, rfl, exploreRL_sweep_overwrites.1 100 500 [] 400
    [1, 2, 3, 4, 5, 6, 7, 8, 9, 10, 11, 12] [] (by decide) rfl⟩

/-! ## Cycle driver -/

/-- C6. On an entry state whose next sample is `v`, `executeRL` first makes
`previousV` equal to `v`, whatever it held, and runs `exploitRL` from there;
when `exploitRL` returns `true` the cycle ends in the state `exploitRL` left,
and when it returns `false` the cycle continues with `exploreRL` from that
state.  A run of `exploreRL` always takes a sample, so a cycle that ends in
the state `exploitRL` left has not explored. -/
theorem executeRL_spec (a p : Int) (v : Nat) (rest : List Nat) (tr : List Event) :
    (∀ s1, exploitRL ⟨a, (v : Int), rest,
          tr ++ [Event.delay 1500, Event.trackerRead (v : Int)]⟩ = some (true, s1) →
        executeRL ⟨a, p, v :: rest, tr⟩ = some s1) ∧
    (∀ s1, exploitRL ⟨a, (v : Int), rest,
          tr ++ [Event.delay 1500, Event.trackerRead (v : Int)]⟩ = some (false, s1) →
        executeRL ⟨a, p, v :: rest, tr⟩ = exploreRL s1) ∧
    (exploitRL ⟨a, (v : Int), rest,
          tr ++ [Event.delay 1500, Event.trackerRead (v : Int)]⟩ = none →
        executeRL ⟨a, p, v :: rest, tr⟩ = none) ∧
    (∀ s1 s2, exploreRL s1 = some s2 → s2.input.length < s1.input.length) := by
  refine ⟨?_, ?_, ?_, fun _ _ h => exploreRL_input h⟩
  · intro s1 h
    simp only [executeRL, analogRead, delay, trackerNewPositionSettleDelay, List.append_assoc,
      List.singleton_append]
    rw [h]; rfl
  · intro s1 h
    simp only [executeRL, analogRead, delay, trackerNewPositionSettleDelay, List.append_assoc,
      List.singleton_append]
    rw [h]; rfl
  · intro h
    simp only [executeRL, analogRead, delay, trackerNewPositionSettleDelay, List.append_assoc,
      List.singleton_append]
    rw [h]

theorem executeRL_spec_witness :
    ∃ s1, exploitRL ⟨100, 50, [60, 70, 65, 70, 70], [Event.delay 1500, Event.trackerRead 50]⟩ =
        some (true, s1) ∧
      executeRL ⟨100, 7, [50, 60, 70, 65, 70, 70], []⟩ = some s1 ∧
      iterations ⟨100, 50, [60, 70, 65, 70, 70], [Event.delay 1500, Event.trackerRead 50]⟩
        [(true, false)] s1 ∧
      s1.prevAngle = 106 ∧ s1.input = [] :=
  ⟨_, rfl, (executeRL_spec 100 7 50 [60, 70, 65, 70, 70] []).1 _ rfl,
    ⟨_, _, rfl, rfl, rfl⟩, rfl, rfl⟩

/-! ## Calibration -/

theorem breakpointLoop_step (tbl : List Int) (v : Int) (fuel i : Nat) (b : Int) (hi : i < 14)
    (hb : tbl[i]? = some b) :
    breakpointLoop tbl v (fuel + 1) i =
      if v ≤ b then some i else breakpointLoop tbl v fuel (i + 1) := by
  simp only [breakpointLoop, hi, if_true, hb]

theorem breakpointLoop_exit (tbl : List Int) (v : Int) (fuel i : Nat) (hi : ¬ i < 14) :
    breakpointLoop tbl v (fuel + 1) i = some i := by
  simp only [breakpointLoop, hi, if_false]

theorem interpolate_first (tbl : List Int) (tv : List ℚ) (v : Int)
    (hloop : breakpointLoop tbl v 15 0 = some 0) : interpolate tbl tv v = tv[0]? := by
  simp only [interpolate, hloop, if_true]

theorem interpolate_last (tbl : List Int) (tv : List ℚ) (v : Int)
    (hloop : breakpointLoop tbl v 15 0 = some 14) : interpolate tbl tv v = tv[13]? := by
  simp [interpolate, hloop]

theorem interpolate_between (tbl : List Int) (tv : List ℚ) (v : Int) (i : Nat) (vi vp : ℚ)
    (di dp : Int) (hloop : breakpointLoop tbl v 15 0 = some i) (h0 : i ≠ 0) (h14 : i ≠ 14)
    (h1 : tv[i]? = some vi) (h2 : tv[i - 1]? = some vp) (h3 : tbl[i]? = some di)
    (h4 : tbl[i - 1]? = some dp) (hd : di - dp ≠ 0) :
    interpolate tbl tv v =
      some (vp + (vi - vp) / ((di - dp : Int) : ℚ) * ((v - dp : Int) : ℚ)) := by
  simp only [interpolate, hloop, h0, h14, if_false, h1, h2, h3, h4, hd]

theorem breakpointLoop_tracker (v : Int) :
    breakpointLoop trackerDigitalInt v 15 0 =
      (if v ≤ 3 then some 0 else if v ≤ 4 then some 1 else if v ≤ 7 then some 2 else if v ≤ 10 then some 3 else if v ≤ 16 then some 4 else if v ≤ 34 then some 5 else if v ≤ 65 then some 6 else if v ≤ 129 then some 7 else if v ≤ 297 then some 8 else if v ≤ 569 then some 9 else if v ≤ 665 then some 10 else if v ≤ 727 then some 11 else if v ≤ 797 then some 12 else if v ≤ 827 then some 13 else some 14) := by
  rw [breakpointLoop_step trackerDigitalInt v _ 0 3 (by decide) (by rfl)]
  rw [breakpointLoop_step trackerDigitalInt v _ 1 4 (by decide) (by rfl)]
  rw [breakpointLoop_step trackerDigitalInt v _ 2 7 (by decide) (by rfl)]
  rw [breakpointLoop_step trackerDigitalInt v _ 3 10 (by decide) (by rfl)]
  rw [breakpointLoop_step trackerDigitalInt v _ 4 16 (by decide) (by rfl)]
  rw [breakpointLoop_step trackerDigitalInt v _ 5 34 (by decide) (by rfl)]
  rw [breakpointLoop_step trackerDigitalInt v _ 6 65 (by decide) (by rfl)]
  rw [breakpointLoop_step trackerDigitalInt v _ 7 129 (by decide) (by rfl)]
  rw [breakpointLoop_step trackerDigitalInt v _ 8 297 (by decide) (by rfl)]
  rw [breakpointLoop_step trackerDigitalInt v _ 9 569 (by decide) (by rfl)]
  rw [breakpointLoop_step trackerDigitalInt v _ 10 665 (by decide) (by rfl)]
  rw [breakpointLoop_step trackerDigitalInt v _ 11 727 (by decide) (by rfl)]
  rw [breakpointLoop_step trackerDigitalInt v _ 12 797 (by decide) (by rfl)]
  rw [breakpointLoop_step trackerDigitalInt v _ 13 827 (by decide) (by rfl)]
  rw [breakpointLoop_exit trackerDigitalInt v _ 14 (by decide)]

/-- `convertTrackerV` written out segment by segment. -/
theorem convertTrackerV_eq (v : Int) :
    convertTrackerV v =
      (if v ≤ 3 then some 4.02
      else if v ≤ 4 then
        some (4.02 + (5.01 - 4.02) / ((4 - 3 : Int) : ℚ) * ((v - 3 : Int) : ℚ))
      else if v ≤ 7 then
        some (5.01 + (6.01 - 5.01) / ((7 - 4 : Int) : ℚ) * ((v - 4 : Int) : ℚ))
      else if v ≤ 10 then
        some (6.01 + (7.02 - 6.01) / ((10 - 7 : Int) : ℚ) * ((v - 7 : Int) : ℚ))
      else if v ≤ 16 then
        some (7.02 + (8.00 - 7.02) / ((16 - 10 : Int) : ℚ) * ((v - 10 : Int) : ℚ))
      else if v ≤ 34 then
        some (8.00 + (9.05 - 8.00) / ((34 - 16 : Int) : ℚ) * ((v - 16 : Int) : ℚ))
      else if v ≤ 65 then
        some (9.05 + (10.01 - 9.05) / ((65 - 34 : Int) : ℚ) * ((v - 34 : Int) : ℚ))
      else if v ≤ 129 then
        some (10.01 + (11.01 - 10.01) / ((129 - 65 : Int) : ℚ) * ((v - 65 : Int) : ℚ))
      else if v ≤ 297 then
        some (11.01 + (12.01 - 11.01) / ((297 - 129 : Int) : ℚ) * ((v - 129 : Int) : ℚ))
      else if v ≤ 569 then
        some (12.01 + (12.99 - 12.01) / ((569 - 297 : Int) : ℚ) * ((v - 297 : Int) : ℚ))
      else if v ≤ 665 then
        some (12.99 + (14.01 - 12.99) / ((665 - 569 : Int) : ℚ) * ((v - 569 : Int) : ℚ))
      else if v ≤ 727 then
        some (14.01 + (14.99 - 14.01) / ((727 - 665 : Int) : ℚ) * ((v - 665 : Int) : ℚ))
      else if v ≤ 797 then
        some (14.99 + (16.02 - 14.99) / ((797 - 727 : Int) : ℚ) * ((v - 727 : Int) : ℚ))
      else if v ≤ 827 then
        some (16.02 + (16.51 - 16.02) / ((827 - 797 : Int) : ℚ) * ((v - 797 : Int) : ℚ))
      else some 16.51) := by
  unfold convertTrackerV
  by_cases h0 : v ≤ 3
  · rw [if_pos h0]
    exact interpolate_first _ _ v (by rw [breakpointLoop_tracker, if_pos h0])
  by_cases h1 : v ≤ 4
  · rw [if_neg h0, if_pos h1]
    exact interpolate_between _ _ v 1 5.01 4.02 4 3 (by rw [breakpointLoop_tracker, if_neg h0, if_pos h1])
      (by decide) (by decide) (by rfl) (by rfl) (by rfl) (by rfl) (by decide)
  by_cases h2 : v ≤ 7
  · rw [if_neg h0, if_neg h1, if_pos h2]
    exact interpolate_between _ _ v 2 6.01 5.01 7 4 (by rw [breakpointLoop_tracker, if_neg h0, if_neg h1, if_pos h2])
      (by decide) (by decide) (by rfl) (by rfl) (by rfl) (by rfl) (by decide)
  by_cases h3 : v ≤ 10
  · rw [if_neg h0, if_neg h1, if_neg h2, if_pos h3]
    exact interpolate_between _ _ v 3 7.02 6.01 10 7 (by rw [breakpointLoop_tracker, if_neg h0, if_neg h1, if_neg h2, if_pos h3])
      (by decide) (by decide) (by rfl) (by rfl) (by rfl) (by rfl) (by decide)
  by_cases h4 : v ≤ 16
  · rw [if_neg h0, if_neg h1, if_neg h2, if_neg h3, if_pos h4]
    exact interpolate_between _ _ v 4 8.00 7.02 16 10 (by rw [breakpointLoop_tracker, if_neg h0, if_neg h1, if_neg h2, if_neg h3, if_pos h4])
      (by decide) (by decide) (by rfl) (by rfl) (by rfl) (by rfl) (by decide)
  by_cases h5 : v ≤ 34
  · rw [if_neg h0, if_neg h1, if_neg h2, if_neg h3, if_neg h4, if_pos h5]
    exact interpolate_between _ _ v 5 9.05 8.00 34 16 (by rw [breakpointLoop_tracker, if_neg h0, if_neg h1, if_neg h2, if_neg h3, if_neg h4, if_pos h5])
      (by decide) (by decide) (by rfl) (by rfl) (by rfl) (by rfl) (by decide)
  by_cases h6 : v ≤ 65
  · rw [if_neg h0, if_neg h1, if_neg h2, if_neg h3, if_neg h4, if_neg h5, if_pos h6]
    exact interpolate_between _ _ v 6 10.01 9.05 65 34 (by rw [breakpointLoop_tracker, if_neg h0, if_neg h1, if_neg h2, if_neg h3, if_neg h4, if_neg h5, if_pos h6])
      (by decide) (by decide) (by rfl) (by rfl) (by rfl) (by rfl) (by decide)
  by_cases h7 : v ≤ 129
  · rw [if_neg h0, if_neg h1, if_neg h2, if_neg h3, if_neg h4, if_neg h5, if_neg h6, if_pos h7]
    exact interpolate_between _ _ v 7 11.01 10.01 129 65 (by rw [breakpointLoop_tracker, if_neg h0, if_neg h1, if_neg h2, if_neg h3, if_neg h4, if_neg h5, if_neg h6, if_pos h7])
      (by decide) (by decide) (by rfl) (by rfl) (by rfl) (by rfl) (by decide)
  by_cases h8 : v ≤ 297
  · rw [if_neg h0, if_neg h1, if_neg h2, if_neg h3, if_neg h4, if_neg h5, if_neg h6, if_neg h7, if_pos h8]
    exact interpolate_between _ _ v 8 12.01 11.01 297 129 (by rw [breakpointLoop_tracker, if_neg h0, if_neg h1, if_neg h2, if_neg h3, if_neg h4, if_neg h5, if_neg h6, if_neg h7, if_pos h8])
      (by decide) (by decide) (by rfl) (by rfl) (by rfl) (by rfl) (by decide)
  by_cases h9 : v ≤ 569
  · rw [if_neg h0, if_neg h1, if_neg h2, if_neg h3, if_neg h4, if_neg h5, if_neg h6, if_neg h7, if_neg h8, if_pos h9]
    exact interpolate_between _ _ v 9 12.99 12.01 569 297 (by rw [breakpointLoop_tracker, if_neg h0, if_neg h1, if_neg h2, if_neg h3, if_neg h4, if_neg h5, if_neg h6, if_neg h7, if_neg h8, if_pos h9])
      (by decide) (by decide) (by rfl) (by rfl) (by rfl) (by rfl) (by decide)
  by_cases h10 : v ≤ 665
  · rw [if_neg h0, if_neg h1, if_neg h2, if_neg h3, if_neg h4, if_neg h5, if_neg h6, if_neg h7, if_neg h8, if_neg h9, if_pos h10]
    exact interpolate_between _ _ v 10 14.01 12.99 665 569 (by rw [breakpointLoop_tracker, if_neg h0, if_neg h1, if_neg h2, if_neg h3, if_neg h4, if_neg h5, if_neg h6, if_neg h7, if_neg h8, if_neg h9, if_pos h10])
      (by decide) (by decide) (by rfl) (by rfl) (by rfl) (by rfl) (by decide)
  by_cases h11 : v ≤ 727
  · rw [if_neg h0, if_neg h1, if_neg h2, if_neg h3, if_neg h4, if_neg h5, if_neg h6, if_neg h7, if_neg h8, if_neg h9, if_neg h10, if_pos h11]
    exact interpolate_between _ _ v 11 14.99 14.01 727 665 (by rw [breakpointLoop_tracker, if_neg h0, if_neg h1, if_neg h2, if_neg h3, if_neg h4, if_neg h5, if_neg h6, if_neg h7, if_neg h8, if_neg h9, if_neg h10, if_pos h11])
      (by decide) (by decide) (by rfl) (by rfl) (by rfl) (by rfl) (by decide)
  by_cases h12 : v ≤ 797
  · rw [if_neg h0, if_neg h1, if_neg h2, if_neg h3, if_neg h4, if_neg h5, if_neg h6, if_neg h7, if_neg h8, if_neg h9, if_neg h10, if_neg h11, if_pos h12]
    exact interpolate_between _ _ v 12 16.02 14.99 797 727 (by rw [breakpointLoop_tracker, if_neg h0, if_neg h1, if_neg h2, if_neg h3, if_neg h4, if_neg h5, if_neg h6, if_neg h7, if_neg h8, if_neg h9, if_neg h10, if_neg h11, if_pos h12])
      (by decide) (by decide) (by rfl) (by rfl) (by rfl) (by rfl) (by decide)
  by_cases h13 : v ≤ 827
  · rw [if_neg h0, if_neg h1, if_neg h2, if_neg h3, if_neg h4, if_neg h5, if_neg h6, if_neg h7, if_neg h8, if_neg h9, if_neg h10, if_neg h11, if_neg h12, if_pos h13]
    exact interpolate_between _ _ v 13 16.51 16.02 827 797 (by rw [breakpointLoop_tracker, if_neg h0, if_neg h1, if_neg h2, if_neg h3, if_neg h4, if_neg h5, if_neg h6, if_neg h7, if_neg h8, if_neg h9, if_neg h10, if_neg h11, if_neg h12, if_pos h13])
      (by decide) (by decide) (by rfl) (by rfl) (by rfl) (by rfl) (by decide)
  rw [if_neg h0, if_neg h1, if_neg h2, if_neg h3, if_neg h4, if_neg h5, if_neg h6, if_neg h7, if_neg h8, if_neg h9, if_neg h10, if_neg h11, if_neg h12, if_neg h13]
  exact interpolate_last _ _ v (by rw [breakpointLoop_tracker, if_neg h0, if_neg h1, if_neg h2, if_neg h3, if_neg h4, if_neg h5, if_neg h6, if_neg h7, if_neg h8, if_neg h9, if_neg h10, if_neg h11, if_neg h12, if_neg h13])

theorem breakpointLoop_baseline (v : Int) :
    breakpointLoop baselineDigitalInt v 15 0 =
      (if v ≤ 15 then some 0 else if v ≤ 22 then some 1 else if v ≤ 29 then some 2 else if v ≤ 44 then some 3 else if v ≤ 68 then some 4 else if v ≤ 99 then some 5 else if v ≤ 140 then some 6 else if v ≤ 250 then some 7 else if v ≤ 436 then some 8 else if v ≤ 601 then some 9 else if v ≤ 691 then some 10 else if v ≤ 748 then some 11 else if v ≤ 806 then some 12 else if v ≤ 838 then some 13 else some 14) := by
  rw [breakpointLoop_step baselineDigitalInt v _ 0 15 (by decide) (by rfl)]
  rw [breakpointLoop_step baselineDigitalInt v _ 1 22 (by decide) (by rfl)]
  rw [breakpointLoop_step baselineDigitalInt v _ 2 29 (by decide) (by rfl)]
  rw [breakpointLoop_step baselineDigitalInt v _ 3 44 (by decide) (by rfl)]
  rw [breakpointLoop_step baselineDigitalInt v _ 4 68 (by decide) (by rfl)]
  rw [breakpointLoop_step baselineDigitalInt v _ 5 99 (by decide) (by rfl)]
  rw [breakpointLoop_step baselineDigitalInt v _ 6 140 (by decide) (by rfl)]
  rw [breakpointLoop_step baselineDigitalInt v _ 7 250 (by decide) (by rfl)]
  rw [breakpointLoop_step baselineDigitalInt v _ 8 436 (by decide) (by rfl)]
  rw [breakpointLoop_step baselineDigitalInt v _ 9 601 (by decide) (by rfl)]
  rw [breakpointLoop_step baselineDigitalInt v _ 10 691 (by decide) (by rfl)]
  rw [breakpointLoop_step baselineDigitalInt v _ 11 748 (by decide) (by rfl)]
  rw [breakpointLoop_step baselineDigitalInt v _ 12 806 (by decide) (by rfl)]
  rw [breakpointLoop_step baselineDigitalInt v _ 13 838 (by decide) (by rfl)]
  rw [breakpointLoop_exit baselineDigitalInt v _ 14 (by decide)]

/-- `convertBaselineV` written out segment by segment. -/
theorem convertBaselineV_eq (v : Int) :
    convertBaselineV v =
      (if v ≤ 15 then some 4.04
      else if v ≤ 22 then
        some (4.04 + (5.02 - 4.04) / ((22 - 15 : Int) : ℚ) * ((v - 15 : Int) : ℚ))
      else if v ≤ 29 then
        some (5.02 + (6.00 - 5.02) / ((29 - 22 : Int) : ℚ) * ((v - 22 : Int) : ℚ))
      else if v ≤ 44 then
        some (6.00 + (7.01 - 6.00) / ((44 - 29 : Int) : ℚ) * ((v - 29 : Int) : ℚ))
      else if v ≤ 68 then
        some (7.01 + (8.01 - 7.01) / ((68 - 44 : Int) : ℚ) * ((v - 44 : Int) : ℚ))
      else if v ≤ 99 then
        some (8.01 + (9.00 - 8.01) / ((99 - 68 : Int) : ℚ) * ((v - 68 : Int) : ℚ))
      else if v ≤ 140 then
        some (9.00 + (10.01 - 9.00) / ((140 - 99 : Int) : ℚ) * ((v - 99 : Int) : ℚ))
      else if v ≤ 250 then
        some (10.01 + (11.00 - 10.01) / ((250 - 140 : Int) : ℚ) * ((v - 140 : Int) : ℚ))
      else if v ≤ 436 then
        some (11.00 + (12.01 - 11.00) / ((436 - 250 : Int) : ℚ) * ((v - 250 : Int) : ℚ))
      else if v ≤ 601 then
        some (12.01 + (12.97 - 12.01) / ((601 - 436 : Int) : ℚ) * ((v - 436 : Int) : ℚ))
      else if v ≤ 691 then
        some (12.97 + (14.00 - 12.97) / ((691 - 601 : Int) : ℚ) * ((v - 601 : Int) : ℚ))
      else if v ≤ 748 then
        some (14.00 + (15.00 - 14.00) / ((748 - 691 : Int) : ℚ) * ((v - 691 : Int) : ℚ))
      else if v ≤ 806 then
        some (15.00 + (16.01 - 15.00) / ((806 - 748 : Int) : ℚ) * ((v - 748 : Int) : ℚ))
      else if v ≤ 838 then
        some (16.01 + (16.50 - 16.01) / ((838 - 806 : Int) : ℚ) * ((v - 806 : Int) : ℚ))
      else some 16.50) := by
  unfold convertBaselineV
  by_cases h0 : v ≤ 15
  · rw [if_pos h0]
    exact interpolate_first _ _ v (by rw [breakpointLoop_baseline, if_pos h0])
  by_cases h1 : v ≤ 22
  · rw [if_neg h0, if_pos h1]
    exact interpolate_between _ _ v 1 5.02 4.04 22 15 (by rw [breakpointLoop_baseline, if_neg h0, if_pos h1])
      (by decide) (by decide) (by rfl) (by rfl) (by rfl) (by rfl) (by decide)
  by_cases h2 : v ≤ 29
  · rw [if_neg h0, if_neg h1, if_pos h2]
    exact interpolate_between _ _ v 2 6.00 5.02 29 22 (by rw [breakpointLoop_baseline, if_neg h0, if_neg h1, if_pos h2])
      (by decide) (by decide) (by rfl) (by rfl) (by rfl) (by rfl) (by decide)
  by_cases h3 : v ≤ 44
  · rw [if_neg h0, if_neg h1, if_neg h2, if_pos h3]
    exact interpolate_between _ _ v 3 7.01 6.00 44 29 (by rw [breakpointLoop_baseline, if_neg h0, if_neg h1, if_neg h2, if_pos h3])
      (by decide) (by decide) (by rfl) (by rfl) (by rfl) (by rfl) (by decide)
  by_cases h4 : v ≤ 68
  · rw [if_neg h0, if_neg h1, if_neg h2, if_neg h3, if_pos h4]
    exact interpolate_between _ _ v 4 8.01 7.01 68 44 (by rw [breakpointLoop_baseline, if_neg h0, if_neg h1, if_neg h2, if_neg h3, if_pos h4])
      (by decide) (by decide) (by rfl) (by rfl) (by rfl) (by rfl) (by decide)
  by_cases h5 : v ≤ 99
  · rw [if_neg h0, if_neg h1, if_neg h2, if_neg h3, if_neg h4, if_pos h5]
    exact interpolate_between _ _ v 5 9.00 8.01 99 68 (by rw [breakpointLoop_baseline, if_neg h0, if_neg h1, if_neg h2, if_neg h3, if_neg h4, if_pos h5])
      (by decide) (by decide) (by rfl) (by rfl) (by rfl) (by rfl) (by decide)
  by_cases h6 : v ≤ 140
  · rw [if_neg h0, if_neg h1, if_neg h2, if_neg h3, if_neg h4, if_neg h5, if_pos h6]
    exact interpolate_between _ _ v 6 10.01 9.00 140 99 (by rw [breakpointLoop_baseline, if_neg h0, if_neg h1, if_neg h2, if_neg h3, if_neg h4, if_neg h5, if_pos h6])
      (by decide) (by decide) (by rfl) (by rfl) (by rfl) (by rfl) (by decide)
  by_cases h7 : v ≤ 250
  · rw [if_neg h0, if_neg h1, if_neg h2, if_neg h3, if_neg h4, if_neg h5, if_neg h6, if_pos h7]
    exact interpolate_between _ _ v 7 11.00 10.01 250 140 (by rw [breakpointLoop_baseline, if_neg h0, if_neg h1, if_neg h2, if_neg h3, if_neg h4, if_neg h5, if_neg h6, if_pos h7])
      (by decide) (by decide) (by rfl) (by rfl) (by rfl) (by rfl) (by decide)
  by_cases h8 : v ≤ 436
  · rw [if_neg h0, if_neg h1, if_neg h2, if_neg h3, if_neg h4, if_neg h5, if_neg h6, if_neg h7, if_pos h8]
    exact interpolate_between _ _ v 8 12.01 11.00 436 250 (by rw [breakpointLoop_baseline, if_neg h0, if_neg h1, if_neg h2, if_neg h3, if_neg h4, if_neg h5, if_neg h6, if_neg h7, if_pos h8])
      (by decide) (by decide) (by rfl) (by rfl) (by rfl) (by rfl) (by decide)
  by_cases h9 : v ≤ 601
  · rw [if_neg h0, if_neg h1, if_neg h2, if_neg h3, if_neg h4, if_neg h5, if_neg h6, if_neg h7, if_neg h8, if_pos h9]
    exact interpolate_between _ _ v 9 12.97 12.01 601 436 (by rw [breakpointLoop_baseline, if_neg h0, if_neg h1, if_neg h2, if_neg h3, if_neg h4, if_neg h5, if_neg h6, if_neg h7, if_neg h8, if_pos h9])
      (by decide) (by decide) (by rfl) (by rfl) (by rfl) (by rfl) (by decide)
  by_cases h10 : v ≤ 691
  · rw [if_neg h0, if_neg h1, if_neg h2, if_neg h3, if_neg h4, if_neg h5, if_neg h6, if_neg h7, if_neg h8, if_neg h9, if_pos h10]
    exact interpolate_between _ _ v 10 14.00 12.97 691 601 (by rw [breakpointLoop_baseline, if_neg h0, if_neg h1, if_neg h2, if_neg h3, if_neg h4, if_neg h5, if_neg h6, if_neg h7, if_neg h8, if_neg h9, if_pos h10])
      (by decide) (by decide) (by rfl) (by rfl) (by rfl) (by rfl) (by decide)
  by_cases h11 : v ≤ 748
  · rw [if_neg h0, if_neg h1, if_neg h2, if_neg h3, if_neg h4, if_neg h5, if_neg h6, if_neg h7, if_neg h8, if_neg h9, if_neg h10, if_pos h11]
    exact interpolate_between _ _ v 11 15.00 14.00 748 691 (by rw [breakpointLoop_baseline, if_neg h0, if_neg h1, if_neg h2, if_neg h3, if_neg h4, if_neg h5, if_neg h6, if_neg h7, if_neg h8, if_neg h9, if_neg h10, if_pos h11])
      (by decide) (by decide) (by rfl) (by rfl) (by rfl) (by rfl) (by decide)
  by_cases h12 : v ≤ 806
  · rw [if_neg h0, if_neg h1, if_neg h2, if_neg h3, if_neg h4, if_neg h5, if_neg h6, if_neg h7, if_neg h8, if_neg h9, if_neg h10, if_neg h11, if_pos h12]
    exact interpolate_between _ _ v 12 16.01 15.00 806 748 (by rw [breakpointLoop_baseline, if_neg h0, if_neg h1, if_neg h2, if_neg h3, if_neg h4, if_neg h5, if_neg h6, if_neg h7, if_neg h8, if_neg h9, if_neg h10, if_neg h11, if_pos h12])
      (by decide) (by decide) (by rfl) (by rfl) (by rfl) (by rfl) (by decide)
  by_cases h13 : v ≤ 838
  · rw [if_neg h0, if_neg h1, if_neg h2, if_neg h3, if_neg h4, if_neg h5, if_neg h6, if_neg h7, if_neg h8, if_neg h9, if_neg h10, if_neg h11, if_neg h12, if_pos h13]
    exact interpolate_between _ _ v 13 16.50 16.01 838 806 (by rw [breakpointLoop_baseline, if_neg h0, if_neg h1, if_neg h2, if_neg h3, if_neg h4, if_neg h5, if_neg h6, if_neg h7, if_neg h8, if_neg h9, if_neg h10, if_neg h11, if_neg h12, if_pos h13])
      (by decide) (by decide) (by rfl) (by rfl) (by rfl) (by rfl) (by decide)
  rw [if_neg h0, if_neg h1, if_neg h2, if_neg h3, if_neg h4, if_neg h5, if_neg h6, if_neg h7, if_neg h8, if_neg h9, if_neg h10, if_neg h11, if_neg h12, if_neg h13]
  exact interpolate_last _ _ v (by rw [breakpointLoop_baseline, if_neg h0, if_neg h1, if_neg h2, if_neg h3, if_neg h4, if_neg h5, if_neg h6, if_neg h7, if_neg h8, if_neg h9, if_neg h10, if_neg h11, if_neg h12, if_neg h13])

theorem convertTrackerV_seg0 (v : Int) (hhi : v ≤ 3) :
    convertTrackerV v =
      some (4.02) := by
  rw [
    convertTrackerV_eq, if_pos hhi]

theorem convertTrackerV_seg1 (v : Int) (hlo : 3 < v) (hhi : v ≤ 4) :
    convertTrackerV v =
      some (4.02 + (5.01 - 4.02) / ((4 - 3 : Int) : ℚ) * ((v - 3 : Int) : ℚ)) := by
  rw [
    convertTrackerV_eq, if_neg (show ¬ v ≤ 3 by omega), if_pos hhi]

theorem convertTrackerV_seg2 (v : Int) (hlo : 4 < v) (hhi : v ≤ 7) :
    convertTrackerV v =
      some (5.01 + (6.01 - 5.01) / ((7 - 4 : Int) : ℚ) * ((v - 4 : Int) : ℚ)) := by
  rw [
    convertTrackerV_eq, if_neg (show ¬ v ≤ 3 by omega), if_neg (show ¬ v ≤ 4 by omega),
    if_pos hhi]

theorem convertTrackerV_seg3 (v : Int) (hlo : 7 < v) (hhi : v ≤ 10) :
    convertTrackerV v =
      some (6.01 + (7.02 - 6.01) / ((10 - 7 : Int) : ℚ) * ((v - 7 : Int) : ℚ)) := by
  rw [
    convertTrackerV_eq, if_neg (show ¬ v ≤ 3 by omega), if_neg (show ¬ v ≤ 4 by omega),
    if_neg (show ¬ v ≤ 7 by omega), if_pos hhi]

theorem convertTrackerV_seg4 (v : Int) (hlo : 10 < v) (hhi : v ≤ 16) :
    convertTrackerV v =
      some (7.02 + (8.00 - 7.02) / ((16 - 10 : Int) : ℚ) * ((v - 10 : Int) : ℚ)) := by
  rw [
    convertTrackerV_eq, if_neg (show ¬ v ≤ 3 by omega), if_neg (show ¬ v ≤ 4 by omega),
    if_neg (show ¬ v ≤ 7 by omega), if_neg (show ¬ v ≤ 10 by omega), if_pos hhi]

theorem convertTrackerV_seg5 (v : Int) (hlo : 16 < v) (hhi : v ≤ 34) :
    convertTrackerV v =
      some (8.00 + (9.05 - 8.00) / ((34 - 16 : Int) : ℚ) * ((v - 16 : Int) : ℚ)) := by
  rw [
    convertTrackerV_eq, if_neg (show ¬ v ≤ 3 by omega), if_neg (show ¬ v ≤ 4 by omega),
    if_neg (show ¬ v ≤ 7 by omega), if_neg (show ¬ v ≤ 10 by omega),
    if_neg (show ¬ v ≤ 16 by omega), if_pos hhi]

theorem convertTrackerV_seg6 (v : Int) (hlo : 34 < v) (hhi : v ≤ 65) :
    convertTrackerV v =
      some (9.05 + (10.01 - 9.05) / ((65 - 34 : Int) : ℚ) * ((v - 34 : Int) : ℚ)) := by
  rw [
    convertTrackerV_eq, if_neg (show ¬ v ≤ 3 by omega), if_neg (show ¬ v ≤ 4 by omega),
    if_neg (show ¬ v ≤ 7 by omega), if_neg (show ¬ v ≤ 10 by omega),
    if_neg (show ¬ v ≤ 16 by omega), if_neg (show ¬ v ≤ 34 by omega), if_pos hhi]

theorem convertTrackerV_seg7 (v : Int) (hlo : 65 < v) (hhi : v ≤ 129) :
    convertTrackerV v =
      some (10.01 + (11.01 - 10.01) / ((129 - 65 : Int) : ℚ) * ((v - 65 : Int) : ℚ)) := by
  rw [
    convertTrackerV_eq, if_neg (show ¬ v ≤ 3 by omega), if_neg (show ¬ v ≤ 4 by omega),
    if_neg (show ¬ v ≤ 7 by omega), if_neg (show ¬ v ≤ 10 by omega),
    if_neg (show ¬ v ≤ 16 by omega), if_neg (show ¬ v ≤ 34 by omega),
    if_neg (show ¬ v ≤ 65 by omega), if_pos hhi]

theorem convertTrackerV_seg8 (v : Int) (hlo : 129 < v) (hhi : v ≤ 297) :
    convertTrackerV v =
      some (11.01 + (12.01 - 11.01) / ((297 - 129 : Int) : ℚ) * ((v - 129 : Int) : ℚ)) := by
  rw [
    convertTrackerV_eq, if_neg (show ¬ v ≤ 3 by omega), if_neg (show ¬ v ≤ 4 by omega),
    if_neg (show ¬ v ≤ 7 by omega), if_neg (show ¬ v ≤ 10 by omega),
    if_neg (show ¬ v ≤ 16 by omega), if_neg (show ¬ v ≤ 34 by omega),
    if_neg (show ¬ v ≤ 65 by omega), if_neg (show ¬ v ≤ 129 by omega), if_pos hhi]

theorem convertTrackerV_seg9 (v : Int) (hlo : 297 < v) (hhi : v ≤ 569) :
    convertTrackerV v =
      some (12.01 + (12.99 - 12.01) / ((569 - 297 : Int) : ℚ) * ((v - 297 : Int) : ℚ)) := by
  rw [
    convertTrackerV_eq, if_neg (show ¬ v ≤ 3 by omega), if_neg (show ¬ v ≤ 4 by omega),
    if_neg (show ¬ v ≤ 7 by omega), if_neg (show ¬ v ≤ 10 by omega),
    if_neg (show ¬ v ≤ 16 by omega), if_neg (show ¬ v ≤ 34 by omega),
    if_neg (show ¬ v ≤ 65 by omega), if_neg (show ¬ v ≤ 129 by omega),
    if_neg (show ¬ v ≤ 297 by omega), if_pos hhi]

theorem convertTrackerV_seg10 (v : Int) (hlo : 569 < v) (hhi : v ≤ 665) :
    convertTrackerV v =
      some (12.99 + (14.01 - 12.99) / ((665 - 569 : Int) : ℚ) * ((v - 569 : Int) : ℚ)) := by
  rw [
    convertTrackerV_eq, if_neg (show ¬ v ≤ 3 by omega), if_neg (show ¬ v ≤ 4 by omega),
    if_neg (show ¬ v ≤ 7 by omega), if_neg (show ¬ v ≤ 10 by omega),
    if_neg (show ¬ v ≤ 16 by omega), if_neg (show ¬ v ≤ 34 by omega),
    if_neg (show ¬ v ≤ 65 by omega), if_neg (show ¬ v ≤ 129 by omega),
    if_neg (show ¬ v ≤ 297 by omega), if_neg (show ¬ v ≤ 569 by omega), if_pos hhi]

theorem convertTrackerV_seg11 (v : Int) (hlo : 665 < v) (hhi : v ≤ 727) :
    convertTrackerV v =
      some (14.01 + (14.99 - 14.01) / ((727 - 665 : Int) : ℚ) * ((v - 665 : Int) : ℚ)) := by
  rw [
    convertTrackerV_eq, if_neg (show ¬ v ≤ 3 by omega), if_neg (show ¬ v ≤ 4 by omega),
    if_neg (show ¬ v ≤ 7 by omega), if_neg (show ¬ v ≤ 10 by omega),
    if_neg (show ¬ v ≤ 16 by omega), if_neg (show ¬ v ≤ 34 by omega),
    if_neg (show ¬ v ≤ 65 by omega), if_neg (show ¬ v ≤ 129 by omega),
    if_neg (show ¬ v ≤ 297 by omega), if_neg (show ¬ v ≤ 569 by omega),
    if_neg (show ¬ v ≤ 665 by omega), if_pos hhi]

theorem convertTrackerV_seg12 (v : Int) (hlo : 727 < v) (hhi : v ≤ 797) :
    convertTrackerV v =
      some (14.99 + (16.02 - 14.99) / ((797 - 727 : Int) : ℚ) * ((v - 727 : Int) : ℚ)) := by
  rw [
    convertTrackerV_eq, if_neg (show ¬ v ≤ 3 by omega), if_neg (show ¬ v ≤ 4 by omega),
    if_neg (show ¬ v ≤ 7 by omega), if_neg (show ¬ v ≤ 10 by omega),
    if_neg (show ¬ v ≤ 16 by omega), if_neg (show ¬ v ≤ 34 by omega),
    if_neg (show ¬ v ≤ 65 by omega), if_neg (show ¬ v ≤ 129 by omega),
    if_neg (show ¬ v ≤ 297 by omega), if_neg (show ¬ v ≤ 569 by omega),
    if_neg (show ¬ v ≤ 665 by omega), if_neg (show ¬ v ≤ 727 by omega), if_pos hhi]

theorem convertTrackerV_seg13 (v : Int) (hlo : 797 < v) (hhi : v ≤ 827) :
    convertTrackerV v =
      some (16.02 + (16.51 - 16.02) / ((827 - 797 : Int) : ℚ) * ((v - 797 : Int) : ℚ)) := by
  rw [
    convertTrackerV_eq, if_neg (show ¬ v ≤ 3 by omega), if_neg (show ¬ v ≤ 4 by omega),
    if_neg (show ¬ v ≤ 7 by omega), if_neg (show ¬ v ≤ 10 by omega),
    if_neg (show ¬ v ≤ 16 by omega), if_neg (show ¬ v ≤ 34 by omega),
    if_neg (show ¬ v ≤ 65 by omega), if_neg (show ¬ v ≤ 129 by omega),
    if_neg (show ¬ v ≤ 297 by omega), if_neg (show ¬ v ≤ 569 by omega),
    if_neg (show ¬ v ≤ 665 by omega), if_neg (show ¬ v ≤ 727 by omega),
    if_neg (show ¬ v ≤ 797 by omega), if_pos hhi]

theorem convertTrackerV_seg14 (v : Int) (hlo : 827 < v) :
    convertTrackerV v =
      some (16.51) := by
  rw [
    convertTrackerV_eq, if_neg (show ¬ v ≤ 3 by omega), if_neg (show ¬ v ≤ 4 by omega),
    if_neg (show ¬ v ≤ 7 by omega), if_neg (show ¬ v ≤ 10 by omega),
    if_neg (show ¬ v ≤ 16 by omega), if_neg (show ¬ v ≤ 34 by omega),
    if_neg (show ¬ v ≤ 65 by omega), if_neg (show ¬ v ≤ 129 by omega),
    if_neg (show ¬ v ≤ 297 by omega), if_neg (show ¬ v ≤ 569 by omega),
    if_neg (show ¬ v ≤ 665 by omega), if_neg (show ¬ v ≤ 727 by omega),
    if_neg (show ¬ v ≤ 797 by omega), if_neg (show ¬ v ≤ 827 by omega)]

/-- `convertTrackerV` always has a result, between the first and the last voltage of
its table. -/
theorem convertTrackerV_range (v : Int) :
    ∃ q, convertTrackerV v = some q ∧ 4.02 ≤ q ∧ q ≤ 16.51 := by
  by_cases h0 : v ≤ 3
  · refine ⟨_, convertTrackerV_seg0 v h0, ?_, ?_⟩
    · norm_num
    · norm_num
  by_cases h1 : v ≤ 4
  · refine ⟨_, convertTrackerV_seg1 v (by omega) h1, ?_, ?_⟩
    · have c1 : ((3 : Int) : ℚ) < ((v : Int) : ℚ) := by
        exact_mod_cast (show (3 : Int) < v by omega)
      have c2 : ((v : Int) : ℚ) ≤ ((4 : Int) : ℚ) := by exact_mod_cast h1
      push_cast at c1 c2 ⊢
      linarith
    · have c1 : ((3 : Int) : ℚ) < ((v : Int) : ℚ) := by
        exact_mod_cast (show (3 : Int) < v by omega)
      have c2 : ((v : Int) : ℚ) ≤ ((4 : Int) : ℚ) := by exact_mod_cast h1
      push_cast at c1 c2 ⊢
      linarith
  by_cases h2 : v ≤ 7
  · refine ⟨_, convertTrackerV_seg2 v (by omega) h2, ?_, ?_⟩
    · have c1 : ((4 : Int) : ℚ) < ((v : Int) : ℚ) := by
        exact_mod_cast (show (4 : Int) < v by omega)
      have c2 : ((v : Int) : ℚ) ≤ ((7 : Int) : ℚ) := by exact_mod_cast h2
      push_cast at c1 c2 ⊢
      linarith
    · have c1 : ((4 : Int) : ℚ) < ((v : Int) : ℚ) := by
        exact_mod_cast (show (4 : Int) < v by omega)
      have c2 : ((v : Int) : ℚ) ≤ ((7 : Int) : ℚ) := by exact_mod_cast h2
      push_cast at c1 c2 ⊢
      linarith
  by_cases h3 : v ≤ 10
  · refine ⟨_, convertTrackerV_seg3 v (by omega) h3, ?_, ?_⟩
    · have c1 : ((7 : Int) : ℚ) < ((v : Int) : ℚ) := by
        exact_mod_cast (show (7 : Int) < v by omega)
      have c2 : ((v : Int) : ℚ) ≤ ((10 : Int) : ℚ) := by exact_mod_cast h3
      push_cast at c1 c2 ⊢
      linarith
    · have c1 : ((7 : Int) : ℚ) < ((v : Int) : ℚ) := by
        exact_mod_cast (show (7 : Int) < v by omega)
      have c2 : ((v : Int) : ℚ) ≤ ((10 : Int) : ℚ) := by exact_mod_cast h3
      push_cast at c1 c2 ⊢
      linarith
  by_cases h4 : v ≤ 16
  · refine ⟨_, convertTrackerV_seg4 v (by omega) h4, ?_, ?_⟩
    · have c1 : ((10 : Int) : ℚ) < ((v : Int) : ℚ) := by
        exact_mod_cast (show (10 : Int) < v by omega)
      have c2 : ((v : Int) : ℚ) ≤ ((16 : Int) : ℚ) := by exact_mod_cast h4
      push_cast at c1 c2 ⊢
      linarith
    · have c1 : ((10 : Int) : ℚ) < ((v : Int) : ℚ) := by
        exact_mod_cast (show (10 : Int) < v by omega)
      have c2 : ((v : Int) : ℚ) ≤ ((16 : Int) : ℚ) := by exact_mod_cast h4
      push_cast at c1 c2 ⊢
      linarith
  by_cases h5 : v ≤ 34
  · refine ⟨_, convertTrackerV_seg5 v (by omega) h5, ?_, ?_⟩
    · have c1 : ((16 : Int) : ℚ) < ((v : Int) : ℚ) := by
        exact_mod_cast (show (16 : Int) < v by omega)
      have c2 : ((v : Int) : ℚ) ≤ ((34 : Int) : ℚ) := by exact_mod_cast h5
      push_cast at c1 c2 ⊢
      linarith
    · have c1 : ((16 : Int) : ℚ) < ((v : Int) : ℚ) := by
        exact_mod_cast (show (16 : Int) < v by omega)
      have c2 : ((v : Int) : ℚ) ≤ ((34 : Int) : ℚ) := by exact_mod_cast h5
      push_cast at c1 c2 ⊢
      linarith
  by_cases h6 : v ≤ 65
  · refine ⟨_, convertTrackerV_seg6 v (by omega) h6, ?_, ?_⟩
    · have c1 : ((34 : Int) : ℚ) < ((v : Int) : ℚ) := by
        exact_mod_cast (show (34 : Int) < v by omega)
      have c2 : ((v : Int) : ℚ) ≤ ((65 : Int) : ℚ) := by exact_mod_cast h6
      push_cast at c1 c2 ⊢
      linarith
    · have c1 : ((34 : Int) : ℚ) < ((v : Int) : ℚ) := by
        exact_mod_cast (show (34 : Int) < v by omega)
      have c2 : ((v : Int) : ℚ) ≤ ((65 : Int) : ℚ) := by exact_mod_cast h6
      push_cast at c1 c2 ⊢
      linarith
  by_cases h7 : v ≤ 129
  · refine ⟨_, convertTrackerV_seg7 v (by omega) h7, ?_, ?_⟩
    · have c1 : ((65 : Int) : ℚ) < ((v : Int) : ℚ) := by
        exact_mod_cast (show (65 : Int) < v by omega)
      have c2 : ((v : Int) : ℚ) ≤ ((129 : Int) : ℚ) := by exact_mod_cast h7
      push_cast at c1 c2 ⊢
      linarith
    · have c1 : ((65 : Int) : ℚ) < ((v : Int) : ℚ) := by
        exact_mod_cast (show (65 : Int) < v by omega)
      have c2 : ((v : Int) : ℚ) ≤ ((129 : Int) : ℚ) := by exact_mod_cast h7
      push_cast at c1 c2 ⊢
      linarith
  by_cases h8 : v ≤ 297
  · refine ⟨_, convertTrackerV_seg8 v (by omega) h8, ?_, ?_⟩
    · have c1 : ((129 : Int) : ℚ) < ((v : Int) : ℚ) := by
        exact_mod_cast (show (129 : Int) < v by omega)
      have c2 : ((v : Int) : ℚ) ≤ ((297 : Int) : ℚ) := by exact_mod_cast h8
      push_cast at c1 c2 ⊢
      linarith
    · have c1 : ((129 : Int) : ℚ) < ((v : Int) : ℚ) := by
        exact_mod_cast (show (129 : Int) < v by omega)
      have c2 : ((v : Int) : ℚ) ≤ ((297 : Int) : ℚ) := by exact_mod_cast h8
      push_cast at c1 c2 ⊢
      linarith
  by_cases h9 : v ≤ 569
  · refine ⟨_, convertTrackerV_seg9 v (by omega) h9, ?_, ?_⟩
    · have c1 : ((297 : Int) : ℚ) < ((v : Int) : ℚ) := by
        exact_mod_cast (show (297 : Int) < v by omega)
      have c2 : ((v : Int) : ℚ) ≤ ((569 : Int) : ℚ) := by exact_mod_cast h9
      push_cast at c1 c2 ⊢
      linarith
    · have c1 : ((297 : Int) : ℚ) < ((v : Int) : ℚ) := by
        exact_mod_cast (show (297 : Int) < v by omega)
      have c2 : ((v : Int) : ℚ) ≤ ((569 : Int) : ℚ) := by exact_mod_cast h9
      push_cast at c1 c2 ⊢
      linarith
  by_cases h10 : v ≤ 665
  · refine ⟨_, convertTrackerV_seg10 v (by omega) h10, ?_, ?_⟩
    · have c1 : ((569 : Int) : ℚ) < ((v : Int) : ℚ) := by
        exact_mod_cast (show (569 : Int) < v by omega)
      have c2 : ((v : Int) : ℚ) ≤ ((665 : Int) : ℚ) := by exact_mod_cast h10
      push_cast at c1 c2 ⊢
      linarith
    · have c1 : ((569 : Int) : ℚ) < ((v : Int) : ℚ) := by
        exact_mod_cast (show (569 : Int) < v by omega)
      have c2 : ((v : Int) : ℚ) ≤ ((665 : Int) : ℚ) := by exact_mod_cast h10
      push_cast at c1 c2 ⊢
      linarith
  by_cases h11 : v ≤ 727
  · refine ⟨_, convertTrackerV_seg11 v (by omega) h11, ?_, ?_⟩
    · have c1 : ((665 : Int) : ℚ) < ((v : Int) : ℚ) := by
        exact_mod_cast (show (665 : Int) < v by omega)
      have c2 : ((v : Int) : ℚ) ≤ ((727 : Int) : ℚ) := by exact_mod_cast h11
      push_cast at c1 c2 ⊢
      linarith
    · have c1 : ((665 : Int) : ℚ) < ((v : Int) : ℚ) := by
        exact_mod_cast (show (665 : Int) < v by omega)
      have c2 : ((v : Int) : ℚ) ≤ ((727 : Int) : ℚ) := by exact_mod_cast h11
      push_cast at c1 c2 ⊢
      linarith
  by_cases h12 : v ≤ 797
  · refine ⟨_, convertTrackerV_seg12 v (by omega) h12, ?_, ?_⟩
    · have c1 : ((727 : Int) : ℚ) < ((v : Int) : ℚ) := by
        exact_mod_cast (show (727 : Int) < v by omega)
      have c2 : ((v : Int) : ℚ) ≤ ((797 : Int) : ℚ) := by exact_mod_cast h12
      push_cast at c1 c2 ⊢
      linarith
    · have c1 : ((727 : Int) : ℚ) < ((v : Int) : ℚ) := by
        exact_mod_cast (show (727 : Int) < v by omega)
      have c2 : ((v : Int) : ℚ) ≤ ((797 : Int) : ℚ) := by exact_mod_cast h12
      push_cast at c1 c2 ⊢
      linarith
  by_cases h13 : v ≤ 827
  · refine ⟨_, convertTrackerV_seg13 v (by omega) h13, ?_, ?_⟩
    · have c1 : ((797 : Int) : ℚ) < ((v : Int) : ℚ) := by
        exact_mod_cast (show (797 : Int) < v by omega)
      have c2 : ((v : Int) : ℚ) ≤ ((827 : Int) : ℚ) := by exact_mod_cast h13
      push_cast at c1 c2 ⊢
      linarith
    · have c1 : ((797 : Int) : ℚ) < ((v : Int) : ℚ) := by
        exact_mod_cast (show (797 : Int) < v by omega)
      have c2 : ((v : Int) : ℚ) ≤ ((827 : Int) : ℚ) := by exact_mod_cast h13
      push_cast at c1 c2 ⊢
      linarith
  refine ⟨_, convertTrackerV_seg14 v (by omega), ?_, ?_⟩
  · norm_num
  · norm_num

/-- One more unit of raw sample never lowers the result of `convertTrackerV`. -/
theorem convertTrackerV_succ (v : Int) (qu qv : ℚ) (hu : convertTrackerV v = some qu)
    (hv : convertTrackerV (v + 1) = some qv) : qu ≤ qv := by
  by_cases h0 : v ≤ 3
  · by_cases hs : v + 1 ≤ 3
    · rw [convertTrackerV_seg0 v h0] at hu
      rw [convertTrackerV_seg0 (v + 1) (by omega)] at hv
      simp only [Option.some.injEq] at hu hv
      subst hu hv
      have c2 : ((v : Int) : ℚ) ≤ ((3 : Int) : ℚ) := by exact_mod_cast h0
      push_cast at c2 ⊢
      linarith
    · rw [convertTrackerV_seg0 v h0] at hu
      rw [convertTrackerV_seg1 (v + 1) (by omega) (by omega)] at hv
      simp only [Option.some.injEq] at hu hv
      subst hu hv
      have c2 : ((v : Int) : ℚ) ≤ ((3 : Int) : ℚ) := by exact_mod_cast h0
      have c3 : ((3 : Int) : ℚ) < ((v : Int) : ℚ) + 1 := by
        exact_mod_cast (show (3 : Int) < v + 1 by omega)
      push_cast at c2 c3 ⊢
      linarith
  by_cases h1 : v ≤ 4
  · by_cases hs : v + 1 ≤ 4
    · rw [convertTrackerV_seg1 v (by omega) h1] at hu
      rw [convertTrackerV_seg1 (v + 1) (by omega) (by omega)] at hv
      simp only [Option.some.injEq] at hu hv
      subst hu hv
      have c1 : ((3 : Int) : ℚ) < ((v : Int) : ℚ) := by
        exact_mod_cast (show (3 : Int) < v by omega)
      have c2 : ((v : Int) : ℚ) ≤ ((4 : Int) : ℚ) := by exact_mod_cast h1
      push_cast at c1 c2 ⊢
      linarith
    · rw [convertTrackerV_seg1 v (by omega) h1] at hu
      rw [convertTrackerV_seg2 (v + 1) (by omega) (by omega)] at hv
      simp only [Option.some.injEq] at hu hv
      subst hu hv
      have c1 : ((3 : Int) : ℚ) < ((v : Int) : ℚ) := by
        exact_mod_cast (show (3 : Int) < v by omega)
      have c2 : ((v : Int) : ℚ) ≤ ((4 : Int) : ℚ) := by exact_mod_cast h1
      have c3 : ((4 : Int) : ℚ) < ((v : Int) : ℚ) + 1 := by
        exact_mod_cast (show (4 : Int) < v + 1 by omega)
      push_cast at c1 c2 c3 ⊢
      linarith
  by_cases h2 : v ≤ 7
  · by_cases hs : v + 1 ≤ 7
    · rw [convertTrackerV_seg2 v (by omega) h2] at hu
      rw [convertTrackerV_seg2 (v + 1) (by omega) (by omega)] at hv
      simp only [Option.some.injEq] at hu hv
      subst hu hv
      have c1 : ((4 : Int) : ℚ) < ((v : Int) : ℚ) := by
        exact_mod_cast (show (4 : Int) < v by omega)
      have c2 : ((v : Int) : ℚ) ≤ ((7 : Int) : ℚ) := by exact_mod_cast h2
      push_cast at c1 c2 ⊢
      linarith
    · rw [convertTrackerV_seg2 v (by omega) h2] at hu
      rw [convertTrackerV_seg3 (v + 1) (by omega) (by omega)] at hv
      simp only [Option.some.injEq] at hu hv
      subst hu hv
      have c1 : ((4 : Int) : ℚ) < ((v : Int) : ℚ) := by
        exact_mod_cast (show (4 : Int) < v by omega)
      have c2 : ((v : Int) : ℚ) ≤ ((7 : Int) : ℚ) := by exact_mod_cast h2
      have c3 : ((7 : Int) : ℚ) < ((v : Int) : ℚ) + 1 := by
        exact_mod_cast (show (7 : Int) < v + 1 by omega)
      push_cast at c1 c2 c3 ⊢
      linarith
  by_cases h3 : v ≤ 10
  · by_cases hs : v + 1 ≤ 10
    · rw [convertTrackerV_seg3 v (by omega) h3] at hu
      rw [convertTrackerV_seg3 (v + 1) (by omega) (by omega)] at hv
      simp only [Option.some.injEq] at hu hv
      subst hu hv
      have c1 : ((7 : Int) : ℚ) < ((v : Int) : ℚ) := by
        exact_mod_cast (show (7 : Int) < v by omega)
      have c2 : ((v : Int) : ℚ) ≤ ((10 : Int) : ℚ) := by exact_mod_cast h3
      push_cast at c1 c2 ⊢
      linarith
    · rw [convertTrackerV_seg3 v (by omega) h3] at hu
      rw [convertTrackerV_seg4 (v + 1) (by omega) (by omega)] at hv
      simp only [Option.some.injEq] at hu hv
      subst hu hv
      have c1 : ((7 : Int) : ℚ) < ((v : Int) : ℚ) := by
        exact_mod_cast (show (7 : Int) < v by omega)
      have c2 : ((v : Int) : ℚ) ≤ ((10 : Int) : ℚ) := by exact_mod_cast h3
      have c3 : ((10 : Int) : ℚ) < ((v : Int) : ℚ) + 1 := by
        exact_mod_cast (show (10 : Int) < v + 1 by omega)
      push_cast at c1 c2 c3 ⊢
      linarith
  by_cases h4 : v ≤ 16
  · by_cases hs : v + 1 ≤ 16
    · rw [convertTrackerV_seg4 v (by omega) h4] at hu
      rw [convertTrackerV_seg4 (v + 1) (by omega) (by omega)] at hv
      simp only [Option.some.injEq] at hu hv
      subst hu hv
      have c1 : ((10 : Int) : ℚ) < ((v : Int) : ℚ) := by
        exact_mod_cast (show (10 : Int) < v by omega)
      have c2 : ((v : Int) : ℚ) ≤ ((16 : Int) : ℚ) := by exact_mod_cast h4
      push_cast at c1 c2 ⊢
      linarith
    · rw [convertTrackerV_seg4 v (by omega) h4] at hu
      rw [convertTrackerV_seg5 (v + 1) (by omega) (by omega)] at hv
      simp only [Option.some.injEq] at hu hv
      subst hu hv
      have c1 : ((10 : Int) : ℚ) < ((v : Int) : ℚ) := by
        exact_mod_cast (show (10 : Int) < v by omega)
      have c2 : ((v : Int) : ℚ) ≤ ((16 : Int) : ℚ) := by exact_mod_cast h4
      have c3 : ((16 : Int) : ℚ) < ((v : Int) : ℚ) + 1 := by
        exact_mod_cast (show (16 : Int) < v + 1 by omega)
      push_cast at c1 c2 c3 ⊢
      linarith
  by_cases h5 : v ≤ 34
  · by_cases hs : v + 1 ≤ 34
    · rw [convertTrackerV_seg5 v (by omega) h5] at hu
      rw [convertTrackerV_seg5 (v + 1) (by omega) (by omega)] at hv
      simp only [Option.some.injEq] at hu hv
      subst hu hv
      have c1 : ((16 : Int) : ℚ) < ((v : Int) : ℚ) := by
        exact_mod_cast (show (16 : Int) < v by omega)
      have c2 : ((v : Int) : ℚ) ≤ ((34 : Int) : ℚ) := by exact_mod_cast h5
      push_cast at c1 c2 ⊢
      linarith
    · rw [convertTrackerV_seg5 v (by omega) h5] at hu
      rw [convertTrackerV_seg6 (v + 1) (by omega) (by omega)] at hv
      simp only [Option.some.injEq] at hu hv
      subst hu hv
      have c1 : ((16 : Int) : ℚ) < ((v : Int) : ℚ) := by
        exact_mod_cast (show (16 : Int) < v by omega)
      have c2 : ((v : Int) : ℚ) ≤ ((34 : Int) : ℚ) := by exact_mod_cast h5
      have c3 : ((34 : Int) : ℚ) < ((v : Int) : ℚ) + 1 := by
        exact_mod_cast (show (34 : Int) < v + 1 by omega)
      push_cast at c1 c2 c3 ⊢
      linarith
  by_cases h6 : v ≤ 65
  · by_cases hs : v + 1 ≤ 65
    · rw [convertTrackerV_seg6 v (by omega) h6] at hu
      rw [convertTrackerV_seg6 (v + 1) (by omega) (by omega)] at hv
      simp only [Option.some.injEq] at hu hv
      subst hu hv
      have c1 : ((34 : Int) : ℚ) < ((v : Int) : ℚ) := by
        exact_mod_cast (show (34 : Int) < v by omega)
      have c2 : ((v : Int) : ℚ) ≤ ((65 : Int) : ℚ) := by exact_mod_cast h6
      push_cast at c1 c2 ⊢
      linarith
    · rw [convertTrackerV_seg6 v (by omega) h6] at hu
      rw [convertTrackerV_seg7 (v + 1) (by omega) (by omega)] at hv
      simp only [Option.some.injEq] at hu hv
      subst hu hv
      have c1 : ((34 : Int) : ℚ) < ((v : Int) : ℚ) := by
        exact_mod_cast (show (34 : Int) < v by omega)
      have c2 : ((v : Int) : ℚ) ≤ ((65 : Int) : ℚ) := by exact_mod_cast h6
      have c3 : ((65 : Int) : ℚ) < ((v : Int) : ℚ) + 1 := by
        exact_mod_cast (show (65 : Int) < v + 1 by omega)
      push_cast at c1 c2 c3 ⊢
      linarith
  by_cases h7 : v ≤ 129
  · by_cases hs : v + 1 ≤ 129
    · rw [convertTrackerV_seg7 v (by omega) h7] at hu
      rw [convertTrackerV_seg7 (v + 1) (by omega) (by omega)] at hv
      simp only [Option.some.injEq] at hu hv
      subst hu hv
      have c1 : ((65 : Int) : ℚ) < ((v : Int) : ℚ) := by
        exact_mod_cast (show (65 : Int) < v by omega)
      have c2 : ((v : Int) : ℚ) ≤ ((129 : Int) : ℚ) := by exact_mod_cast h7
      push_cast at c1 c2 ⊢
      linarith
    · rw [convertTrackerV_seg7 v (by omega) h7] at hu
      rw [convertTrackerV_seg8 (v + 1) (by omega) (by omega)] at hv
      simp only [Option.some.injEq] at hu hv
      subst hu hv
      have c1 : ((65 : Int) : ℚ) < ((v : Int) : ℚ) := by
        exact_mod_cast (show (65 : Int) < v by omega)
      have c2 : ((v : Int) : ℚ) ≤ ((129 : Int) : ℚ) := by exact_mod_cast h7
      have c3 : ((129 : Int) : ℚ) < ((v : Int) : ℚ) + 1 := by
        exact_mod_cast (show (129 : Int) < v + 1 by omega)
      push_cast at c1 c2 c3 ⊢
      linarith
  by_cases h8 : v ≤ 297
  · by_cases hs : v + 1 ≤ 297
    · rw [convertTrackerV_seg8 v (by omega) h8] at hu
      rw [convertTrackerV_seg8 (v + 1) (by omega) (by omega)] at hv
      simp only [Option.some.injEq] at hu hv
      subst hu hv
      have c1 : ((129 : Int) : ℚ) < ((v : Int) : ℚ) := by
        exact_mod_cast (show (129 : Int) < v by omega)
      have c2 : ((v : Int) : ℚ) ≤ ((297 : Int) : ℚ) := by exact_mod_cast h8
      push_cast at c1 c2 ⊢
      linarith
    · rw [convertTrackerV_seg8 v (by omega) h8] at hu
      rw [convertTrackerV_seg9 (v + 1) (by omega) (by omega)] at hv
      simp only [Option.some.injEq] at hu hv
      subst hu hv
      have c1 : ((129 : Int) : ℚ) < ((v : Int) : ℚ) := by
        exact_mod_cast (show (129 : Int) < v by omega)
      have c2 : ((v : Int) : ℚ) ≤ ((297 : Int) : ℚ) := by exact_mod_cast h8
      have c3 : ((297 : Int) : ℚ) < ((v : Int) : ℚ) + 1 := by
        exact_mod_cast (show (297 : Int) < v + 1 by omega)
      push_cast at c1 c2 c3 ⊢
      linarith
  by_cases h9 : v ≤ 569
  · by_cases hs : v + 1 ≤ 569
    · rw [convertTrackerV_seg9 v (by omega) h9] at hu
      rw [convertTrackerV_seg9 (v + 1) (by omega) (by omega)] at hv
      simp only [Option.some.injEq] at hu hv
      subst hu hv
      have c1 : ((297 : Int) : ℚ) < ((v : Int) : ℚ) := by
        exact_mod_cast (show (297 : Int) < v by omega)
      have c2 : ((v : Int) : ℚ) ≤ ((569 : Int) : ℚ) := by exact_mod_cast h9
      push_cast at c1 c2 ⊢
      linarith
    · rw [convertTrackerV_seg9 v (by omega) h9] at hu
      rw [convertTrackerV_seg10 (v + 1) (by omega) (by omega)] at hv
      simp only [Option.some.injEq] at hu hv
      subst hu hv
      have c1 : ((297 : Int) : ℚ) < ((v : Int) : ℚ) := by
        exact_mod_cast (show (297 : Int) < v by omega)
      have c2 : ((v : Int) : ℚ) ≤ ((569 : Int) : ℚ) := by exact_mod_cast h9
      have c3 : ((569 : Int) : ℚ) < ((v : Int) : ℚ) + 1 := by
        exact_mod_cast (show (569 : Int) < v + 1 by omega)
      push_cast at c1 c2 c3 ⊢
      linarith
  by_cases h10 : v ≤ 665
  · by_cases hs : v + 1 ≤ 665
    · rw [convertTrackerV_seg10 v (by omega) h10] at hu
      rw [convertTrackerV_seg10 (v + 1) (by omega) (by omega)] at hv
      simp only [Option.some.injEq] at hu hv
      subst hu hv
      have c1 : ((569 : Int) : ℚ) < ((v : Int) : ℚ) := by
        exact_mod_cast (show (569 : Int) < v by omega)
      have c2 : ((v : Int) : ℚ) ≤ ((665 : Int) : ℚ) := by exact_mod_cast h10
      push_cast at c1 c2 ⊢
      linarith
    · rw [convertTrackerV_seg10 v (by omega) h10] at hu
      rw [convertTrackerV_seg11 (v + 1) (by omega) (by omega)] at hv
      simp only [Option.some.injEq] at hu hv
      subst hu hv
      have c1 : ((569 : Int) : ℚ) < ((v : Int) : ℚ) := by
        exact_mod_cast (show (569 : Int) < v by omega)
      have c2 : ((v : Int) : ℚ) ≤ ((665 : Int) : ℚ) := by exact_mod_cast h10
      have c3 : ((665 : Int) : ℚ) < ((v : Int) : ℚ) + 1 := by
        exact_mod_cast (show (665 : Int) < v + 1 by omega)
      push_cast at c1 c2 c3 ⊢
      linarith
  by_cases h11 : v ≤ 727
  · by_cases hs : v + 1 ≤ 727
    · rw [convertTrackerV_seg11 v (by omega) h11] at hu
      rw [convertTrackerV_seg11 (v + 1) (by omega) (by omega)] at hv
      simp only [Option.some.injEq] at hu hv
      subst hu hv
      have c1 : ((665 : Int) : ℚ) < ((v : Int) : ℚ) := by
        exact_mod_cast (show (665 : Int) < v by omega)
      have c2 : ((v : Int) : ℚ) ≤ ((727 : Int) : ℚ) := by exact_mod_cast h11
      push_cast at c1 c2 ⊢
      linarith
    · rw [convertTrackerV_seg11 v (by omega) h11] at hu
      rw [convertTrackerV_seg12 (v + 1) (by omega) (by omega)] at hv
      simp only [Option.some.injEq] at hu hv
      subst hu hv
      have c1 : ((665 : Int) : ℚ) < ((v : Int) : ℚ) := by
        exact_mod_cast (show (665 : Int) < v by omega)
      have c2 : ((v : Int) : ℚ) ≤ ((727 : Int) : ℚ) := by exact_mod_cast h11
      have c3 : ((727 : Int) : ℚ) < ((v : Int) : ℚ) + 1 := by
        exact_mod_cast (show (727 : Int) < v + 1 by omega)
      push_cast at c1 c2 c3 ⊢
      linarith
  by_cases h12 : v ≤ 797
  · by_cases hs : v + 1 ≤ 797
    · rw [convertTrackerV_seg12 v (by omega) h12] at hu
      rw [convertTrackerV_seg12 (v + 1) (by omega) (by omega)] at hv
      simp only [Option.some.injEq] at hu hv
      subst hu hv
      have c1 : ((727 : Int) : ℚ) < ((v : Int) : ℚ) := by
        exact_mod_cast (show (727 : Int) < v by omega)
      have c2 : ((v : Int) : ℚ) ≤ ((797 : Int) : ℚ) := by exact_mod_cast h12
      push_cast at c1 c2 ⊢
      linarith
    · rw [convertTrackerV_seg12 v (by omega) h12] at hu
      rw [convertTrackerV_seg13 (v + 1) (by omega) (by omega)] at hv
      simp only [Option.some.injEq] at hu hv
      subst hu hv
      have c1 : ((727 : Int) : ℚ) < ((v : Int) : ℚ) := by
        exact_mod_cast (show (727 : Int) < v by omega)
      have c2 : ((v : Int) : ℚ) ≤ ((797 : Int) : ℚ) := by exact_mod_cast h12
      have c3 : ((797 : Int) : ℚ) < ((v : Int) : ℚ) + 1 := by
        exact_mod_cast (show (797 : Int) < v + 1 by omega)
      push_cast at c1 c2 c3 ⊢
      linarith
  by_cases h13 : v ≤ 827
  · by_cases hs : v + 1 ≤ 827
    · rw [convertTrackerV_seg13 v (by omega) h13] at hu
      rw [convertTrackerV_seg13 (v + 1) (by omega) (by omega)] at hv
      simp only [Option.some.injEq] at hu hv
      subst hu hv
      have c1 : ((797 : Int) : ℚ) < ((v : Int) : ℚ) := by
        exact_mod_cast (show (797 : Int) < v by omega)
      have c2 : ((v : Int) : ℚ) ≤ ((827 : Int) : ℚ) := by exact_mod_cast h13
      push_cast at c1 c2 ⊢
      linarith
    · rw [convertTrackerV_seg13 v (by omega) h13] at hu
      rw [convertTrackerV_seg14 (v + 1) (by omega)] at hv
      simp only [Option.some.injEq] at hu hv
      subst hu hv
      have c1 : ((797 : Int) : ℚ) < ((v : Int) : ℚ) := by
        exact_mod_cast (show (797 : Int) < v by omega)
      have c2 : ((v : Int) : ℚ) ≤ ((827 : Int) : ℚ) := by exact_mod_cast h13
      have c3 : ((827 : Int) : ℚ) < ((v : Int) : ℚ) + 1 := by
        exact_mod_cast (show (827 : Int) < v + 1 by omega)
      push_cast at c1 c2 c3 ⊢
      linarith
  rw [convertTrackerV_seg14 v (by omega)] at hu
  rw [convertTrackerV_seg14 (v + 1) (by omega)] at hv
  simp only [Option.some.injEq] at hu hv
  subst hu hv
  have c1 : ((827 : Int) : ℚ) < ((v : Int) : ℚ) := by
    exact_mod_cast (show (827 : Int) < v by omega)
  push_cast at c1 ⊢
  linarith

theorem convertBaselineV_seg0 (v : Int) (hhi : v ≤ 15) :
    convertBaselineV v =
      some (4.04) := by
  rw [
    convertBaselineV_eq, if_pos hhi]

theorem convertBaselineV_seg1 (v : Int) (hlo : 15 < v) (hhi : v ≤ 22) :
    convertBaselineV v =
      some (4.04 + (5.02 - 4.04) / ((22 - 15 : Int) : ℚ) * ((v - 15 : Int) : ℚ)) := by
  rw [
    convertBaselineV_eq, if_neg (show ¬ v ≤ 15 by omega), if_pos hhi]

theorem convertBaselineV_seg2 (v : Int) (hlo : 22 < v) (hhi : v ≤ 29) :
    convertBaselineV v =
      some (5.02 + (6.00 - 5.02) / ((29 - 22 : Int) : ℚ) * ((v - 22 : Int) : ℚ)) := by
  rw [
    convertBaselineV_eq, if_neg (show ¬ v ≤ 15 by omega), if_neg (show ¬ v ≤ 22 by omega),
    if_pos hhi]

theorem convertBaselineV_seg3 (v : Int) (hlo : 29 < v) (hhi : v ≤ 44) :
    convertBaselineV v =
      some (6.00 + (7.01 - 6.00) / ((44 - 29 : Int) : ℚ) * ((v - 29 : Int) : ℚ)) := by
  rw [
    convertBaselineV_eq, if_neg (show ¬ v ≤ 15 by omega), if_neg (show ¬ v ≤ 22 by omega),
    if_neg (show ¬ v ≤ 29 by omega), if_pos hhi]

theorem convertBaselineV_seg4 (v : Int) (hlo : 44 < v) (hhi : v ≤ 68) :
    convertBaselineV v =
      some (7.01 + (8.01 - 7.01) / ((68 - 44 : Int) : ℚ) * ((v - 44 : Int) : ℚ)) := by
  rw [
    convertBaselineV_eq, if_neg (show ¬ v ≤ 15 by omega), if_neg (show ¬ v ≤ 22 by omega),
    if_neg (show ¬ v ≤ 29 by omega), if_neg (show ¬ v ≤ 44 by omega), if_pos hhi]

theorem convertBaselineV_seg5 (v : Int) (hlo : 68 < v) (hhi : v ≤ 99) :
    convertBaselineV v =
      some (8.01 + (9.00 - 8.01) / ((99 - 68 : Int) : ℚ) * ((v - 68 : Int) : ℚ)) := by
  rw [
    convertBaselineV_eq, if_neg (show ¬ v ≤ 15 by omega), if_neg (show ¬ v ≤ 22 by omega),
    if_neg (show ¬ v ≤ 29 by omega), if_neg (show ¬ v ≤ 44 by omega),
    if_neg (show ¬ v ≤ 68 by omega), if_pos hhi]

theorem convertBaselineV_seg6 (v : Int) (hlo : 99 < v) (hhi : v ≤ 140) :
    convertBaselineV v =
      some (9.00 + (10.01 - 9.00) / ((140 - 99 : Int) : ℚ) * ((v - 99 : Int) : ℚ)) := by
  rw [
    convertBaselineV_eq, if_neg (show ¬ v ≤ 15 by omega), if_neg (show ¬ v ≤ 22 by omega),
    if_neg (show ¬ v ≤ 29 by omega), if_neg (show ¬ v ≤ 44 by omega),
    if_neg (show ¬ v ≤ 68 by omega), if_neg (show ¬ v ≤ 99 by omega), if_pos hhi]

theorem convertBaselineV_seg7 (v : Int) (hlo : 140 < v) (hhi : v ≤ 250) :
    convertBaselineV v =
      some (10.01 + (11.00 - 10.01) / ((250 - 140 : Int) : ℚ) * ((v - 140 : Int) : ℚ)) := by
  rw [
    convertBaselineV_eq, if_neg (show ¬ v ≤ 15 by omega), if_neg (show ¬ v ≤ 22 by omega),
    if_neg (show ¬ v ≤ 29 by omega), if_neg (show ¬ v ≤ 44 by omega),
    if_neg (show ¬ v ≤ 68 by omega), if_neg (show ¬ v ≤ 99 by omega),
    if_neg (show ¬ v ≤ 140 by omega), if_pos hhi]

theorem convertBaselineV_seg8 (v : Int) (hlo : 250 < v) (hhi : v ≤ 436) :
    convertBaselineV v =
      some (11.00 + (12.01 - 11.00) / ((436 - 250 : Int) : ℚ) * ((v - 250 : Int) : ℚ)) := by
  rw [
    convertBaselineV_eq, if_neg (show ¬ v ≤ 15 by omega), if_neg (show ¬ v ≤ 22 by omega),
    if_neg (show ¬ v ≤ 29 by omega), if_neg (show ¬ v ≤ 44 by omega),
    if_neg (show ¬ v ≤ 68 by omega), if_neg (show ¬ v ≤ 99 by omega),
    if_neg (show ¬ v ≤ 140 by omega), if_neg (show ¬ v ≤ 250 by omega), if_pos hhi]

theorem convertBaselineV_seg9 (v : Int) (hlo : 436 < v) (hhi : v ≤ 601) :
    convertBaselineV v =
      some (12.01 + (12.97 - 12.01) / ((601 - 436 : Int) : ℚ) * ((v - 436 : Int) : ℚ)) := by
  rw [
    convertBaselineV_eq, if_neg (show ¬ v ≤ 15 by omega), if_neg (show ¬ v ≤ 22 by omega),
    if_neg (show ¬ v ≤ 29 by omega), if_neg (show ¬ v ≤ 44 by omega),
    if_neg (show ¬ v ≤ 68 by omega), if_neg (show ¬ v ≤ 99 by omega),
    if_neg (show ¬ v ≤ 140 by omega), if_neg (show ¬ v ≤ 250 by omega),
    if_neg (show ¬ v ≤ 436 by omega), if_pos hhi]

theorem convertBaselineV_seg10 (v : Int) (hlo : 601 < v) (hhi : v ≤ 691) :
    convertBaselineV v =
      some (12.97 + (14.00 - 12.97) / ((691 - 601 : Int) : ℚ) * ((v - 601 : Int) : ℚ)) := by
  rw [
    convertBaselineV_eq, if_neg (show ¬ v ≤ 15 by omega), if_neg (show ¬ v ≤ 22 by omega),
    if_neg (show ¬ v ≤ 29 by omega), if_neg (show ¬ v ≤ 44 by omega),
    if_neg (show ¬ v ≤ 68 by omega), if_neg (show ¬ v ≤ 99 by omega),
    if_neg (show ¬ v ≤ 140 by omega), if_neg (show ¬ v ≤ 250 by omega),
    if_neg (show ¬ v ≤ 436 by omega), if_neg (show ¬ v ≤ 601 by omega), if_pos hhi]

theorem convertBaselineV_seg11 (v : Int) (hlo : 691 < v) (hhi : v ≤ 748) :
    convertBaselineV v =
      some (14.00 + (15.00 - 14.00) / ((748 - 691 : Int) : ℚ) * ((v - 691 : Int) : ℚ)) := by
  rw [
    convertBaselineV_eq, if_neg (show ¬ v ≤ 15 by omega), if_neg (show ¬ v ≤ 22 by omega),
    if_neg (show ¬ v ≤ 29 by omega), if_neg (show ¬ v ≤ 44 by omega),
    if_neg (show ¬ v ≤ 68 by omega), if_neg (show ¬ v ≤ 99 by omega),
    if_neg (show ¬ v ≤ 140 by omega), if_neg (show ¬ v ≤ 250 by omega),
    if_neg (show ¬ v ≤ 436 by omega), if_neg (show ¬ v ≤ 601 by omega),
    if_neg (show ¬ v ≤ 691 by omega), if_pos hhi]

theorem convertBaselineV_seg12 (v : Int) (hlo : 748 < v) (hhi : v ≤ 806) :
    convertBaselineV v =
      some (15.00 + (16.01 - 15.00) / ((806 - 748 : Int) : ℚ) * ((v - 748 : Int) : ℚ)) := by
  rw [
    convertBaselineV_eq, if_neg (show ¬ v ≤ 15 by omega), if_neg (show ¬ v ≤ 22 by omega),
    if_neg (show ¬ v ≤ 29 by omega), if_neg (show ¬ v ≤ 44 by omega),
    if_neg (show ¬ v ≤ 68 by omega), if_neg (show ¬ v ≤ 99 by omega),
    if_neg (show ¬ v ≤ 140 by omega), if_neg (show ¬ v ≤ 250 by omega),
    if_neg (show ¬ v ≤ 436 by omega), if_neg (show ¬ v ≤ 601 by omega),
    if_neg (show ¬ v ≤ 691 by omega), if_neg (show ¬ v ≤ 748 by omega), if_pos hhi]

theorem convertBaselineV_seg13 (v : Int) (hlo : 806 < v) (hhi : v ≤ 838) :
    convertBaselineV v =
      some (16.01 + (16.50 - 16.01) / ((838 - 806 : Int) : ℚ) * ((v - 806 : Int) : ℚ)) := by
  rw [
    convertBaselineV_eq, if_neg (show ¬ v ≤ 15 by omega), if_neg (show ¬ v ≤ 22 by omega),
    if_neg (show ¬ v ≤ 29 by omega), if_neg (show ¬ v ≤ 44 by omega),
    if_neg (show ¬ v ≤ 68 by omega), if_neg (show ¬ v ≤ 99 by omega),
    if_neg (show ¬ v ≤ 140 by omega), if_neg (show ¬ v ≤ 250 by omega),
    if_neg (show ¬ v ≤ 436 by omega), if_neg (show ¬ v ≤ 601 by omega),
    if_neg (show ¬ v ≤ 691 by omega), if_neg (show ¬ v ≤ 748 by omega),
    if_neg (show ¬ v ≤ 806 by omega), if_pos hhi]

theorem convertBaselineV_seg14 (v : Int) (hlo : 838 < v) :
    convertBaselineV v =
      some (16.50) := by
  rw [
    convertBaselineV_eq, if_neg (show ¬ v ≤ 15 by omega), if_neg (show ¬ v ≤ 22 by omega),
    if_neg (show ¬ v ≤ 29 by omega), if_neg (show ¬ v ≤ 44 by omega),
    if_neg (show ¬ v ≤ 68 by omega), if_neg (show ¬ v ≤ 99 by omega),
    if_neg (show ¬ v ≤ 140 by omega), if_neg (show ¬ v ≤ 250 by omega),
    if_neg (show ¬ v ≤ 436 by omega), if_neg (show ¬ v ≤ 601 by omega),
    if_neg (show ¬ v ≤ 691 by omega), if_neg (show ¬ v ≤ 748 by omega),
    if_neg (show ¬ v ≤ 806 by omega), if_neg (show ¬ v ≤ 838 by omega)]

/-- `convertBaselineV` always has a result, between the first and the last voltage of
its table. -/
theorem convertBaselineV_range (v : Int) :
    ∃ q, convertBaselineV v = some q ∧ 4.04 ≤ q ∧ q ≤ 16.50 := by
  by_cases h0 : v ≤ 15
  · refine ⟨_, convertBaselineV_seg0 v h0, ?_, ?_⟩
    · norm_num
    · norm_num
  by_cases h1 : v ≤ 22
  · refine ⟨_, convertBaselineV_seg1 v (by omega) h1, ?_, ?_⟩
    · have c1 : ((15 : Int) : ℚ) < ((v : Int) : ℚ) := by
        exact_mod_cast (show (15 : Int) < v by omega)
      have c2 : ((v : Int) : ℚ) ≤ ((22 : Int) : ℚ) := by exact_mod_cast h1
      push_cast at c1 c2 ⊢
      linarith
    · have c1 : ((15 : Int) : ℚ) < ((v : Int) : ℚ) := by
        exact_mod_cast (show (15 : Int) < v by omega)
      have c2 : ((v : Int) : ℚ) ≤ ((22 : Int) : ℚ) := by exact_mod_cast h1
      push_cast at c1 c2 ⊢
      linarith
  by_cases h2 : v ≤ 29
  · refine ⟨_, convertBaselineV_seg2 v (by omega) h2, ?_, ?_⟩
    · have c1 : ((22 : Int) : ℚ) < ((v : Int) : ℚ) := by
        exact_mod_cast (show (22 : Int) < v by omega)
      have c2 : ((v : Int) : ℚ) ≤ ((29 : Int) : ℚ) := by exact_mod_cast h2
      push_cast at c1 c2 ⊢
      linarith
    · have c1 : ((22 : Int) : ℚ) < ((v : Int) : ℚ) := by
        exact_mod_cast (show (22 : Int) < v by omega)
      have c2 : ((v : Int) : ℚ) ≤ ((29 : Int) : ℚ) := by exact_mod_cast h2
      push_cast at c1 c2 ⊢
      linarith
  by_cases h3 : v ≤ 44
  · refine ⟨_, convertBaselineV_seg3 v (by omega) h3, ?_, ?_⟩
    · have c1 : ((29 : Int) : ℚ) < ((v : Int) : ℚ) := by
        exact_mod_cast (show (29 : Int) < v by omega)
      have c2 : ((v : Int) : ℚ) ≤ ((44 : Int) : ℚ) := by exact_mod_cast h3
      push_cast at c1 c2 ⊢
      linarith
    · have c1 : ((29 : Int) : ℚ) < ((v : Int) : ℚ) := by
        exact_mod_cast (show (29 : Int) < v by omega)
      have c2 : ((v : Int) : ℚ) ≤ ((44 : Int) : ℚ) := by exact_mod_cast h3
      push_cast at c1 c2 ⊢
      linarith
  by_cases h4 : v ≤ 68
  · refine ⟨_, convertBaselineV_seg4 v (by omega) h4, ?_, ?_⟩
    · have c1 : ((44 : Int) : ℚ) < ((v : Int) : ℚ) := by
        exact_mod_cast (show (44 : Int) < v by omega)
      have c2 : ((v : Int) : ℚ) ≤ ((68 : Int) : ℚ) := by exact_mod_cast h4
      push_cast at c1 c2 ⊢
      linarith
    · have c1 : ((44 : Int) : ℚ) < ((v : Int) : ℚ) := by
        exact_mod_cast (show (44 : Int) < v by omega)
      have c2 : ((v : Int) : ℚ) ≤ ((68 : Int) : ℚ) := by exact_mod_cast h4
      push_cast at c1 c2 ⊢
      linarith
  by_cases h5 : v ≤ 99
  · refine ⟨_, convertBaselineV_seg5 v (by omega) h5, ?_, ?_⟩
    · have c1 : ((68 : Int) : ℚ) < ((v : Int) : ℚ) := by
        exact_mod_cast (show (68 : Int) < v by omega)
      have c2 : ((v : Int) : ℚ) ≤ ((99 : Int) : ℚ) := by exact_mod_cast h5
      push_cast at c1 c2 ⊢
      linarith
    · have c1 : ((68 : Int) : ℚ) < ((v : Int) : ℚ) := by
        exact_mod_cast (show (68 : Int) < v by omega)
      have c2 : ((v : Int) : ℚ) ≤ ((99 : Int) : ℚ) := by exact_mod_cast h5
      push_cast at c1 c2 ⊢
      linarith
  by_cases h6 : v ≤ 140
  · refine ⟨_, convertBaselineV_seg6 v (by omega) h6, ?_, ?_⟩
    · have c1 : ((99 : Int) : ℚ) < ((v : Int) : ℚ) := by
        exact_mod_cast (show (99 : Int) < v by omega)
      have c2 : ((v : Int) : ℚ) ≤ ((140 : Int) : ℚ) := by exact_mod_cast h6
      push_cast at c1 c2 ⊢
      linarith
    · have c1 : ((99 : Int) : ℚ) < ((v : Int) : ℚ) := by
        exact_mod_cast (show (99 : Int) < v by omega)
      have c2 : ((v : Int) : ℚ) ≤ ((140 : Int) : ℚ) := by exact_mod_cast h6
      push_cast at c1 c2 ⊢
      linarith
  by_cases h7 : v ≤ 250
  · refine ⟨_, convertBaselineV_seg7 v (by omega) h7, ?_, ?_⟩
    · have c1 : ((140 : Int) : ℚ) < ((v : Int) : ℚ) := by
        exact_mod_cast (show (140 : Int) < v by omega)
      have c2 : ((v : Int) : ℚ) ≤ ((250 : Int) : ℚ) := by exact_mod_cast h7
      push_cast at c1 c2 ⊢
      linarith
    · have c1 : ((140 : Int) : ℚ) < ((v : Int) : ℚ) := by
        exact_mod_cast (show (140 : Int) < v by omega)
      have c2 : ((v : Int) : ℚ) ≤ ((250 : Int) : ℚ) := by exact_mod_cast h7
      push_cast at c1 c2 ⊢
      linarith
  by_cases h8 : v ≤ 436
  · refine ⟨_, convertBaselineV_seg8 v (by omega) h8, ?_, ?_⟩
    · have c1 : ((250 : Int) : ℚ) < ((v : Int) : ℚ) := by
        exact_mod_cast (show (250 : Int) < v by omega)
      have c2 : ((v : Int) : ℚ) ≤ ((436 : Int) : ℚ) := by exact_mod_cast h8
      push_cast at c1 c2 ⊢
      linarith
    · have c1 : ((250 : Int) : ℚ) < ((v : Int) : ℚ) := by
        exact_mod_cast (show (250 : Int) < v by omega)
      have c2 : ((v : Int) : ℚ) ≤ ((436 : Int) : ℚ) := by exact_mod_cast h8
      push_cast at c1 c2 ⊢
      linarith
  by_cases h9 : v ≤ 601
  · refine ⟨_, convertBaselineV_seg9 v (by omega) h9, ?_, ?_⟩
    · have c1 : ((436 : Int) : ℚ) < ((v : Int) : ℚ) := by
        exact_mod_cast (show (436 : Int) < v by omega)
      have c2 : ((v : Int) : ℚ) ≤ ((601 : Int) : ℚ) := by exact_mod_cast h9
      push_cast at c1 c2 ⊢
      linarith
    · have c1 : ((436 : Int) : ℚ) < ((v : Int) : ℚ) := by
        exact_mod_cast (show (436 : Int) < v by omega)
      have c2 : ((v : Int) : ℚ) ≤ ((601 : Int) : ℚ) := by exact_mod_cast h9
      push_cast at c1 c2 ⊢
      linarith
  by_cases h10 : v ≤ 691
  · refine ⟨_, convertBaselineV_seg10 v (by omega) h10, ?_, ?_⟩
    · have c1 : ((601 : Int) : ℚ) < ((v : Int) : ℚ) := by
        exact_mod_cast (show (601 : Int) < v by omega)
      have c2 : ((v : Int) : ℚ) ≤ ((691 : Int) : ℚ) := by exact_mod_cast h10
      push_cast at c1 c2 ⊢
      linarith
    · have c1 : ((601 : Int) : ℚ) < ((v : Int) : ℚ) := by
        exact_mod_cast (show (601 : Int) < v by omega)
      have c2 : ((v : Int) : ℚ) ≤ ((691 : Int) : ℚ) := by exact_mod_cast h10
      push_cast at c1 c2 ⊢
      linarith
  by_cases h11 : v ≤ 748
  · refine ⟨_, convertBaselineV_seg11 v (by omega) h11, ?_, ?_⟩
    · have c1 : ((691 : Int) : ℚ) < ((v : Int) : ℚ) := by
        exact_mod_cast (show (691 : Int) < v by omega)
      have c2 : ((v : Int) : ℚ) ≤ ((748 : Int) : ℚ) := by exact_mod_cast h11
      push_cast at c1 c2 ⊢
      linarith
    · have c1 : ((691 : Int) : ℚ) < ((v : Int) : ℚ) := by
        exact_mod_cast (show (691 : Int) < v by omega)
      have c2 : ((v : Int) : ℚ) ≤ ((748 : Int) : ℚ) := by exact_mod_cast h11
      push_cast at c1 c2 ⊢
      linarith
  by_cases h12 : v ≤ 806
  · refine ⟨_, convertBaselineV_seg12 v (by omega) h12, ?_, ?_⟩
    · have c1 : ((748 : Int) : ℚ) < ((v : Int) : ℚ) := by
        exact_mod_cast (show (748 : Int) < v by omega)
      have c2 : ((v : Int) : ℚ) ≤ ((806 : Int) : ℚ) := by exact_mod_cast h12
      push_cast at c1 c2 ⊢
      linarith
    · have c1 : ((748 : Int) : ℚ) < ((v : Int) : ℚ) := by
        exact_mod_cast (show (748 : Int) < v by omega)
      have c2 : ((v : Int) : ℚ) ≤ ((806 : Int) : ℚ) := by exact_mod_cast h12
      push_cast at c1 c2 ⊢
      linarith
  by_cases h13 : v ≤ 838
  · refine ⟨_, convertBaselineV_seg13 v (by omega) h13, ?_, ?_⟩
    · have c1 : ((806 : Int) : ℚ) < ((v : Int) : ℚ) := by
        exact_mod_cast (show (806 : Int) < v by omega)
      have c2 : ((v : Int) : ℚ) ≤ ((838 : Int) : ℚ) := by exact_mod_cast h13
      push_cast at c1 c2 ⊢
      linarith
    · have c1 : ((806 : Int) : ℚ) < ((v : Int) : ℚ) := by
        exact_mod_cast (show (806 : Int) < v by omega)
      have c2 : ((v : Int) : ℚ) ≤ ((838 : Int) : ℚ) := by exact_mod_cast h13
      push_cast at c1 c2 ⊢
      linarith
  refine ⟨_, convertBaselineV_seg14 v (by omega), ?_, ?_⟩
  · norm_num
  · norm_num

/-- One more unit of raw sample never lowers the result of `convertBaselineV`. -/
theorem convertBaselineV_succ (v : Int) (qu qv : ℚ) (hu : convertBaselineV v = some qu)
    (hv : convertBaselineV (v + 1) = some qv) : qu ≤ qv := by
  by_cases h0 : v ≤ 15
  · by_cases hs : v + 1 ≤ 15
    · rw [convertBaselineV_seg0 v h0] at hu
      rw [convertBaselineV_seg0 (v + 1) (by omega)] at hv
      simp only [Option.some.injEq] at hu hv
      subst hu hv
      have c2 : ((v : Int) : ℚ) ≤ ((15 : Int) : ℚ) := by exact_mod_cast h0
      push_cast at c2 ⊢
      linarith
    · rw [convertBaselineV_seg0 v h0] at hu
      rw [convertBaselineV_seg1 (v + 1) (by omega) (by omega)] at hv
      simp only [Option.some.injEq] at hu hv
      subst hu hv
      have c2 : ((v : Int) : ℚ) ≤ ((15 : Int) : ℚ) := by exact_mod_cast h0
      have c3 : ((15 : Int) : ℚ) < ((v : Int) : ℚ) + 1 := by
        exact_mod_cast (show (15 : Int) < v + 1 by omega)
      push_cast at c2 c3 ⊢
      linarith
  by_cases h1 : v ≤ 22
  · by_cases hs : v + 1 ≤ 22
    · rw [convertBaselineV_seg1 v (by omega) h1] at hu
      rw [convertBaselineV_seg1 (v + 1) (by omega) (by omega)] at hv
      simp only [Option.some.injEq] at hu hv
      subst hu hv
      have c1 : ((15 : Int) : ℚ) < ((v : Int) : ℚ) := by
        exact_mod_cast (show (15 : Int) < v by omega)
      have c2 : ((v : Int) : ℚ) ≤ ((22 : Int) : ℚ) := by exact_mod_cast h1
      push_cast at c1 c2 ⊢
      linarith
    · rw [convertBaselineV_seg1 v (by omega) h1] at hu
      rw [convertBaselineV_seg2 (v + 1) (by omega) (by omega)] at hv
      simp only [Option.some.injEq] at hu hv
      subst hu hv
      have c1 : ((15 : Int) : ℚ) < ((v : Int) : ℚ) := by
        exact_mod_cast (show (15 : Int) < v by omega)
      have c2 : ((v : Int) : ℚ) ≤ ((22 : Int) : ℚ) := by exact_mod_cast h1
      have c3 : ((22 : Int) : ℚ) < ((v : Int) : ℚ) + 1 := by
        exact_mod_cast (show (22 : Int) < v + 1 by omega)
      push_cast at c1 c2 c3 ⊢
      linarith
  by_cases h2 : v ≤ 29
  · by_cases hs : v + 1 ≤ 29
    · rw [convertBaselineV_seg2 v (by omega) h2] at hu
      rw [convertBaselineV_seg2 (v + 1) (by omega) (by omega)] at hv
      simp only [Option.some.injEq] at hu hv
      subst hu hv
      have c1 : ((22 : Int) : ℚ) < ((v : Int) : ℚ) := by
        exact_mod_cast (show (22 : Int) < v by omega)
      have c2 : ((v : Int) : ℚ) ≤ ((29 : Int) : ℚ) := by exact_mod_cast h2
      push_cast at c1 c2 ⊢
      linarith
    · rw [convertBaselineV_seg2 v (by omega) h2] at hu
      rw [convertBaselineV_seg3 (v + 1) (by omega) (by omega)] at hv
      simp only [Option.some.injEq] at hu hv
      subst hu hv
      have c1 : ((22 : Int) : ℚ) < ((v : Int) : ℚ) := by
        exact_mod_cast (show (22 : Int) < v by omega)
      have c2 : ((v : Int) : ℚ) ≤ ((29 : Int) : ℚ) := by exact_mod_cast h2
      have c3 : ((29 : Int) : ℚ) < ((v : Int) : ℚ) + 1 := by
        exact_mod_cast (show (29 : Int) < v + 1 by omega)
      push_cast at c1 c2 c3 ⊢
      linarith
  by_cases h3 : v ≤ 44
  · by_cases hs : v + 1 ≤ 44
    · rw [convertBaselineV_seg3 v (by omega) h3] at hu
      rw [convertBaselineV_seg3 (v + 1) (by omega) (by omega)] at hv
      simp only [Option.some.injEq] at hu hv
      subst hu hv
      have c1 : ((29 : Int) : ℚ) < ((v : Int) : ℚ) := by
        exact_mod_cast (show (29 : Int) < v by omega)
      have c2 : ((v : Int) : ℚ) ≤ ((44 : Int) : ℚ) := by exact_mod_cast h3
      push_cast at c1 c2 ⊢
      linarith
    · rw [convertBaselineV_seg3 v (by omega) h3] at hu
      rw [convertBaselineV_seg4 (v + 1) (by omega) (by omega)] at hv
      simp only [Option.some.injEq] at hu hv
      subst hu hv
      have c1 : ((29 : Int) : ℚ) < ((v : Int) : ℚ) := by
        exact_mod_cast (show (29 : Int) < v by omega)
      have c2 : ((v : Int) : ℚ) ≤ ((44 : Int) : ℚ) := by exact_mod_cast h3
      have c3 : ((44 : Int) : ℚ) < ((v : Int) : ℚ) + 1 := by
        exact_mod_cast (show (44 : Int) < v + 1 by omega)
      push_cast at c1 c2 c3 ⊢
      linarith
  by_cases h4 : v ≤ 68
  · by_cases hs : v + 1 ≤ 68
    · rw [convertBaselineV_seg4 v (by omega) h4] at hu
      rw [convertBaselineV_seg4 (v + 1) (by omega) (by omega)] at hv
      simp only [Option.some.injEq] at hu hv
      subst hu hv
      have c1 : ((44 : Int) : ℚ) < ((v : Int) : ℚ) := by
        exact_mod_cast (show (44 : Int) < v by omega)
      have c2 : ((v : Int) : ℚ) ≤ ((68 : Int) : ℚ) := by exact_mod_cast h4
      push_cast at c1 c2 ⊢
      linarith
    · rw [convertBaselineV_seg4 v (by omega) h4] at hu
      rw [convertBaselineV_seg5 (v + 1) (by omega) (by omega)] at hv
      simp only [Option.some.injEq] at hu hv
      subst hu hv
      have c1 : ((44 : Int) : ℚ) < ((v : Int) : ℚ) := by
        exact_mod_cast (show (44 : Int) < v by omega)
      have c2 : ((v : Int) : ℚ) ≤ ((68 : Int) : ℚ) := by exact_mod_cast h4
      have c3 : ((68 : Int) : ℚ) < ((v : Int) : ℚ) + 1 := by
        exact_mod_cast (show (68 : Int) < v + 1 by omega)
      push_cast at c1 c2 c3 ⊢
      linarith
  by_cases h5 : v ≤ 99
  · by_cases hs : v + 1 ≤ 99
    · rw [convertBaselineV_seg5 v (by omega) h5] at hu
      rw [convertBaselineV_seg5 (v + 1) (by omega) (by omega)] at hv
      simp only [Option.some.injEq] at hu hv
      subst hu hv
      have c1 : ((68 : Int) : ℚ) < ((v : Int) : ℚ) := by
        exact_mod_cast (show (68 : Int) < v by omega)
      have c2 : ((v : Int) : ℚ) ≤ ((99 : Int) : ℚ) := by exact_mod_cast h5
      push_cast at c1 c2 ⊢
      linarith
    · rw [convertBaselineV_seg5 v (by omega) h5] at hu
      rw [convertBaselineV_seg6 (v + 1) (by omega) (by omega)] at hv
      simp only [Option.some.injEq] at hu hv
      subst hu hv
      have c1 : ((68 : Int) : ℚ) < ((v : Int) : ℚ) := by
        exact_mod_cast (show (68 : Int) < v by omega)
      have c2 : ((v : Int) : ℚ) ≤ ((99 : Int) : ℚ) := by exact_mod_cast h5
      have c3 : ((99 : Int) : ℚ) < ((v : Int) : ℚ) + 1 := by
        exact_mod_cast (show (99 : Int) < v + 1 by omega)
      push_cast at c1 c2 c3 ⊢
      linarith
  by_cases h6 : v ≤ 140
  · by_cases hs : v + 1 ≤ 140
    · rw [convertBaselineV_seg6 v (by omega) h6] at hu
      rw [convertBaselineV_seg6 (v + 1) (by omega) (by omega)] at hv
      simp only [Option.some.injEq] at hu hv
      subst hu hv
      have c1 : ((99 : Int) : ℚ) < ((v : Int) : ℚ) := by
        exact_mod_cast (show (99 : Int) < v by omega)
      have c2 : ((v : Int) : ℚ) ≤ ((140 : Int) : ℚ) := by exact_mod_cast h6
      push_cast at c1 c2 ⊢
      linarith
    · rw [convertBaselineV_seg6 v (by omega) h6] at hu
      rw [convertBaselineV_seg7 (v + 1) (by omega) (by omega)] at hv
      simp only [Option.some.injEq] at hu hv
      subst hu hv
      have c1 : ((99 : Int) : ℚ) < ((v : Int) : ℚ) := by
        exact_mod_cast (show (99 : Int) < v by omega)
      have c2 : ((v : Int) : ℚ) ≤ ((140 : Int) : ℚ) := by exact_mod_cast h6
      have c3 : ((140 : Int) : ℚ) < ((v : Int) : ℚ) + 1 := by
        exact_mod_cast (show (140 : Int) < v + 1 by omega)
      push_cast at c1 c2 c3 ⊢
      linarith
  by_cases h7 : v ≤ 250
  · by_cases hs : v + 1 ≤ 250
    · rw [convertBaselineV_seg7 v (by omega) h7] at hu
      rw [convertBaselineV_seg7 (v + 1) (by omega) (by omega)] at hv
      simp only [Option.some.injEq] at hu hv
      subst hu hv
      have c1 : ((140 : Int) : ℚ) < ((v : Int) : ℚ) := by
        exact_mod_cast (show (140 : Int) < v by omega)
      have c2 : ((v : Int) : ℚ) ≤ ((250 : Int) : ℚ) := by exact_mod_cast h7
      push_cast at c1 c2 ⊢
      linarith
    · rw [convertBaselineV_seg7 v (by omega) h7] at hu
      rw [convertBaselineV_seg8 (v + 1) (by omega) (by omega)] at hv
      simp only [Option.some.injEq] at hu hv
      subst hu hv
      have c1 : ((140 : Int) : ℚ) < ((v : Int) : ℚ) := by
        exact_mod_cast (show (140 : Int) < v by omega)
      have c2 : ((v : Int) : ℚ) ≤ ((250 : Int) : ℚ) := by exact_mod_cast h7
      have c3 : ((250 : Int) : ℚ) < ((v : Int) : ℚ) + 1 := by
        exact_mod_cast (show (250 : Int) < v + 1 by omega)
      push_cast at c1 c2 c3 ⊢
      linarith
  by_cases h8 : v ≤ 436
  · by_cases hs : v + 1 ≤ 436
    · rw [convertBaselineV_seg8 v (by omega) h8] at hu
      rw [convertBaselineV_seg8 (v + 1) (by omega) (by omega)] at hv
      simp only [Option.some.injEq] at hu hv
      subst hu hv
      have c1 : ((250 : Int) : ℚ) < ((v : Int) : ℚ) := by
        exact_mod_cast (show (250 : Int) < v by omega)
      have c2 : ((v : Int) : ℚ) ≤ ((436 : Int) : ℚ) := by exact_mod_cast h8
      push_cast at c1 c2 ⊢
      linarith
    · rw [convertBaselineV_seg8 v (by omega) h8] at hu
      rw [convertBaselineV_seg9 (v + 1) (by omega) (by omega)] at hv
      simp only [Option.some.injEq] at hu hv
      subst hu hv
      have c1 : ((250 : Int) : ℚ) < ((v : Int) : ℚ) := by
        exact_mod_cast (show (250 : Int) < v by omega)
      have c2 : ((v : Int) : ℚ) ≤ ((436 : Int) : ℚ) := by exact_mod_cast h8
      have c3 : ((436 : Int) : ℚ) < ((v : Int) : ℚ) + 1 := by
        exact_mod_cast (show (436 : Int) < v + 1 by omega)
      push_cast at c1 c2 c3 ⊢
      linarith
  by_cases h9 : v ≤ 601
  · by_cases hs : v + 1 ≤ 601
    · rw [convertBaselineV_seg9 v (by omega) h9] at hu
      rw [convertBaselineV_seg9 (v + 1) (by omega) (by omega)] at hv
      simp only [Option.some.injEq] at hu hv
      subst hu hv
      have c1 : ((436 : Int) : ℚ) < ((v : Int) : ℚ) := by
        exact_mod_cast (show (436 : Int) < v by omega)
      have c2 : ((v : Int) : ℚ) ≤ ((601 : Int) : ℚ) := by exact_mod_cast h9
      push_cast at c1 c2 ⊢
      linarith
    · rw [convertBaselineV_seg9 v (by omega) h9] at hu
      rw [convertBaselineV_seg10 (v + 1) (by omega) (by omega)] at hv
      simp only [Option.some.injEq] at hu hv
      subst hu hv
      have c1 : ((436 : Int) : ℚ) < ((v : Int) : ℚ) := by
        exact_mod_cast (show (436 : Int) < v by omega)
      have c2 : ((v : Int) : ℚ) ≤ ((601 : Int) : ℚ) := by exact_mod_cast h9
      have c3 : ((601 : Int) : ℚ) < ((v : Int) : ℚ) + 1 := by
        exact_mod_cast (show (601 : Int) < v + 1 by omega)
      push_cast at c1 c2 c3 ⊢
      linarith
  by_cases h10 : v ≤ 691
  · by_cases hs : v + 1 ≤ 691
    · rw [convertBaselineV_seg10 v (by omega) h10] at hu
      rw [convertBaselineV_seg10 (v + 1) (by omega) (by omega)] at hv
      simp only [Option.some.injEq] at hu hv
      subst hu hv
      have c1 : ((601 : Int) : ℚ) < ((v : Int) : ℚ) := by
        exact_mod_cast (show (601 : Int) < v by omega)
      have c2 : ((v : Int) : ℚ) ≤ ((691 : Int) : ℚ) := by exact_mod_cast h10
      push_cast at c1 c2 ⊢
      linarith
    · rw [convertBaselineV_seg10 v (by omega) h10] at hu
      rw [convertBaselineV_seg11 (v + 1) (by omega) (by omega)] at hv
      simp only [Option.some.injEq] at hu hv
      subst hu hv
      have c1 : ((601 : Int) : ℚ) < ((v : Int) : ℚ) := by
        exact_mod_cast (show (601 : Int) < v by omega)
      have c2 : ((v : Int) : ℚ) ≤ ((691 : Int) : ℚ) := by exact_mod_cast h10
      have c3 : ((691 : Int) : ℚ) < ((v : Int) : ℚ) + 1 := by
        exact_mod_cast (show (691 : Int) < v + 1 by omega)
      push_cast at c1 c2 c3 ⊢
      linarith
  by_cases h11 : v ≤ 748
  · by_cases hs : v + 1 ≤ 748
    · rw [convertBaselineV_seg11 v (by omega) h11] at hu
      rw [convertBaselineV_seg11 (v + 1) (by omega) (by omega)] at hv
      simp only [Option.some.injEq] at hu hv
      subst hu hv
      have c1 : ((691 : Int) : ℚ) < ((v : Int) : ℚ) := by
        exact_mod_cast (show (691 : Int) < v by omega)
      have c2 : ((v : Int) : ℚ) ≤ ((748 : Int) : ℚ) := by exact_mod_cast h11
      push_cast at c1 c2 ⊢
      linarith
    · rw [convertBaselineV_seg11 v (by omega) h11] at hu
      rw [convertBaselineV_seg12 (v + 1) (by omega) (by omega)] at hv
      simp only [Option.some.injEq] at hu hv
      subst hu hv
      have c1 : ((691 : Int) : ℚ) < ((v : Int) : ℚ) := by
        exact_mod_cast (show (691 : Int) < v by omega)
      have c2 : ((v : Int) : ℚ) ≤ ((748 : Int) : ℚ) := by exact_mod_cast h11
      have c3 : ((748 : Int) : ℚ) < ((v : Int) : ℚ) + 1 := by
        exact_mod_cast (show (748 : Int) < v + 1 by omega)
      push_cast at c1 c2 c3 ⊢
      linarith
  by_cases h12 : v ≤ 806
  · by_cases hs : v + 1 ≤ 806
    · rw [convertBaselineV_seg12 v (by omega) h12] at hu
      rw [convertBaselineV_seg12 (v + 1) (by omega) (by omega)] at hv
      simp only [Option.some.injEq] at hu hv
      subst hu hv
      have c1 : ((748 : Int) : ℚ) < ((v : Int) : ℚ) := by
        exact_mod_cast (show (748 : Int) < v by omega)
      have c2 : ((v : Int) : ℚ) ≤ ((806 : Int) : ℚ) := by exact_mod_cast h12
      push_cast at c1 c2 ⊢
      linarith
    · rw [convertBaselineV_seg12 v (by omega) h12] at hu
      rw [convertBaselineV_seg13 (v + 1) (by omega) (by omega)] at hv
      simp only [Option.some.injEq] at hu hv
      subst hu hv
      have c1 : ((748 : Int) : ℚ) < ((v : Int) : ℚ) := by
        exact_mod_cast (show (748 : Int) < v by omega)
      have c2 : ((v : Int) : ℚ) ≤ ((806 : Int) : ℚ) := by exact_mod_cast h12
      have c3 : ((806 : Int) : ℚ) < ((v : Int) : ℚ) + 1 := by
        exact_mod_cast (show (806 : Int) < v + 1 by omega)
      push_cast at c1 c2 c3 ⊢
      linarith
  by_cases h13 : v ≤ 838
  · by_cases hs : v + 1 ≤ 838
    · rw [convertBaselineV_seg13 v (by omega) h13] at hu
      rw [convertBaselineV_seg13 (v + 1) (by omega) (by omega)] at hv
      simp only [Option.some.injEq] at hu hv
      subst hu hv
      have c1 : ((806 : Int) : ℚ) < ((v : Int) : ℚ) := by
        exact_mod_cast (show (806 : Int) < v by omega)
      have c2 : ((v : Int) : ℚ) ≤ ((838 : Int) : ℚ) := by exact_mod_cast h13
      push_cast at c1 c2 ⊢
      linarith
    · rw [convertBaselineV_seg13 v (by omega) h13] at hu
      rw [convertBaselineV_seg14 (v + 1) (by omega)] at hv
      simp only [Option.some.injEq] at hu hv
      subst hu hv
      have c1 : ((806 : Int) : ℚ) < ((v : Int) : ℚ) := by
        exact_mod_cast (show (806 : Int) < v by omega)
      have c2 : ((v : Int) : ℚ) ≤ ((838 : Int) : ℚ) := by exact_mod_cast h13
      have c3 : ((838 : Int) : ℚ) < ((v : Int) : ℚ) + 1 := by
        exact_mod_cast (show (838 : Int) < v + 1 by omega)
      push_cast at c1 c2 c3 ⊢
      linarith
  rw [convertBaselineV_seg14 v (by omega)] at hu
  rw [convertBaselineV_seg14 (v + 1) (by omega)] at hv
  simp only [Option.some.injEq] at hu hv
  subst hu hv
  have c1 : ((838 : Int) : ℚ) < ((v : Int) : ℚ) := by
    exact_mod_cast (show (838 : Int) < v by omega)
  push_cast at c1 ⊢
  linarith

theorem convertTrackerV_bracket (v : Int) (i : Nat) (bp b : Int) (vp vi : ℚ)
    (h1 : trackerDigitalInt[i]? = some bp) (h2 : trackerDigitalInt[i + 1]? = some b)
    (h3 : trackerAnalogOpenV[i]? = some vp) (h4 : trackerAnalogOpenV[i + 1]? = some vi)
    (hlo : bp < v) (hhi : v ≤ b) :
    convertTrackerV v = some (vp + (vi - vp) / ((b - bp : Int) : ℚ) * ((v - bp : Int) : ℚ)) := by
  have hi : i + 1 < 14 := by
    have := (List.getElem?_eq_some.mp h2).1
    simpa [trackerDigitalInt] using this
  have hi' : i < 13 := by omega
  interval_cases i <;>
    (simp only [trackerDigitalInt, trackerAnalogOpenV, List.getElem?_cons_succ,
        List.getElem?_cons_zero, Option.some.injEq] at h1 h2 h3 h4
     subst h1 h2 h3 h4
     first
     | exact convertTrackerV_seg1 v hlo hhi
     | exact convertTrackerV_seg2 v hlo hhi
     | exact convertTrackerV_seg3 v hlo hhi
     | exact convertTrackerV_seg4 v hlo hhi
     | exact convertTrackerV_seg5 v hlo hhi
     | exact convertTrackerV_seg6 v hlo hhi
     | exact convertTrackerV_seg7 v hlo hhi
     | exact convertTrackerV_seg8 v hlo hhi
     | exact convertTrackerV_seg9 v hlo hhi
     | exact convertTrackerV_seg10 v hlo hhi
     | exact convertTrackerV_seg11 v hlo hhi
     | exact convertTrackerV_seg12 v hlo hhi
     | exact convertTrackerV_seg13 v hlo hhi)

theorem convertTrackerV_breakpoint (i : Nat) (b : Int) (vi : ℚ)
    (h1 : trackerDigitalInt[i]? = some b) (h2 : trackerAnalogOpenV[i]? = some vi) :
    convertTrackerV b = some vi := by
  have hi : i < 14 := by
    have := (List.getElem?_eq_some.mp h1).1
    simpa [trackerDigitalInt] using this
  interval_cases i <;>
    (simp only [trackerDigitalInt, trackerAnalogOpenV, List.getElem?_cons_succ,
        List.getElem?_cons_zero, Option.some.injEq] at h1 h2
     subst h1 h2
     first
     | exact convertTrackerV_seg0 _ (by decide)
     | (rw [convertTrackerV_seg1 _ (by decide) (by decide)]; norm_num)
     | (rw [convertTrackerV_seg2 _ (by decide) (by decide)]; norm_num)
     | (rw [convertTrackerV_seg3 _ (by decide) (by decide)]; norm_num)
     | (rw [convertTrackerV_seg4 _ (by decide) (by decide)]; norm_num)
     | (rw [convertTrackerV_seg5 _ (by decide) (by decide)]; norm_num)
     | (rw [convertTrackerV_seg6 _ (by decide) (by decide)]; norm_num)
     | (rw [convertTrackerV_seg7 _ (by decide) (by decide)]; norm_num)
     | (rw [convertTrackerV_seg8 _ (by decide) (by decide)]; norm_num)
     | (rw [convertTrackerV_seg9 _ (by decide) (by decide)]; norm_num)
     | (rw [convertTrackerV_seg10 _ (by decide) (by decide)]; norm_num)
     | (rw [convertTrackerV_seg11 _ (by decide) (by decide)]; norm_num)
     | (rw [convertTrackerV_seg12 _ (by decide) (by decide)]; norm_num)
     | (rw [convertTrackerV_seg13 _ (by decide) (by decide)]; norm_num))

theorem convertBaselineV_bracket (v : Int) (i : Nat) (bp b : Int) (vp vi : ℚ)
    (h1 : baselineDigitalInt[i]? = some bp) (h2 : baselineDigitalInt[i + 1]? = some b)
    (h3 : baselineAnalogOpenV[i]? = some vp) (h4 : baselineAnalogOpenV[i + 1]? = some vi)
    (hlo : bp < v) (hhi : v ≤ b) :
    convertBaselineV v = some (vp + (vi - vp) / ((b - bp : Int) : ℚ) * ((v - bp : Int) : ℚ)) := by
  have hi : i + 1 < 14 := by
    have := (List.getElem?_eq_some.mp h2).1
    simpa [baselineDigitalInt] using this
  have hi' : i < 13 := by omega
  interval_cases i <;>
    (simp only [baselineDigitalInt, baselineAnalogOpenV, List.getElem?_cons_succ,
        List.getElem?_cons_zero, Option.some.injEq] at h1 h2 h3 h4
     subst h1 h2 h3 h4
     first
     | exact convertBaselineV_seg1 v hlo hhi
     | exact convertBaselineV_seg2 v hlo hhi
     | exact convertBaselineV_seg3 v hlo hhi
     | exact convertBaselineV_seg4 v hlo hhi
     | exact convertBaselineV_seg5 v hlo hhi
     | exact convertBaselineV_seg6 v hlo hhi
     | exact convertBaselineV_seg7 v hlo hhi
     | exact convertBaselineV_seg8 v hlo hhi
     | exact convertBaselineV_seg9 v hlo hhi
     | exact convertBaselineV_seg10 v hlo hhi
     | exact convertBaselineV_seg11 v hlo hhi
     | exact convertBaselineV_seg12 v hlo hhi
     | exact convertBaselineV_seg13 v hlo hhi)

theorem convertBaselineV_breakpoint (i : Nat) (b : Int) (vi : ℚ)
    (h1 : baselineDigitalInt[i]? = some b) (h2 : baselineAnalogOpenV[i]? = some vi) :
    convertBaselineV b = some vi := by
  have hi : i < 14 := by
    have := (List.getElem?_eq_some.mp h1).1
    simpa [baselineDigitalInt] using this
  interval_cases i <;>
    (simp only [baselineDigitalInt, baselineAnalogOpenV, List.getElem?_cons_succ,
        List.getElem?_cons_zero, Option.some.injEq] at h1 h2
     subst h1 h2
     first
     | exact convertBaselineV_seg0 _ (by decide)
     | (rw [convertBaselineV_seg1 _ (by decide) (by decide)]; norm_num)
     | (rw [convertBaselineV_seg2 _ (by decide) (by decide)]; norm_num)
     | (rw [convertBaselineV_seg3 _ (by decide) (by decide)]; norm_num)
     | (rw [convertBaselineV_seg4 _ (by decide) (by decide)]; norm_num)
     | (rw [convertBaselineV_seg5 _ (by decide) (by decide)]; norm_num)
     | (rw [convertBaselineV_seg6 _ (by decide) (by decide)]; norm_num)
     | (rw [convertBaselineV_seg7 _ (by decide) (by decide)]; norm_num)
     | (rw [convertBaselineV_seg8 _ (by decide) (by decide)]; norm_num)
     | (rw [convertBaselineV_seg9 _ (by decide) (by decide)]; norm_num)
     | (rw [convertBaselineV_seg10 _ (by decide) (by decide)]; norm_num)
     | (rw [convertBaselineV_seg11 _ (by decide) (by decide)]; norm_num)
     | (rw [convertBaselineV_seg12 _ (by decide) (by decide)]; norm_num)
     | (rw [convertBaselineV_seg13 _ (by decide) (by decide)]; norm_num))

/-- C13. Over the rationals, for every integer raw sample `v`:
`convertTrackerV v` is the first table voltage 4.02 when `v ≤ 3`, the last
one 16.51 when `v > 827`, and otherwise the linear interpolation between the
bracketing pair of table entries (`bp < v ≤ b`); in particular
`convert 3 = convert 0 = 4.02`, `convert 900 = 16.51`,
`convert 8 = 6.01 + (7.02 - 6.01) / 3`, and every breakpoint maps to its table
voltage.  The same holds for `convertBaselineV` with the baseline tables. -/
theorem convert_piecewise_linear :
    (∀ v : Int, v ≤ 3 → convertTrackerV v = some 4.02) ∧
    (∀ v : Int, 827 < v → convertTrackerV v = some 16.51) ∧
    (∀ (v : Int) (i : Nat) (bp b : Int) (vp vi : ℚ),
      trackerDigitalInt[i]? = some bp → trackerDigitalInt[i + 1]? = some b →
      trackerAnalogOpenV[i]? = some vp → trackerAnalogOpenV[i + 1]? = some vi →
      bp < v → v ≤ b →
      convertTrackerV v =
        some (vp + (vi - vp) / ((b - bp : Int) : ℚ) * ((v - bp : Int) : ℚ))) ∧
    convertTrackerV 3 = some 4.02 ∧ convertTrackerV 0 = some 4.02 ∧
    convertTrackerV 900 = some 16.51 ∧
    convertTrackerV 8 = some (6.01 + (7.02 - 6.01) / 3) ∧
    (∀ (i : Nat) (b : Int) (vi : ℚ), trackerDigitalInt[i]? = some b →
      trackerAnalogOpenV[i]? = some vi → convertTrackerV b = some vi) ∧
    (∀ v : Int, v ≤ 15 → convertBaselineV v = some 4.04) ∧
    (∀ v : Int, 838 < v → convertBaselineV v = some 16.50) ∧
    (∀ (v : Int) (i : Nat) (bp b : Int) (vp vi : ℚ),
      baselineDigitalInt[i]? = some bp → baselineDigitalInt[i + 1]? = some b →
      baselineAnalogOpenV[i]? = some vp → baselineAnalogOpenV[i + 1]? = some vi →
      bp < v → v ≤ b →
      convertBaselineV v =
        some (vp + (vi - vp) / ((b - bp : Int) : ℚ) * ((v - bp : Int) : ℚ))) ∧
    (∀ (i : Nat) (b : Int) (vi : ℚ), baselineDigitalInt[i]? = some b →
      baselineAnalogOpenV[i]? = some vi → convertBaselineV b = some vi) := by
  refine ⟨fun v h => convertTrackerV_seg0 v h, fun v h => convertTrackerV_seg14 v h,
    convertTrackerV_bracket, convertTrackerV_seg0 3 (by decide),
    convertTrackerV_seg0 0 (by decide), convertTrackerV_seg14 900 (by decide), ?_,
    convertTrackerV_breakpoint, fun v h => convertBaselineV_seg0 v h,
    fun v h => convertBaselineV_seg14 v h, convertBaselineV_bracket,
    convertBaselineV_breakpoint⟩
  rw [convertTrackerV_seg3 8 (by decide) (by decide)]
  norm_num

theorem convert_piecewise_linear_witness :
    (0 : Int) ≤ 3 ∧ convertTrackerV 0 = some 4.02 ∧
    (827 : Int) < 900 ∧ convertTrackerV 900 = some 16.51 ∧
    ((7 : Int) < 8 ∧ (8 : Int) ≤ 10 ∧
      convertTrackerV 8 =
        some (6.01 + (7.02 - 6.01) / ((10 - 7 : Int) : ℚ) * ((8 - 7 : Int) : ℚ))) ∧
    convertTrackerV 10 = some 7.02 ∧
    ((22 : Int) < 25 ∧ (25 : Int) ≤ 29 ∧
      convertBaselineV 25 =
        some (5.02 + (6.00 - 5.02) / ((29 - 22 : Int) : ℚ) * ((25 - 22 : Int) : ℚ))) :=
  ⟨by decide, convert_piecewise_linear.1 0 (by decide),
    by decide, convert_piecewise_linear.2.1 900 (by decide),
    ⟨by decide, by decide,
      convert_piecewise_linear.2.2.1 8 2 7 10 6.01 7.02 rfl rfl rfl rfl (by decide) (by decide)⟩,
    convert_piecewise_linear.2.2.2.2.2.2.2.1 3 10 7.02 rfl rfl,
    ⟨by decide, by decide,
      convert_piecewise_linear.2.2.2.2.2.2.2.2.2.2.1 25 1 22 29 5.02 6.00 rfl rfl rfl rfl
        (by decide) (by decide)⟩⟩

/-- A function on the integers that never drops from `v` to `v + 1` is monotone. -/
theorem mono_of_succ (f : Int → Option ℚ) (hsome : ∀ v, ∃ q, f v = some q)
    (hstep : ∀ v qu qv, f v = some qu → f (v + 1) = some qv → qu ≤ qv) :
    ∀ u v qu qv, u ≤ v → f u = some qu → f v = some qv → qu ≤ qv := by
  intro u v qu qv huv hu
  revert qv
  refine @Int.le_induction (fun n => ∀ qv, f n = some qv → qu ≤ qv) u ?_ ?_ v huv
  · intro qv hv
    rw [hu] at hv
    simp only [Option.some.injEq] at hv
    rw [hv]
  · intro n _ ih qv hv
    obtain ⟨q, hq⟩ := hsome n
    exact le_trans (ih q hq) (hstep n q qv hq hv)

/-- C20. Over the rationals `convertTrackerV` and `convertBaselineV` always
have a result (so every table index used is in bounds and no interpolation
divides by zero), the result lies between the first and the last voltage of
the table, and it is monotone non-decreasing in the raw sample; all four
tables are strictly increasing. -/
theorem convert_monotone_bounded :
    (∀ v : Int, ∃ q, convertTrackerV v = some q ∧ 4.02 ≤ q ∧ q ≤ 16.51) ∧
    (∀ (u v : Int) (qu qv : ℚ), u ≤ v → convertTrackerV u = some qu →
      convertTrackerV v = some qv → qu ≤ qv) ∧
    (∀ v : Int, ∃ q, convertBaselineV v = some q ∧ 4.04 ≤ q ∧ q ≤ 16.50) ∧
    (∀ (u v : Int) (qu qv : ℚ), u ≤ v → convertBaselineV u = some qu →
      convertBaselineV v = some qv → qu ≤ qv) ∧
    List.Pairwise (fun x y => x < y) trackerDigitalInt ∧
    List.Pairwise (fun x y => x < y) trackerAnalogOpenV ∧
    List.Pairwise (fun x y => x < y) baselineDigitalInt ∧
    List.Pairwise (fun x y => x < y) baselineAnalogOpenV := by
  refine ⟨convertTrackerV_range, ?_, convertBaselineV_range, ?_, by decide, ?_, by decide, ?_⟩
  · exact mono_of_succ convertTrackerV
      (fun v => (convertTrackerV_range v).imp (fun _ h => h.1)) convertTrackerV_succ
  · exact mono_of_succ convertBaselineV
      (fun v => (convertBaselineV_range v).imp (fun _ h => h.1)) convertBaselineV_succ
  · simp only [trackerAnalogOpenV, List.pairwise_cons, List.mem_cons, List.mem_singleton,
      forall_eq_or_imp, forall_eq]
    norm_num
  · simp only [baselineAnalogOpenV, List.pairwise_cons, List.mem_cons, List.mem_singleton,
      forall_eq_or_imp, forall_eq]
    norm_num

theorem convert_monotone_bounded_witness :
    (3 : Int) ≤ 8 ∧ convertTrackerV 3 = some 4.02 ∧
    convertTrackerV 8 = some (6.01 + (7.02 - 6.01) / ((10 - 7 : Int) : ℚ) * ((8 - 7 : Int) : ℚ)) ∧
    (4.02 : ℚ) ≤ 6.01 + (7.02 - 6.01) / ((10 - 7 : Int) : ℚ) * ((8 - 7 : Int) : ℚ) :=
  ⟨by decide, convertTrackerV_seg0 3 (by decide), convertTrackerV_seg3 8 (by decide) (by decide),
    convert_monotone_bounded.2.1 3 8 _ _ (by decide) (convertTrackerV_seg0 3 (by decide))
      (convertTrackerV_seg3 8 (by decide) (by decide))⟩

/-! ## Cycle period -/

/-- C16. The value of `interval`, computed as `15 * 60 * 1000` in `int`, is
900000 when `int` has 32 bits, but with 16-bit `int` the product wraps around
to -17504, which `delay` receives as 4294949792 milliseconds. -/
theorem interval_wraps_in_16_bits :
    interval 32 = 900000 ∧ loopDelayArgument 32 = 900000 ∧
    interval 16 = -17504 ∧ interval 16 ≠ 900000 ∧
    loopDelayArgument 16 = 4294949792 ∧ loopDelayArgument 16 ≠ 900000 := by
  decide

/-! ## Observer of the trace -/

theorem replay_nil (g : Ghost) : replay g [] = g := rfl

theorem replay_cons (g : Ghost) (e : Event) (es : List Event) :
    replay g (e :: es) = replay (g.step e) es := rfl

theorem replay_append (g : Ghost) (e1 e2 : List Event) :
    replay g (e1 ++ e2) = replay (replay g e1) e2 := by
  simp [replay, List.foldl_append]

theorem samplesOf_append (e1 e2 : List Event) :
    samplesOf (e1 ++ e2) = samplesOf e1 ++ samplesOf e2 := by
  induction e1 with
  | nil => rfl
  | cons e es ih => cases e <;> simp [samplesOf, ih]

/-- One event never lowers the best reading; a positive reward raises it. -/
theorem step_mono (g : Ghost) (e : Event) :
    g.best ≤ (g.step e).best ∧ g.positives ≤ (g.step e).positives ∧
    (((g.step e).positives : Int) - g.positives ≤ (g.step e).best - g.best) ∧
    ((g.step e).positives = g.positives →
      (g.step e).best = g.best ∧ (g.step e).bestAngle = g.bestAngle ∧
      (g.step e).bestBase = g.bestBase) := by
  cases e with
  | tiltWrite x => simp [Ghost.step]
  | baseWrite x => simp [Ghost.step]
  | delay ms => simp [Ghost.step]
  | trackerRead v =>
    simp only [Ghost.step]
    split_ifs with h
    · refine ⟨by simp only; omega, by simp, by simp only; push_cast; omega, ?_⟩
      intro h2; simp at h2
    · simp

/-- A run of events never lowers the best reading, and the best reading rises
by at least one per positive reward. -/
theorem replay_mono (es : List Event) : ∀ (g : Ghost),
    g.best ≤ (replay g es).best ∧ g.positives ≤ (replay g es).positives ∧
    (((replay g es).positives : Int) - g.positives ≤ (replay g es).best - g.best) ∧
    ((replay g es).positives = g.positives →
      (replay g es).best = g.best ∧ (replay g es).bestAngle = g.bestAngle ∧
      (replay g es).bestBase = g.bestBase) := by
  induction es with
  | nil => intro g; simp [replay_nil]
  | cons e es ih =>
    intro g
    rw [replay_cons]
    obtain ⟨a1, a2, a3, a4⟩ := step_mono g e
    obtain ⟨b1, b2, b3, b4⟩ := ih (g.step e)
    refine ⟨le_trans a1 b1, le_trans a2 b2, by omega, ?_⟩
    intro h
    have h1 : (g.step e).positives = g.positives := by omega
    have h2 : (replay (g.step e) es).positives = (g.step e).positives := by omega
    obtain ⟨c1, c2, c3⟩ := a4 h1
    obtain ⟨d1, d2, d3⟩ := b4 h2
    exact ⟨d1.trans c1, d2.trans c2, d3.trans c3⟩

theorem replay_base (es : List Event) : ∀ (g : Ghost),
    (replay g es).base = g.base + netBasePulses es := by
  induction es with
  | nil => intro g; simp [replay_nil, netBasePulses]
  | cons e es ih =>
    intro g
    rw [replay_cons, ih]
    have : netBasePulses (e :: es) = pulseOf e + netBasePulses es := by
      simp [netBasePulses]
    rw [this]
    cases e with
    | tiltWrite x => simp [Ghost.step, pulseOf]
    | baseWrite x => simp only [Ghost.step]; ring
    | delay ms => simp [Ghost.step, pulseOf]
    | trackerRead v =>
      simp only [Ghost.step, pulseOf]
      split_ifs <;> simp

/-- After a positive reward the best reading is one of the samples read, and
it is recorded with the position at which the observer took it. -/
theorem replay_best_mem (es : List Event) : ∀ (g : Ghost),
    g.positives < (replay g es).positives →
    ((replay g es).bestAngle, (replay g es).bestBase, (replay g es).best) ∈
      readings g.angle g.base es := by
  induction es with
  | nil => intro g h; simp [replay_nil] at h
  | cons e es ih =>
    intro g h
    rw [replay_cons] at h ⊢
    by_cases h1 : (g.step e).positives < (replay (g.step e) es).positives
    · have := ih (g.step e) h1
      cases e with
      | tiltWrite x => simpa [Ghost.step, readings] using this
      | baseWrite x => simpa [Ghost.step, readings] using this
      | delay ms => simpa [Ghost.step, readings] using this
      | trackerRead v =>
        simp only [readings]
        refine List.mem_cons_of_mem _ ?_
        have e1 : (g.step (Event.trackerRead v)).angle = g.angle := by
          simp only [Ghost.step]; split_ifs <;> rfl
        have e2 : (g.step (Event.trackerRead v)).base = g.base := by
          simp only [Ghost.step]; split_ifs <;> rfl
        rw [e1, e2] at this
        exact this
    · obtain ⟨_, b2, _, b4⟩ := replay_mono es (g.step e)
      have h2 : (replay (g.step e) es).positives = (g.step e).positives := by omega
      obtain ⟨d1, d2, d3⟩ := b4 h2
      rw [d1, d2, d3]
      rw [h2] at h
      cases e with
      | tiltWrite x => simp [Ghost.step] at h
      | baseWrite x => simp [Ghost.step] at h
      | delay ms => simp [Ghost.step] at h
      | trackerRead v =>
        simp only [Ghost.step] at h ⊢
        split_ifs at h ⊢ with hv
        · simp [readings]
        · simp at h

theorem readings_append (e1 : List Event) : ∀ (g : Ghost) (e2 : List Event),
    readings g.angle g.base (e1 ++ e2) =
      readings g.angle g.base e1 ++ readings (replay g e1).angle (replay g e1).base e2 := by
  induction e1 with
  | nil => intro g e2; simp [readings, replay_nil]
  | cons e es ih =>
    intro g e2
    rw [replay_cons]
    cases e with
    | tiltWrite x =>
      have := ih (g.step (Event.tiltWrite x)) e2
      simpa [Ghost.step, readings] using this
    | baseWrite x =>
      have := ih (g.step (Event.baseWrite x)) e2
      simpa [Ghost.step, readings] using this
    | delay ms =>
      have := ih (g.step (Event.delay ms)) e2
      simpa [Ghost.step, readings] using this
    | trackerRead v =>
      have e1 : (g.step (Event.trackerRead v)).angle = g.angle := by
        simp only [Ghost.step]; split_ifs <;> rfl
      have e2' : (g.step (Event.trackerRead v)).base = g.base := by
        simp only [Ghost.step]; split_ifs <;> rfl
      have := ih (g.step (Event.trackerRead v)) e2
      rw [e1, e2'] at this
      have hh : readings g.angle g.base (Event.trackerRead v :: (es ++ e2)) =
          (g.angle, g.base, v) :: readings g.angle g.base (es ++ e2) := rfl
      rw [List.cons_append, hh, this]
      rfl

/-! ## The exploiters seen by the observer -/

theorem replay_pass_pos (g : Ghost) (x v : Int) (h : v - g.best > 0) :
    replay g [Event.tiltWrite x, Event.delay trackerNewPositionSettleDelay,
      Event.trackerRead v] =
      { g with angle := x, best := v, bestAngle := x, bestBase := g.base,
               positives := g.positives + 1 } := by
  simp [replay, Ghost.step, h]

theorem replay_pass_neg (g : Ghost) (x v : Int) (h : ¬ v - g.best > 0) :
    replay g [Event.tiltWrite x, Event.delay trackerNewPositionSettleDelay,
      Event.trackerRead v] = { g with angle := x } := by
  simp [replay, Ghost.step, h]

/-- What the clockwise tilt loop has done when it returns. -/
theorem tiltCwLoop_replay : ∀ (fuel : Nat) (a p : Int) (i : List Nat) (tr : List Event)
    (s' : State), tiltCwLoop fuel ⟨a, p, i, tr⟩ = some s' →
    ∃ (em : List Event) (used : List Nat),
      s'.trace = tr ++ em ∧ i = used ++ s'.input ∧ samplesOf em = used.map Int.ofNat ∧
      s'.prevAngle = a + 3 * (used.length : Int) ∧ 1 ≤ used.length ∧
      (∀ x, Event.tiltWrite x ∈ em → a < x ∧ x ≤ s'.prevAngle) ∧
      ∀ g : Ghost, g.angle = a → g.best = p → g.bestAngle = g.angle → g.bestBase = g.base →
        (replay g em).angle = s'.prevAngle ∧ (replay g em).best = s'.previousV ∧
        (replay g em).base = g.base ∧ (replay g em).bestBase = g.base ∧
        (replay g em).bestAngle = s'.prevAngle - 3 ∧
        (used.length : Int) = ((replay g em).positives : Int) - g.positives + 1 := by
  intro fuel
  induction fuel with
  | zero => intro a p i tr s' h; simp [tiltCwLoop] at h
  | succ f ih =>
    intro a p i tr s' h
    cases i with
    | nil => simp [tiltCwLoop, tiltCwAction_mk, calculateReward_nil] at h
    | cons v rest =>
      simp only [tiltCwLoop, tiltCwAction_mk, calculateReward_cons, tiltIncrAngle] at h
      by_cases hr : (v : Int) - p > 0
      · simp only [hr, if_true] at h
        obtain ⟨em, used, h1, h2, h3, h4, h5, h6, h7⟩ := ih _ _ _ _ _ h
        refine ⟨[Event.tiltWrite (a + 3), Event.delay trackerNewPositionSettleDelay,
          Event.trackerRead (v : Int)] ++ em, v :: used, ?_, ?_, ?_, ?_, ?_, ?_, ?_⟩
        · rw [h1]; simp
        · rw [List.cons_append, ← h2]
        · rw [samplesOf_append, h3]; rfl
        · rw [h4]; simp only [List.length_cons]; push_cast; ring
        · simp
        · intro x hx
          rcases List.mem_append.mp hx with hx1 | hx1
          · have : x = a + 3 := by simpa using hx1
            omega
          · have := h6 x hx1
            omega
        · intro g g1 g2 g3 g4
          rw [replay_append, replay_pass_pos g _ _ (by rw [g2]; exact hr)]
          obtain ⟨k1, k2, k3, k4, k5, k6⟩ := h7
            { g with angle := a + 3, best := (v : Int), bestAngle := a + 3, bestBase := g.base,
                     positives := g.positives + 1 } rfl rfl rfl rfl
          refine ⟨k1, k2, k3, k4, k5, ?_⟩
          simp only [List.length_cons] at k6 ⊢
          push_cast at k6 ⊢
          omega
      · simp only [hr, if_false, Option.some.injEq] at h
        subst h
        refine ⟨[Event.tiltWrite (a + 3), Event.delay trackerNewPositionSettleDelay,
          Event.trackerRead (v : Int)], [v], ?_, ?_, ?_, ?_, ?_, ?_, ?_⟩
        · simp
        · rfl
        · rfl
        · simp
        · simp
        · intro x hx
          have : x = a + 3 := by simpa using hx
          simp only
          omega
        · intro g g1 g2 g3 g4
          rw [replay_pass_neg g _ _ (by rw [g2]; exact hr)]
          refine ⟨rfl, g2, rfl, g4, ?_, ?_⟩
          · simp only; omega
          · simp

/-- What the counterclockwise tilt loop has done when it returns. -/
theorem tiltCcwLoop_replay : ∀ (fuel : Nat) (c a p : Int) (i : List Nat) (tr : List Event)
    (c' : Int) (s' : State), tiltCcwLoop fuel c ⟨a, p, i, tr⟩ = some (c', s') →
    ∃ (em : List Event) (used : List Nat),
      s'.trace = tr ++ em ∧ i = used ++ s'.input ∧ samplesOf em = used.map Int.ofNat ∧
      s'.prevAngle = a - 3 * (used.length : Int) ∧ 1 ≤ used.length ∧
      c' = c + (used.length : Int) ∧
      (∀ x, Event.tiltWrite x ∈ em → s'.prevAngle ≤ x ∧ x < a) ∧
      ∀ g : Ghost, g.angle = a → g.best = p → g.bestAngle = g.angle → g.bestBase = g.base →
        (replay g em).angle = s'.prevAngle ∧ (replay g em).best = s'.previousV ∧
        (replay g em).base = g.base ∧ (replay g em).bestBase = g.base ∧
        (replay g em).bestAngle = s'.prevAngle + 3 ∧
        (used.length : Int) = ((replay g em).positives : Int) - g.positives + 1 := by
  intro fuel
  induction fuel with
  | zero => intro c a p i tr c' s' h; simp [tiltCcwLoop] at h
  | succ f ih =>
    intro c a p i tr c' s' h
    cases i with
    | nil => simp [tiltCcwLoop, tiltCcwAction_mk, calculateReward_nil] at h
    | cons v rest =>
      simp only [tiltCcwLoop, tiltCcwAction_mk, calculateReward_cons, tiltIncrAngle] at h
      by_cases hr : (v : Int) - p > 0
      · simp only [hr, if_true] at h
        obtain ⟨em, used, h1, h2, h3, h4, h5, hc, h6, h7⟩ := ih _ _ _ _ _ _ _ h
        refine ⟨[Event.tiltWrite (a - 3), Event.delay trackerNewPositionSettleDelay,
          Event.trackerRead (v : Int)] ++ em, v :: used, ?_, ?_, ?_, ?_, ?_, ?_, ?_, ?_⟩
        · rw [h1]; simp
        · rw [List.cons_append, ← h2]
        · rw [samplesOf_append, h3]; rfl
        · rw [h4]; simp only [List.length_cons]; push_cast; ring
        · simp
        · rw [hc]; simp only [List.length_cons]; push_cast; ring
        · intro x hx
          rcases List.mem_append.mp hx with hx1 | hx1
          · have : x = a - 3 := by simpa using hx1
            omega
          · have := h6 x hx1
            omega
        · intro g g1 g2 g3 g4
          rw [replay_append, replay_pass_pos g _ _ (by rw [g2]; exact hr)]
          obtain ⟨k1, k2, k3, k4, k5, k6⟩ := h7
            { g with angle := a - 3, best := (v : Int), bestAngle := a - 3, bestBase := g.base,
                     positives := g.positives + 1 } rfl rfl rfl rfl
          refine ⟨k1, k2, k3, k4, k5, ?_⟩
          simp only [List.length_cons] at k6 ⊢
          push_cast at k6 ⊢
          omega
      · simp only [hr, if_false, Option.some.injEq, Prod.mk.injEq] at h
        obtain ⟨hc, h⟩ := h
        subst h
        refine ⟨[Event.tiltWrite (a - 3), Event.delay trackerNewPositionSettleDelay,
          Event.trackerRead (v : Int)], [v], ?_, ?_, ?_, ?_, ?_, ?_, ?_, ?_⟩
        · simp
        · rfl
        · rfl
        · simp
        · simp
        · rw [← hc]; simp
        · intro x hx
          have : x = a - 3 := by simpa using hx
          simp only
          omega
        · intro g g1 g2 g3 g4
          rw [replay_pass_neg g _ _ (by rw [g2]; exact hr)]
          refine ⟨rfl, g2, rfl, g4, ?_, ?_⟩
          · simp only; omega
          · simp

theorem replay_basePass_pos (g : Ghost) (d v : Int) (h : v - g.best > 0) :
    replay g [Event.baseWrite d, Event.delay baseIncrDelay, Event.baseWrite 90,
      Event.delay trackerNewPositionSettleDelay, Event.trackerRead v] =
      { g with base := g.base + pulseOf (Event.baseWrite d), best := v, bestAngle := g.angle,
               bestBase := g.base + pulseOf (Event.baseWrite d),
               positives := g.positives + 1 } := by
  simp [replay, Ghost.step, h, pulseOf]

theorem replay_basePass_neg (g : Ghost) (d v : Int) (h : ¬ v - g.best > 0) :
    replay g [Event.baseWrite d, Event.delay baseIncrDelay, Event.baseWrite 90,
      Event.delay trackerNewPositionSettleDelay, Event.trackerRead v] =
      { g with base := g.base + pulseOf (Event.baseWrite d) } := by
  simp [replay, Ghost.step, h, pulseOf]

/-- What the clockwise base loop has done when it returns. -/
theorem baseCwLoop_replay : ∀ (fuel : Nat) (a p : Int) (i : List Nat) (tr : List Event)
    (s' : State), baseCwLoop fuel ⟨a, p, i, tr⟩ = some s' →
    ∃ (em : List Event) (used : List Nat),
      s'.trace = tr ++ em ∧ i = used ++ s'.input ∧ samplesOf em = used.map Int.ofNat ∧
      s'.prevAngle = a ∧ 1 ≤ used.length ∧
      (∀ x, Event.tiltWrite x ∉ em) ∧
      ∀ g : Ghost, g.best = p → g.bestAngle = g.angle → g.bestBase = g.base →
        (replay g em).angle = g.angle ∧ (replay g em).best = s'.previousV ∧
        (replay g em).base = g.base + (used.length : Int) ∧
        (replay g em).bestBase = g.base + (used.length : Int) - 1 ∧
        (replay g em).bestAngle = g.angle ∧
        (used.length : Int) = ((replay g em).positives : Int) - g.positives + 1 := by
  intro fuel
  induction fuel with
  | zero => intro a p i tr s' h; simp [baseCwLoop] at h
  | succ f ih =>
    intro a p i tr s' h
    cases i with
    | nil => simp [baseCwLoop, baseCwAction_mk, calculateReward_nil] at h
    | cons v rest =>
      simp only [baseCwLoop, baseCwAction_mk, calculateReward_cons] at h
      have hp : pulseOf (Event.baseWrite 20) = 1 := by decide
      by_cases hr : (v : Int) - p > 0
      · simp only [hr, if_true] at h
        obtain ⟨em, used, h1, h2, h3, h4, h5, h6, h7⟩ := ih _ _ _ _ _ h
        refine ⟨[Event.baseWrite 20, Event.delay baseIncrDelay, Event.baseWrite 90,
          Event.delay trackerNewPositionSettleDelay, Event.trackerRead (v : Int)] ++ em,
          v :: used, ?_, ?_, ?_, h4, ?_, ?_, ?_⟩
        · rw [h1]; simp
        · rw [List.cons_append, ← h2]
        · rw [samplesOf_append, h3]; rfl
        · simp
        · intro x hx
          rcases List.mem_append.mp hx with hx1 | hx1
          · simp at hx1
          · exact h6 x hx1
        · intro g g2 g3 g4
          rw [replay_append, replay_basePass_pos g _ _ (by rw [g2]; exact hr), hp]
          obtain ⟨k1, k2, k3, k4, k5, k6⟩ := h7
            { g with base := g.base + 1, best := (v : Int), bestAngle := g.angle,
                     bestBase := g.base + 1, positives := g.positives + 1 } rfl rfl rfl
          simp only [List.length_cons] at k3 k4 k6 ⊢
          push_cast at k3 k4 k6 ⊢
          refine ⟨k1, k2, by rw [k3]; ring, by rw [k4]; ring, k5, by omega⟩
      · simp only [hr, if_false, Option.some.injEq] at h
        subst h
        refine ⟨[Event.baseWrite 20, Event.delay baseIncrDelay, Event.baseWrite 90,
          Event.delay trackerNewPositionSettleDelay, Event.trackerRead (v : Int)], [v],
          ?_, ?_, ?_, rfl, ?_, ?_, ?_⟩
        · simp
        · rfl
        · rfl
        · simp
        · intro x hx
          simp at hx
        · intro g g2 g3 g4
          rw [replay_basePass_neg g _ _ (by rw [g2]; exact hr), hp]
          refine ⟨rfl, g2, ?_, ?_, g3, ?_⟩
          · simp
          · simp only [List.length_singleton]; rw [g4]; push_cast; ring
          · simp

/-- What the counterclockwise base loop has done when it returns. -/
theorem baseCcwLoop_replay : ∀ (fuel : Nat) (c a p : Int) (i : List Nat) (tr : List Event)
    (c' : Int) (s' : State), baseCcwLoop fuel c ⟨a, p, i, tr⟩ = some (c', s') →
    ∃ (em : List Event) (used : List Nat),
      s'.trace = tr ++ em ∧ i = used ++ s'.input ∧ samplesOf em = used.map Int.ofNat ∧
      s'.prevAngle = a ∧ 1 ≤ used.length ∧ c' = c + (used.length : Int) ∧
      (∀ x, Event.tiltWrite x ∉ em) ∧
      ∀ g : Ghost, g.best = p → g.bestAngle = g.angle → g.bestBase = g.base →
        (replay g em).angle = g.angle ∧ (replay g em).best = s'.previousV ∧
        (replay g em).base = g.base - (used.length : Int) ∧
        (replay g em).bestBase = g.base - (used.length : Int) + 1 ∧
        (replay g em).bestAngle = g.angle ∧
        (used.length : Int) = ((replay g em).positives : Int) - g.positives + 1 := by
  intro fuel
  induction fuel with
  | zero => intro c a p i tr c' s' h; simp [baseCcwLoop] at h
  | succ f ih =>
    intro c a p i tr c' s' h
    cases i with
    | nil => simp [baseCcwLoop, baseCcwAction_mk, calculateReward_nil] at h
    | cons v rest =>
      simp only [baseCcwLoop, baseCcwAction_mk, calculateReward_cons] at h
      have hp : pulseOf (Event.baseWrite 150) = -1 := by decide
      by_cases hr : (v : Int) - p > 0
      · simp only [hr, if_true] at h
        obtain ⟨em, used, h1, h2, h3, h4, h5, hc, h6, h7⟩ := ih _ _ _ _ _ _ _ h
        refine ⟨[Event.baseWrite 150, Event.delay baseIncrDelay, Event.baseWrite 90,
          Event.delay trackerNewPositionSettleDelay, Event.trackerRead (v : Int)] ++ em,
          v :: used, ?_, ?_, ?_, h4, ?_, ?_, ?_, ?_⟩
        · rw [h1]; simp
        · rw [List.cons_append, ← h2]
        · rw [samplesOf_append, h3]; rfl
        · simp
        · rw [hc]; simp only [List.length_cons]; push_cast; ring
        · intro x hx
          rcases List.mem_append.mp hx with hx1 | hx1
          · simp at hx1
          · exact h6 x hx1
        · intro g g2 g3 g4
          rw [replay_append, replay_basePass_pos g _ _ (by rw [g2]; exact hr), hp]
          obtain ⟨k1, k2, k3, k4, k5, k6⟩ := h7
            { g with base := g.base + -1, best := (v : Int), bestAngle := g.angle,
                     bestBase := g.base + -1, positives := g.positives + 1 } rfl rfl rfl
          simp only [List.length_cons] at k3 k4 k6 ⊢
          push_cast at k3 k4 k6 ⊢
          refine ⟨k1, k2, by rw [k3]; ring, by rw [k4]; ring, k5, by omega⟩
      · simp only [hr, if_false, Option.some.injEq, Prod.mk.injEq] at h
        obtain ⟨hc, h⟩ := h
        subst h
        refine ⟨[Event.baseWrite 150, Event.delay baseIncrDelay, Event.baseWrite 90,
          Event.delay trackerNewPositionSettleDelay, Event.trackerRead (v : Int)], [v],
          ?_, ?_, ?_, rfl, ?_, ?_, ?_, ?_⟩
        · simp
        · rfl
        · rfl
        · simp
        · rw [← hc]; simp
        · intro x hx
          simp at hx
        · intro g g2 g3 g4
          rw [replay_basePass_neg g _ _ (by rw [g2]; exact hr), hp]
          refine ⟨rfl, g2, ?_, ?_, g3, ?_⟩
          · simp only [List.length_singleton]; push_cast; ring
          · simp only [List.length_singleton]; rw [g4]; push_cast; ring
          · simp

theorem replay_tiltWrite (g : Ghost) (x : Int) :
    replay g [Event.tiltWrite x] = { g with angle := x } := rfl

/-- What `exploitTiltAngle` has done when it returns. -/
theorem exploitTiltAngle_replay (a p : Int) (i : List Nat) (tr : List Event) (r : Bool)
    (s' : State) (h : exploitTiltAngle ⟨a, p, i, tr⟩ = some (r, s')) :
    ∃ (em : List Event) (used : List Nat),
      s'.trace = tr ++ em ∧ i = used ++ s'.input ∧ samplesOf em = used.map Int.ofNat ∧
      2 ≤ used.length ∧
      (∀ x, Event.tiltWrite x ∈ em →
        a - 3 * (used.length : Int) ≤ x ∧ x ≤ a + 3 * (used.length : Int)) ∧
      (a - 3 * (used.length : Int) ≤ s'.prevAngle ∧
        s'.prevAngle ≤ a + 3 * (used.length : Int)) ∧
      ∀ g : Ghost, g.angle = a → g.best = p → g.bestAngle = g.angle → g.bestBase = g.base →
        (replay g em).angle = s'.prevAngle ∧ (replay g em).best = s'.previousV ∧
        (replay g em).bestAngle = (replay g em).angle ∧
        (replay g em).bestBase = (replay g em).base ∧ (replay g em).base = g.base ∧
        (r = true ↔ g.positives < (replay g em).positives) ∧
        (used.length : Int) ≤ ((replay g em).positives : Int) - g.positives + 2 := by
  cases i with
  | nil => simp [exploitTiltAngle, tiltCwAction_mk, calculateReward_nil] at h
  | cons v rest =>
    simp only [exploitTiltAngle, tiltCwAction_mk, calculateReward_cons, tiltIncrAngle] at h
    by_cases hr : (v : Int) - p > 0
    · simp only [hr, if_true] at h
      cases hl : tiltCwLoop rest.length
          ⟨a + 3, (v : Int), rest,
            tr ++ [Event.tiltWrite (a + 3)] ++
              [Event.delay trackerNewPositionSettleDelay, Event.trackerRead (v : Int)]⟩ with
      | none => rw [hl] at h; simp at h
      | some s2 =>
        rw [hl] at h
        simp only [Option.some.injEq, Prod.mk.injEq] at h
        obtain ⟨hr1, hs⟩ := h
        obtain ⟨em, used, h1, h2, h3, h4, h5, h6, h7⟩ := tiltCwLoop_replay _ _ _ _ _ _ hl
        obtain ⟨a2, p2, i2, tr2⟩ := s2
        simp only at h1 h2 h4 h6 h7
        subst hs hr1
        simp only [backoutTiltCwAction, tiltCcwAction_mk, tiltIncrAngle]
        refine ⟨[Event.tiltWrite (a + 3), Event.delay trackerNewPositionSettleDelay,
          Event.trackerRead (v : Int)] ++ em ++ [Event.tiltWrite (a2 - 3)], v :: used,
          ?_, ?_, ?_, ?_, ?_, ?_, ?_⟩
        · rw [h1]; simp
        · rw [List.cons_append, ← h2]
        · rw [samplesOf_append, samplesOf_append, h3]; simp [samplesOf]
        · simp only [List.length_cons]; omega
        · intro x hx
          simp only [List.length_cons]
          push_cast
          rcases List.mem_append.mp hx with hx1 | hx1
          · rcases List.mem_append.mp hx1 with hx2 | hx2
            · have : x = a + 3 := by simpa using hx2
              omega
            · have := h6 x hx2
              omega
          · have : x = a2 - 3 := by simpa using hx1
            omega
        · simp only [List.length_cons]
          push_cast
          omega
        · intro g g1 g2 g3 g4
          rw [replay_append, replay_append, replay_pass_pos g _ _ (by rw [g2]; exact hr),
            replay_tiltWrite]
          have key := h7 ⟨a + 3, g.base, (v : Int), a + 3, g.base, g.positives + 1⟩
            rfl rfl rfl rfl
          simp only at key
          generalize replay (⟨a + 3, g.base, (v : Int), a + 3, g.base, g.positives + 1⟩ : Ghost)
            em = G at key ⊢
          obtain ⟨k1, k2, k3, k4, k5, k6⟩ := key
          refine ⟨rfl, k2, k5, by rw [k4, k3], k3, ?_, ?_⟩
          · simp only [true_iff]
            push_cast at k6
            omega
          · simp only [List.length_cons]
            push_cast at k6 ⊢
            omega
    · simp only [hr, if_false, backoutTiltCwAction, tiltCcwAction_mk, tiltIncrAngle] at h
      cases hl : tiltCcwLoop rest.length 0
          ⟨a + 3 - 3, p, rest,
            tr ++ [Event.tiltWrite (a + 3)] ++
              [Event.delay trackerNewPositionSettleDelay, Event.trackerRead (v : Int)] ++
              [Event.tiltWrite (a + 3 - 3)]⟩ with
      | none => rw [hl] at h; simp at h
      | some cs =>
        obtain ⟨c, s3⟩ := cs
        rw [hl] at h
        obtain ⟨em, used, h1, h2, h3, h4, h5, hc, h6, h7⟩ :=
          tiltCcwLoop_replay _ _ _ _ _ _ _ _ hl
        obtain ⟨a3, p3, i3, tr3⟩ := s3
        simp only at h1 h2 h4 h6 h7
        simp only [backoutTiltCcwAction, tiltCwAction_mk, tiltIncrAngle] at h
        have hs : s' = ⟨a3 + 3, p3, i3, tr3 ++ [Event.tiltWrite (a3 + 3)]⟩ := by
          split_ifs at h <;>
            (simp only [Option.some.injEq, Prod.mk.injEq] at h; exact h.2.symm)
        have hrv : (r = true ↔ c ≠ 1) := by
          split_ifs at h with hc1 <;>
            (simp only [Option.some.injEq, Prod.mk.injEq] at h
             rw [← h.1]
             simp [hc1])
        subst hs
        refine ⟨[Event.tiltWrite (a + 3), Event.delay trackerNewPositionSettleDelay,
          Event.trackerRead (v : Int)] ++ [Event.tiltWrite (a + 3 - 3)] ++ em ++
          [Event.tiltWrite (a3 + 3)], v :: used, ?_, ?_, ?_, ?_, ?_, ?_, ?_⟩
        · rw [h1]; simp
        · rw [List.cons_append, ← h2]
        · rw [samplesOf_append, samplesOf_append, samplesOf_append, h3]; simp [samplesOf]
        · simp only [List.length_cons]; omega
        · intro x hx
          simp only [List.length_cons]
          push_cast
          rcases List.mem_append.mp hx with hx1 | hx1
          · rcases List.mem_append.mp hx1 with hx2 | hx2
            · rcases List.mem_append.mp hx2 with hx3 | hx3
              · have : x = a + 3 := by simpa using hx3
                omega
              · have : x = a + 3 - 3 := by simpa using hx3
                omega
            · have := h6 x hx2
              omega
          · have : x = a3 + 3 := by simpa using hx1
            omega
        · simp only [List.length_cons]
          push_cast
          omega
        · intro g g1 g2 g3 g4
          rw [replay_append, replay_append, replay_append,
            replay_pass_neg g _ _ (by rw [g2]; exact hr), replay_tiltWrite, replay_tiltWrite]
          have key := h7 ⟨a + 3 - 3, g.base, g.best, g.bestAngle, g.bestBase, g.positives⟩
            rfl g2 (by simp only; rw [g3, g1]; ring) g4
          simp only at key
          generalize replay (⟨a + 3 - 3, g.base, g.best, g.bestAngle, g.bestBase,
            g.positives⟩ : Ghost) em = G at key ⊢
          obtain ⟨k1, k2, k3, k4, k5, k6⟩ := key
          refine ⟨rfl, k2, k5, by rw [k4, k3], k3, ?_, ?_⟩
          · rw [hrv, hc]
            dsimp only
            omega
          · dsimp only
            simp only [List.length_cons]
            push_cast at k6 ⊢
            omega

theorem replay_pulse (g : Ghost) (d : Int) :
    replay g [Event.baseWrite d, Event.delay baseIncrDelay, Event.baseWrite 90] =
      { g with base := g.base + pulseOf (Event.baseWrite d) } := by
  simp [replay, Ghost.step, pulseOf]

/-- What `exploitBaseAngle` has done when it returns. -/
theorem exploitBaseAngle_replay (a p : Int) (i : List Nat) (tr : List Event) (r : Bool)
    (s' : State) (h : exploitBaseAngle ⟨a, p, i, tr⟩ = some (r, s')) :
    ∃ (em : List Event) (used : List Nat),
      s'.trace = tr ++ em ∧ i = used ++ s'.input ∧ samplesOf em = used.map Int.ofNat ∧
      2 ≤ used.length ∧ s'.prevAngle = a ∧ (∀ x, Event.tiltWrite x ∉ em) ∧
      ∀ g : Ghost, g.best = p → g.bestAngle = g.angle → g.bestBase = g.base →
        (replay g em).angle = g.angle ∧ (replay g em).best = s'.previousV ∧
        (replay g em).bestAngle = (replay g em).angle ∧
        (replay g em).bestBase = (replay g em).base ∧
        (r = true ↔ g.positives < (replay g em).positives) ∧
        (used.length : Int) ≤ ((replay g em).positives : Int) - g.positives + 2 := by
  have hp20 : pulseOf (Event.baseWrite 20) = 1 := by decide
  have hp150 : pulseOf (Event.baseWrite 150) = -1 := by decide
  cases i with
  | nil => simp [exploitBaseAngle, baseCwAction_mk, calculateReward_nil] at h
  | cons v rest =>
    simp only [exploitBaseAngle, baseCwAction_mk, calculateReward_cons] at h
    by_cases hr : (v : Int) - p > 0
    · simp only [hr, if_true] at h
      cases hl : baseCwLoop rest.length
          ⟨a, (v : Int), rest,
            tr ++ [Event.baseWrite 20, Event.delay baseIncrDelay, Event.baseWrite 90] ++
              [Event.delay trackerNewPositionSettleDelay, Event.trackerRead (v : Int)]⟩ with
      | none => rw [hl] at h; simp at h
      | some s2 =>
        rw [hl] at h
        simp only [Option.some.injEq, Prod.mk.injEq] at h
        obtain ⟨hr1, hs⟩ := h
        obtain ⟨em, used, h1, h2, h3, h4, h5, h6, h7⟩ := baseCwLoop_replay _ _ _ _ _ _ hl
        obtain ⟨a2, p2, i2, tr2⟩ := s2
        simp only at h1 h2 h4 h6 h7
        subst hs hr1
        simp only [backoutBaseCwAction, baseCcwAction_mk]
        refine ⟨[Event.baseWrite 20, Event.delay baseIncrDelay, Event.baseWrite 90,
          Event.delay trackerNewPositionSettleDelay, Event.trackerRead (v : Int)] ++ em ++
          [Event.baseWrite 150, Event.delay baseIncrDelay, Event.baseWrite 90], v :: used,
          ?_, ?_, ?_, ?_, h4, ?_, ?_⟩
        · rw [h1]; simp
        · rw [List.cons_append, ← h2]
        · rw [samplesOf_append, samplesOf_append, h3]; simp [samplesOf]
        · simp only [List.length_cons]; omega
        · intro x hx
          rcases List.mem_append.mp hx with hx1 | hx1
          · rcases List.mem_append.mp hx1 with hx2 | hx2
            · simp at hx2
            · exact h6 x hx2
          · simp at hx1
        · intro g g2 g3 g4
          rw [replay_append, replay_append, replay_basePass_pos g _ _ (by rw [g2]; exact hr),
            replay_pulse, hp20, hp150]
          have key := h7 ⟨g.angle, g.base + 1, (v : Int), g.angle, g.base + 1, g.positives + 1⟩
            rfl rfl rfl
          simp only at key
          generalize replay (⟨g.angle, g.base + 1, (v : Int), g.angle, g.base + 1,
            g.positives + 1⟩ : Ghost) em = G at key ⊢
          obtain ⟨k1, k2, k3, k4, k5, k6⟩ := key
          dsimp only
          refine ⟨k1, k2, by rw [k5, k1], by rw [k4, k3]; ring, ?_, ?_⟩
          · simp only [true_iff]
            push_cast at k6
            omega
          · simp only [List.length_cons]
            push_cast at k6 ⊢
            omega
    · simp only [hr, if_false, backoutBaseCwAction, baseCcwAction_mk] at h
      cases hl : baseCcwLoop rest.length 0
          ⟨a, p, rest,
            tr ++ [Event.baseWrite 20, Event.delay baseIncrDelay, Event.baseWrite 90] ++
              [Event.delay trackerNewPositionSettleDelay, Event.trackerRead (v : Int)] ++
              [Event.baseWrite 150, Event.delay baseIncrDelay, Event.baseWrite 90]⟩ with
      | none => rw [hl] at h; simp at h
      | some cs =>
        obtain ⟨c, s3⟩ := cs
        rw [hl] at h
        obtain ⟨em, used, h1, h2, h3, h4, h5, hc, h6, h7⟩ :=
          baseCcwLoop_replay _ _ _ _ _ _ _ _ hl
        obtain ⟨a3, p3, i3, tr3⟩ := s3
        simp only at h1 h2 h4 h6 h7
        simp only [backoutBaseCcwAction, baseCwAction_mk] at h
        have hs : s' = ⟨a3, p3, i3,
            tr3 ++ [Event.baseWrite 20, Event.delay baseIncrDelay, Event.baseWrite 90]⟩ := by
          split_ifs at h <;>
            (simp only [Option.some.injEq, Prod.mk.injEq] at h; exact h.2.symm)
        have hrv : (r = true ↔ c ≠ 1) := by
          split_ifs at h with hc1 <;>
            (simp only [Option.some.injEq, Prod.mk.injEq] at h
             rw [← h.1]
             simp [hc1])
        subst hs
        refine ⟨[Event.baseWrite 20, Event.delay baseIncrDelay, Event.baseWrite 90,
          Event.delay trackerNewPositionSettleDelay, Event.trackerRead (v : Int)] ++
          [Event.baseWrite 150, Event.delay baseIncrDelay, Event.baseWrite 90] ++ em ++
          [Event.baseWrite 20, Event.delay baseIncrDelay, Event.baseWrite 90], v :: used,
          ?_, ?_, ?_, ?_, h4, ?_, ?_⟩
        · rw [h1]; simp
        · rw [List.cons_append, ← h2]
        · rw [samplesOf_append, samplesOf_append, samplesOf_append, h3]; simp [samplesOf]
        · simp only [List.length_cons]; omega
        · intro x hx
          rcases List.mem_append.mp hx with hx1 | hx1
          · rcases List.mem_append.mp hx1 with hx2 | hx2
            · rcases List.mem_append.mp hx2 with hx3 | hx3
              · simp at hx3
              · simp at hx3
            · exact h6 x hx2
          · simp at hx1
        · intro g g2 g3 g4
          rw [replay_append, replay_append, replay_append,
            replay_basePass_neg g _ _ (by rw [g2]; exact hr), replay_pulse, replay_pulse,
            hp20, hp150]
          have key := h7 ⟨g.angle, g.base + 1 + -1, g.best, g.bestAngle, g.bestBase,
            g.positives⟩ g2 g3 (by simp only [g4, add_neg_cancel_right])
          simp only at key
          generalize replay (⟨g.angle, g.base + 1 + -1, g.best, g.bestAngle, g.bestBase,
            g.positives⟩ : Ghost) em = G at key ⊢
          obtain ⟨k1, k2, k3, k4, k5, k6⟩ := key
          dsimp only
          refine ⟨k1, k2, by rw [k5, k1], by rw [k4, k3], ?_, ?_⟩
          · rw [hrv, hc]
            omega
          · simp only [List.length_cons]
            push_cast at k6 ⊢
            omega

/-- What the coordinator loop has done when it returns. -/
theorem exploitRLLoop_replay : ∀ (fuel : Nat) (na : Bool) (a p : Int) (i : List Nat)
    (tr : List Event) (r : Bool) (s' : State),
    exploitRLLoop fuel na ⟨a, p, i, tr⟩ = some (r, s') →
    ∃ (em : List Event) (used : List Nat),
      s'.trace = tr ++ em ∧ i = used ++ s'.input ∧ samplesOf em = used.map Int.ofNat ∧
      4 ≤ used.length ∧
      (∀ x, Event.tiltWrite x ∈ em →
        a - 3 * (used.length : Int) ≤ x ∧ x ≤ a + 3 * (used.length : Int)) ∧
      (a - 3 * (used.length : Int) ≤ s'.prevAngle ∧
        s'.prevAngle ≤ a + 3 * (used.length : Int)) ∧
      ∀ g : Ghost, g.angle = a → g.best = p → g.bestAngle = g.angle → g.bestBase = g.base →
        (replay g em).angle = s'.prevAngle ∧ (replay g em).best = s'.previousV ∧
        (replay g em).bestAngle = (replay g em).angle ∧
        (replay g em).bestBase = (replay g em).base ∧
        (r = true ↔ (na = true ∨ g.positives < (replay g em).positives)) ∧
        (used.length : Int) ≤ 5 * (((replay g em).positives : Int) - g.positives) + 4 := by
  intro fuel
  induction fuel with
  | zero => intro na a p i tr r s' h; simp [exploitRLLoop] at h
  | succ f ih =>
    intro na a p i tr r s' h
    simp only [exploitRLLoop] at h
    cases hT : exploitTiltAngle ⟨a, p, i, tr⟩ with
    | none => rw [hT] at h; simp at h
    | some ts =>
      obtain ⟨t, s1⟩ := ts
      obtain ⟨a1, p1, i1, tr1⟩ := s1
      rw [hT] at h
      simp only at h
      cases hB : exploitBaseAngle ⟨a1, p1, i1, tr1⟩ with
      | none => rw [hB] at h; simp at h
      | some bs =>
        obtain ⟨b, s2⟩ := bs
        obtain ⟨a2, p2, i2, tr2⟩ := s2
        rw [hB] at h
        obtain ⟨em1, u1, t1, t2, t3, t4, t5, t6, t7⟩ := exploitTiltAngle_replay _ _ _ _ _ _ hT
        obtain ⟨em2, u2, b1, b2, b3, b4, b5, b6, b7⟩ := exploitBaseAngle_replay _ _ _ _ _ _ hB
        simp only at t1 t2 t5 t6 t7 b1 b2 b5 b7
        cases b with
        | false =>
          simp only [Bool.false_eq_true, if_false, Option.some.injEq, Prod.mk.injEq] at h
          obtain ⟨hr, hs⟩ := h
          subst hs
          refine ⟨em1 ++ em2, u1 ++ u2, ?_, ?_, ?_, ?_, ?_, ?_, ?_⟩
          · rw [b1, t1, List.append_assoc]
          · rw [t2, b2, List.append_assoc]
          · rw [samplesOf_append, t3, b3, List.map_append]
          · rw [List.length_append]; omega
          · intro x hx
            rw [List.length_append]
            push_cast
            rcases List.mem_append.mp hx with hx1 | hx1
            · have := t5 x hx1
              omega
            · exact absurd hx1 (b6 x)
          · rw [List.length_append]
            push_cast
            omega
          · intro g g1 g2 g3 g4
            rw [replay_append]
            obtain ⟨k1, k2, k3, k4, k5, k6, k7⟩ := t7 g g1 g2 g3 g4
            obtain ⟨m1, m2, m3, m4, m5, m6⟩ := b7 (replay g em1) k2 k3 k4
            obtain ⟨n1, n2, _, _⟩ := replay_mono em1 g
            obtain ⟨n3, n4, _, _⟩ := replay_mono em2 (replay g em1)
            refine ⟨by rw [m1, k1, b5], m2, m3, m4, ?_, ?_⟩
            · rw [← hr]
              have hf : ¬ (g.positives < (replay g em1).positives) ↔ t = false := by
                rw [← k6]; simp
              have hb : ¬ ((replay g em1).positives < (replay (replay g em1) em2).positives) := by
                rw [← m5]; simp
              cases t <;> cases na <;> simp at hf ⊢ <;> omega
            · rw [List.length_append]
              push_cast
              omega
        | true =>
          simp only [if_true] at h
          obtain ⟨em3, u3, c1, c2, c3, c4, c5, c6, c7⟩ := ih _ _ _ _ _ _ _ h
          refine ⟨em1 ++ em2 ++ em3, u1 ++ u2 ++ u3, ?_, ?_, ?_, ?_, ?_, ?_, ?_⟩
          · rw [c1, b1, t1, List.append_assoc, List.append_assoc, List.append_assoc]
          · rw [t2, b2, c2, List.append_assoc, List.append_assoc]
          · rw [samplesOf_append, samplesOf_append, t3, b3, c3, List.map_append,
              List.map_append]
          · rw [List.length_append]; omega
          · intro x hx
            rw [List.length_append, List.length_append]
            push_cast
            rcases List.mem_append.mp hx with hx1 | hx1
            · rcases List.mem_append.mp hx1 with hx2 | hx2
              · have := t5 x hx2
                omega
              · exact absurd hx2 (b6 x)
            · have := c5 x hx1
              omega
          · rw [List.length_append, List.length_append]
            push_cast
            omega
          · intro g g1 g2 g3 g4
            rw [replay_append, replay_append]
            obtain ⟨k1, k2, k3, k4, k5, k6, k7⟩ := t7 g g1 g2 g3 g4
            obtain ⟨m1, m2, m3, m4, m5, m6⟩ := b7 (replay g em1) k2 k3 k4
            obtain ⟨n1, n2, _, _⟩ := replay_mono em1 g
            obtain ⟨n3, n4, _, _⟩ := replay_mono em2 (replay g em1)
            obtain ⟨n5, n6, _, _⟩ := replay_mono em3 (replay (replay g em1) em2)
            obtain ⟨q1, q2, q3, q4, q5, q6⟩ := c7 (replay (replay g em1) em2)
              (by rw [m1, k1, b5]) m2 m3 m4
            have hb : (replay g em1).positives < (replay (replay g em1) em2).positives :=
              m5.mp rfl
            refine ⟨q1, q2, q3, q4, ?_, ?_⟩
            · rw [q5]
              constructor
              · intro _; right; omega
              · intro _; left; simp
            · rw [List.length_append, List.length_append]
              push_cast
              omega

/-! ## Position and best reading after exploitation -/

/-- C11. Whenever `exploitTiltAngle`, `exploitBaseAngle` or `exploitRL`
returns, the position of the panel (tilt angle, net base pulses) is the
position the observer recorded at the last update of the best reading, and
that best reading is the final `previousV`; when no reward was positive,
`previousV` was never updated and the panel is where it was at entry. -/
theorem position_is_where_best_was_read (a p : Int) (i : List Nat) (tr : List Event)
    (r : Bool) (s' : State) :
    (exploitTiltAngle ⟨a, p, i, tr⟩ = some (r, s') →
      ∃ em, s'.trace = tr ++ em ∧ ∀ b : Int,
        (replay (Ghost.start a b p) em).best = s'.previousV ∧
        (replay (Ghost.start a b p) em).bestAngle = s'.prevAngle ∧
        (replay (Ghost.start a b p) em).bestBase = b + netBasePulses em ∧
        ((replay (Ghost.start a b p) em).positives = 0 →
          s'.previousV = p ∧ s'.prevAngle = a ∧ netBasePulses em = 0)) ∧
    (exploitBaseAngle ⟨a, p, i, tr⟩ = some (r, s') →
      ∃ em, s'.trace = tr ++ em ∧ ∀ b : Int,
        (replay (Ghost.start a b p) em).best = s'.previousV ∧
        (replay (Ghost.start a b p) em).bestAngle = s'.prevAngle ∧
        (replay (Ghost.start a b p) em).bestBase = b + netBasePulses em ∧
        ((replay (Ghost.start a b p) em).positives = 0 →
          s'.previousV = p ∧ s'.prevAngle = a ∧ netBasePulses em = 0)) ∧
    (exploitRL ⟨a, p, i, tr⟩ = some (r, s') →
      ∃ em, s'.trace = tr ++ em ∧ ∀ b : Int,
        (replay (Ghost.start a b p) em).best = s'.previousV ∧
        (replay (Ghost.start a b p) em).bestAngle = s'.prevAngle ∧
        (replay (Ghost.start a b p) em).bestBase = b + netBasePulses em ∧
        ((replay (Ghost.start a b p) em).positives = 0 →
          s'.previousV = p ∧ s'.prevAngle = a ∧ netBasePulses em = 0)) := by
  refine ⟨?_, ?_, ?_⟩
  · intro h
    obtain ⟨em, used, h1, _, _, _, _, _, h7⟩ := exploitTiltAngle_replay _ _ _ _ _ _ h
    refine ⟨em, h1, fun b => ?_⟩
    obtain ⟨k1, k2, k3, k4, k5, _, _⟩ := h7 (Ghost.start a b p) rfl rfl rfl rfl
    have hb := replay_base em (Ghost.start a b p)
    obtain ⟨_, _, _, n4⟩ := replay_mono em (Ghost.start a b p)
    refine ⟨k2, by rw [k3, k1], by rw [k4, hb]; rfl, ?_⟩
    intro h0
    obtain ⟨d1, d2, d3⟩ := n4 h0
    refine ⟨by rw [← k2, d1]; rfl, by rw [← k1, ← k3, d2]; rfl, ?_⟩
    rw [k4, hb] at d3
    simp only [Ghost.start] at d3
    omega
  · intro h
    obtain ⟨em, used, h1, _, _, _, h5, _, h7⟩ := exploitBaseAngle_replay _ _ _ _ _ _ h
    refine ⟨em, h1, fun b => ?_⟩
    obtain ⟨k1, k2, k3, k4, _, _⟩ := h7 (Ghost.start a b p) rfl rfl rfl
    have hb := replay_base em (Ghost.start a b p)
    obtain ⟨_, _, _, n4⟩ := replay_mono em (Ghost.start a b p)
    refine ⟨k2, by rw [k3, k1, h5]; rfl, by rw [k4, hb]; rfl, ?_⟩
    intro h0
    obtain ⟨d1, d2, d3⟩ := n4 h0
    refine ⟨by rw [← k2, d1]; rfl, h5, ?_⟩
    rw [k4, hb] at d3
    simp only [Ghost.start] at d3
    omega
  · intro h
    obtain ⟨em, used, h1, _, _, _, _, _, h7⟩ := exploitRLLoop_replay _ _ _ _ _ _ _ _ h
    refine ⟨em, h1, fun b => ?_⟩
    obtain ⟨k1, k2, k3, k4, _, _⟩ := h7 (Ghost.start a b p) rfl rfl rfl rfl
    have hb := replay_base em (Ghost.start a b p)
    obtain ⟨_, _, _, n4⟩ := replay_mono em (Ghost.start a b p)
    refine ⟨k2, by rw [k3, k1], by rw [k4, hb]; rfl, ?_⟩
    intro h0
    obtain ⟨d1, d2, d3⟩ := n4 h0
    refine ⟨by rw [← k2, d1]; rfl, by rw [← k1, ← k3, d2]; rfl, ?_⟩
    rw [k4, hb] at d3
    simp only [Ghost.start] at d3
    omega

theorem position_is_where_best_was_read_witness :
    ∃ s', exploitTiltAngle ⟨100, 0, [10, 20, 5], []⟩ = some (true, s') ∧
      ∃ em, s'.trace = [] ++ em ∧ ∀ b : Int,
        (replay (Ghost.start 100 b 0) em).best = s'.previousV ∧
        (replay (Ghost.start 100 b 0) em).bestAngle = s'.prevAngle ∧
        (replay (Ghost.start 100 b 0) em).bestBase = b + netBasePulses em ∧
        ((replay (Ghost.start 100 b 0) em).positives = 0 →
          s'.previousV = 0 ∧ s'.prevAngle = 100 ∧ netBasePulses em = 0) :=
  ⟨_, rfl, (position_is_where_best_was_read 100 0 [10, 20, 5] [] true _).1 rfl⟩


/-- One evaluation of the reward never lowers `previousV`. -/
theorem calculateReward_previousV_le {s u : State} {v : Int}
    (h : calculateReward s = some (v, u)) : s.previousV ≤ u.previousV := by
  obtain ⟨x, rest, _, hr, hu⟩ := calculateReward_some h
  rw [hu]
  dsimp only
  split_ifs with hv
  · omega
  · exact le_refl _

/-- A call of the tilt exploiter never lowers `previousV`. -/
theorem exploitTiltAngle_previousV_le {s u : State} {t : Bool}
    (h : exploitTiltAngle s = some (t, u)) : s.previousV ≤ u.previousV := by
  obtain ⟨a, p, i, tr⟩ := s
  obtain ⟨em, used, _, _, _, _, _, _, h7⟩ := exploitTiltAngle_replay _ _ _ _ _ _ h
  have k2 := (h7 (Ghost.start a 0 p) rfl rfl rfl rfl).2.1
  have := (replay_mono em (Ghost.start a 0 p)).1
  rw [k2] at this
  exact this

/-- A call of the base exploiter never lowers `previousV`. -/
theorem exploitBaseAngle_previousV_le {s u : State} {b : Bool}
    (h : exploitBaseAngle s = some (b, u)) : s.previousV ≤ u.previousV := by
  obtain ⟨a, p, i, tr⟩ := s
  obtain ⟨em, used, _, _, _, _, _, _, h7⟩ := exploitBaseAngle_replay _ _ _ _ _ _ h
  have k2 := (h7 (Ghost.start a 0 p) rfl rfl rfl).2.1
  have := (replay_mono em (Ghost.start a 0 p)).1
  rw [k2] at this
  exact this

/-- A chain of passes never lowers `previousV`. -/
theorem iterations_previousV_le : ∀ (its : List (Bool × Bool)) (s s' : State),
    iterations s its s' → s.previousV ≤ s'.previousV := by
  intro its
  induction its with
  | nil => intro s s' h; simp only [iterations] at h; rw [h]
  | cons it its ih =>
    intro s s' h
    obtain ⟨t, b⟩ := it
    simp only [iterations] at h
    obtain ⟨s1, s2, hT, hB, hrest⟩ := h
    exact le_trans (exploitTiltAngle_previousV_le hT)
      (le_trans (exploitBaseAngle_previousV_le hB) (ih _ _ hrest))

/-- C18. Whenever `exploitRL` returns, `previousV` has never gone down during
the run: along the events of the run (the observer's best reading after any
part of them lies between the entry value and any later one, and ends at the
final `previousV`), along its calls (before and after the tilt exploiter and
the base exploiter of every pass, `previousV` is at least what it was and at
most what it is at return) and at every evaluation of the reward.  The result
is `true` exactly when `previousV` at return is strictly greater than at
entry, and `false` exactly when `previousV`, `prevAngle` and the net base
pulses are all unchanged. -/
theorem exploitRL_true_iff_best_rose (a p : Int) (i : List Nat) (tr : List Event)
    (r : Bool) (s' : State) (h : exploitRL ⟨a, p, i, tr⟩ = some (r, s')) :
    ∃ em, s'.trace = tr ++ em ∧
      (replay (Ghost.start a 0 p) em).best = s'.previousV ∧
      (∀ e1 e2 e3, em = e1 ++ e2 ++ e3 →
        p ≤ (replay (Ghost.start a 0 p) e1).best ∧
        (replay (Ghost.start a 0 p) e1).best ≤ (replay (Ghost.start a 0 p) (e1 ++ e2)).best ∧
        (replay (Ghost.start a 0 p) (e1 ++ e2)).best ≤ s'.previousV) ∧
      (r = true ↔ p < s'.previousV) ∧
      (r = false ↔ (s'.previousV = p ∧ s'.prevAngle = a ∧ netBasePulses em = 0)) ∧
      (∀ (its1 its2 : List (Bool × Bool)) (s1 u1 u2 : State) (t b : Bool),
        iterations ⟨a, p, i, tr⟩ its1 s1 → exploitTiltAngle s1 = some (t, u1) →
        exploitBaseAngle u1 = some (b, u2) → iterations u2 its2 s' →
        p ≤ s1.previousV ∧ s1.previousV ≤ u1.previousV ∧ u1.previousV ≤ u2.previousV ∧
          u2.previousV ≤ s'.previousV) ∧
      (∀ (s u : State) (v : Int), calculateReward s = some (v, u) →
        s.previousV ≤ u.previousV) := by
  obtain ⟨em, used, h1, _, _, _, _, _, h7⟩ := exploitRLLoop_replay _ _ _ _ _ _ _ _ h
  obtain ⟨k1, k2, k3, k4, k5, _⟩ := h7 (Ghost.start a 0 p) rfl rfl rfl rfl
  have hb := replay_base em (Ghost.start a 0 p)
  obtain ⟨n1, n2, n3, n4⟩ := replay_mono em (Ghost.start a 0 p)
  have hp0 : (Ghost.start a 0 p).positives = 0 := rfl
  have hbest : (Ghost.start a 0 p).best = p := rfl
  have hr : r = true ↔ 0 < (replay (Ghost.start a 0 p) em).positives := by
    rw [k5, hp0]; simp
  refine ⟨em, h1, k2, ?_, ?_, ?_, ?_, ?_⟩
  · intro e1 e2 e3 he
    obtain ⟨m1, _, _, _⟩ := replay_mono e1 (Ghost.start a 0 p)
    obtain ⟨m2, _, _, _⟩ := replay_mono e2 (replay (Ghost.start a 0 p) e1)
    obtain ⟨m3, _, _, _⟩ := replay_mono e3 (replay (Ghost.start a 0 p) (e1 ++ e2))
    rw [← replay_append] at m2 m3
    rw [← he, k2] at m3
    exact ⟨m1, m2, m3⟩
  · rw [hr, ← k2]
    constructor
    · intro hpos
      rw [hp0, hbest] at n3
      have : (0 : Int) < ((replay (Ghost.start a 0 p) em).positives : Int) := by
        exact_mod_cast hpos
      omega
    · intro hlt
      by_contra hn
      have h0 : (replay (Ghost.start a 0 p) em).positives = (Ghost.start a 0 p).positives := by
        rw [hp0]; omega
      have := (n4 h0).1
      rw [hbest] at this
      omega
  · have hrf : r = false ↔ (replay (Ghost.start a 0 p) em).positives = 0 := by
      cases r
      · simp only [true_iff]
        by_contra hn
        have : 0 < (replay (Ghost.start a 0 p) em).positives := by omega
        have := hr.mpr this
        simp at this
      · simp only [Bool.true_eq_false, false_iff]
        have := hr.mp rfl
        omega
    rw [hrf]
    constructor
    · intro h0
      obtain ⟨d1, d2, d3⟩ := n4 (by rw [hp0]; exact h0)
      refine ⟨by rw [← k2, d1]; rfl, by rw [← k1, ← k3, d2]; rfl, ?_⟩
      rw [k4, hb] at d3
      simp only [Ghost.start] at d3
      omega
    · intro ⟨e1, _, _⟩
      by_contra hn
      have hpos : (Ghost.start a 0 p).positives < (replay (Ghost.start a 0 p) em).positives := by
        rw [hp0]; omega
      rw [hp0, hbest] at n3
      have : (0 : Int) < ((replay (Ghost.start a 0 p) em).positives : Int) := by
        exact_mod_cast (by omega : 0 < (replay (Ghost.start a 0 p) em).positives)
      rw [k2] at n3
      omega
  · intro its1 its2 s1 u1 u2 t b c1 c2 c3 c4
    exact ⟨iterations_previousV_le _ _ _ c1, exploitTiltAngle_previousV_le c2,
      exploitBaseAngle_previousV_le c3, iterations_previousV_le _ _ _ c4⟩
  · intro s u v c
    exact calculateReward_previousV_le c

theorem exploitRL_true_iff_best_rose_witness :
    ∃ s', exploitRL ⟨100, 50, [60, 70, 65, 70, 70], []⟩ = some (true, s') ∧
      ∃ em, s'.trace = [] ++ em ∧
        (replay (Ghost.start 100 0 50) em).best = s'.previousV ∧
        (∀ e1 e2 e3, em = e1 ++ e2 ++ e3 →
          50 ≤ (replay (Ghost.start 100 0 50) e1).best ∧
          (replay (Ghost.start 100 0 50) e1).best ≤
            (replay (Ghost.start 100 0 50) (e1 ++ e2)).best ∧
          (replay (Ghost.start 100 0 50) (e1 ++ e2)).best ≤ s'.previousV) ∧
        (true = true ↔ 50 < s'.previousV) ∧
        (true = false ↔ (s'.previousV = 50 ∧ s'.prevAngle = 100 ∧ netBasePulses em = 0)) ∧
        (∀ (its1 its2 : List (Bool × Bool)) (s1 u1 u2 : State) (t b : Bool),
          iterations ⟨100, 50, [60, 70, 65, 70, 70], []⟩ its1 s1 →
          exploitTiltAngle s1 = some (t, u1) →
          exploitBaseAngle u1 = some (b, u2) → iterations u2 its2 s' →
          50 ≤ s1.previousV ∧ s1.previousV ≤ u1.previousV ∧ u1.previousV ≤ u2.previousV ∧
            u2.previousV ≤ s'.previousV) ∧
        (∀ (s u : State) (v : Int), calculateReward s = some (v, u) →
          s.previousV ≤ u.previousV) :=
  ⟨_, rfl, exploitRL_true_iff_best_rose 100 50 [60, 70, 65, 70, 70] [] true _ rfl⟩

/-! ## Tilt travel -/

/-- C14, as stated, fails: from `prevAngle = 100`, while the samples keep
rising, `exploitTiltAngle` commands 184 degrees and returns with
`prevAngle = 181`. -/
theorem tiltAngle_leaves_travel_range :
    ∃ s', exploitTiltAngle ⟨100, 0, [1, 2, 3, 4, 5, 6, 7, 8, 9, 10, 11, 12, 13, 14, 15, 16, 17,
        18, 19, 20, 21, 22, 23, 24, 25, 26, 27, 27], []⟩ = some (true, s') ∧
      s'.prevAngle = 181 ∧ ¬ (0 ≤ s'.prevAngle ∧ s'.prevAngle ≤ 180) ∧
      Event.tiltWrite 184 ∈ s'.trace :=
  ⟨_, rfl, rfl, by decide, by decide⟩

theorem sweepAction_writes (a p : Int) (tr : List Event) (vs rest : List Nat)
    (hlen : vs.length = 12) :
    ∃ s' em, sweepAction ⟨a, p, vs ++ rest, tr⟩ = some s' ∧ s'.trace = tr ++ em ∧
      (∀ x, Event.tiltWrite x ∈ em → a - 30 ≤ x ∧ x ≤ a + 30) ∧
      a - 30 ≤ s'.prevAngle ∧ s'.prevAngle ≤ a + 30 := by
  obtain ⟨pre, ang, m, post, hsplit, _, _, h⟩ := sweepAction_first_max a p tr vs rest hlen
  obtain ⟨v0, v1, v2, v3, v4, v5, v6, v7, v8, v9, v10, v11, rfl⟩ := length_twelve vs hlen
  have hang : a - 30 ≤ ang ∧ ang ≤ a + 30 := by
    have hm : (ang, m) ∈ sweepProbes a [v0, v1, v2, v3, v4, v5, v6, v7, v8, v9, v10, v11] := by
      rw [hsplit]; simp
    rw [sweepProbes_twelve] at hm
    simp only [List.cons_append, List.nil_append, List.mem_cons, Prod.mk.injEq,
      List.mem_singleton, List.not_mem_nil, or_false] at hm
    omega
  refine ⟨_, (sweepProbes a [v0, v1, v2, v3, v4, v5, v6, v7, v8, v9, v10, v11]).flatMap
    probeEvents ++ [Event.tiltWrite ang], h, by simp only [List.append_assoc], ?_,
    hang.1, hang.2⟩
  intro x hx
  rw [sweepProbes_twelve] at hx
  simp only [List.flatMap_append, List.flatMap_cons, List.flatMap_nil, probeEvents,
    List.cons_append, List.nil_append, List.append_nil, List.mem_cons, List.mem_append,
    Event.tiltWrite.injEq, List.mem_singleton, List.not_mem_nil, or_false, false_or,
    reduceCtorEq] at hx
  omega

/-- C14, amended. The code does not confine `prevAngle` to 0..180.  A tilt
action moves `prevAngle` by exactly 3 and commands exactly the new value; an
`exploitTiltAngle` call keeps `prevAngle` and every angle it commands within 3
degrees per sample it has taken of the angle at entry, and `sweepAction` keeps
them within 30 degrees of the angle at entry.  So from `prevAngle = 100` an
`exploitTiltAngle` call that takes at most 26 samples stays within 0..180. -/
theorem tiltAngle_within_reach :
    (∀ s : State,
      (tiltCwAction s).prevAngle = s.prevAngle + 3 ∧
      (tiltCwAction s).trace = s.trace ++ [Event.tiltWrite (s.prevAngle + 3)] ∧
      (tiltCcwAction s).prevAngle = s.prevAngle - 3 ∧
      (tiltCcwAction s).trace = s.trace ++ [Event.tiltWrite (s.prevAngle - 3)]) ∧
    (∀ (a p : Int) (i : List Nat) (tr : List Event) (r : Bool) (s' : State),
      exploitTiltAngle ⟨a, p, i, tr⟩ = some (r, s') →
      ∃ (em : List Event) (used : List Nat), s'.trace = tr ++ em ∧ i = used ++ s'.input ∧
        (∀ x, Event.tiltWrite x ∈ em →
          a - 3 * (used.length : Int) ≤ x ∧ x ≤ a + 3 * (used.length : Int)) ∧
        a - 3 * (used.length : Int) ≤ s'.prevAngle ∧
        s'.prevAngle ≤ a + 3 * (used.length : Int)) ∧
    (∀ (a p : Int) (tr : List Event) (vs rest : List Nat), vs.length = 12 →
      ∃ s' em, sweepAction ⟨a, p, vs ++ rest, tr⟩ = some s' ∧ s'.trace = tr ++ em ∧
        (∀ x, Event.tiltWrite x ∈ em → a - 30 ≤ x ∧ x ≤ a + 30) ∧
        a - 30 ≤ s'.prevAngle ∧ s'.prevAngle ≤ a + 30) ∧
    (∀ (p : Int) (i : List Nat) (tr : List Event) (r : Bool) (s' : State),
      exploitTiltAngle ⟨100, p, i, tr⟩ = some (r, s') →
      i.length ≤ s'.input.length + 26 →
      ∃ em, s'.trace = tr ++ em ∧ (∀ x, Event.tiltWrite x ∈ em → 0 ≤ x ∧ x ≤ 180) ∧
        0 ≤ s'.prevAngle ∧ s'.prevAngle ≤ 180) := by
  refine ⟨fun s => ⟨rfl, rfl, rfl, rfl⟩, ?_, sweepAction_writes, ?_⟩
  · intro a p i tr r s' h
    obtain ⟨em, used, h1, h2, _, _, h5, h6, _⟩ := exploitTiltAngle_replay _ _ _ _ _ _ h
    exact ⟨em, used, h1, h2, h5, h6.1, h6.2⟩
  · intro p i tr r s' h hk
    obtain ⟨em, used, h1, h2, _, _, h5, h6, _⟩ := exploitTiltAngle_replay _ _ _ _ _ _ h
    have hu : used.length ≤ 26 := by
      have := congrArg List.length h2
      rw [List.length_append] at this
      omega
    have hu' : (used.length : Int) ≤ 26 := by exact_mod_cast hu
    refine ⟨em, h1, ?_, by omega, by omega⟩
    intro x hx
    have := h5 x hx
    omega

theorem tiltAngle_within_reach_witness :
    exploitTiltAngle ⟨100, 0, [10, 20, 5], []⟩ =
      some (true, ⟨106, 20, [], [Event.tiltWrite 103, Event.delay 1500, Event.trackerRead 10,
        Event.tiltWrite 106, Event.delay 1500, Event.trackerRead 20, Event.tiltWrite 109,
        Event.delay 1500, Event.trackerRead 5, Event.tiltWrite 106]⟩) ∧
    ([10, 20, 5] : List Nat).length ≤ ([] : List Nat).length + 26 ∧
    ∃ em, [Event.tiltWrite 103, Event.delay 1500, Event.trackerRead 10,
        Event.tiltWrite 106, Event.delay 1500, Event.trackerRead 20, Event.tiltWrite 109,
        Event.delay 1500, Event.trackerRead 5, Event.tiltWrite 106] = [] ++ em ∧
      (∀ x, Event.tiltWrite x ∈ em → 0 ≤ x ∧ x ≤ 180) ∧ (0 : Int) ≤ 106 ∧ (106 : Int) ≤ 180 :=
  ⟨by decide, by decide,
    tiltAngle_within_reach.2.2.2 0 [10, 20, 5] [] true _ rfl (by decide)⟩

/-! ## The two exploiters compared -/

/-- The clockwise loops of the two exploiters run in lockstep. -/
theorem cwLoops_agree : ∀ (fuel : Nat) (a a' p : Int) (i : List Nat) (tr tr' : List Event),
    (tiltCwLoop fuel ⟨a, p, i, tr⟩ = none ∧ baseCwLoop fuel ⟨a', p, i, tr'⟩ = none) ∨
    ∃ st sb em, tiltCwLoop fuel ⟨a, p, i, tr⟩ = some st ∧
      baseCwLoop fuel ⟨a', p, i, tr'⟩ = some sb ∧
      st.input = sb.input ∧ st.previousV = sb.previousV ∧ sb.prevAngle = a' ∧
      sb.trace = tr' ++ em ∧ st.prevAngle - a = netBasePulses em * tiltIncrAngle := by
  intro fuel
  induction fuel with
  | zero => intro a a' p i tr tr'; left; exact ⟨rfl, rfl⟩
  | succ f ih =>
    intro a a' p i tr tr'
    cases i with
    | nil =>
      left
      simp [tiltCwLoop, baseCwLoop, tiltCwAction_mk, baseCwAction_mk, calculateReward_nil]
    | cons v rest =>
      simp only [tiltCwLoop, baseCwLoop, tiltCwAction_mk, baseCwAction_mk, calculateReward_cons]
      by_cases hr : (v : Int) - p > 0
      · simp only [hr, if_true]
        rcases ih (a + tiltIncrAngle) a' (v : Int) rest
          (tr ++ [Event.tiltWrite (a + tiltIncrAngle)] ++
            [Event.delay trackerNewPositionSettleDelay, Event.trackerRead (v : Int)])
          (tr' ++ [Event.baseWrite 20, Event.delay baseIncrDelay, Event.baseWrite 90] ++
            [Event.delay trackerNewPositionSettleDelay, Event.trackerRead (v : Int)])
          with ⟨h1, h2⟩ | ⟨st, sb, em, h1, h2, h3, h4, h5, h6, h7⟩
        · left; exact ⟨h1, h2⟩
        · right
          refine ⟨st, sb, [Event.baseWrite 20, Event.delay baseIncrDelay, Event.baseWrite 90] ++
            [Event.delay trackerNewPositionSettleDelay, Event.trackerRead (v : Int)] ++ em,
            h1, h2, h3, h4, h5, by rw [h6]; simp, ?_⟩
          rw [netBasePulses_append, netBasePulses_append, netBasePulses_cw,
            netBasePulses_sample]
          simp only [tiltIncrAngle] at h7 ⊢
          omega
      · simp only [hr, if_false]
        right
        refine ⟨_, _, [Event.baseWrite 20, Event.delay baseIncrDelay, Event.baseWrite 90] ++
            [Event.delay trackerNewPositionSettleDelay, Event.trackerRead (v : Int)],
            rfl, rfl, rfl, rfl, rfl, by simp only [List.append_assoc], ?_⟩
        rw [netBasePulses_append, netBasePulses_cw, netBasePulses_sample]
        simp only [tiltIncrAngle]
        omega

/-- The counterclockwise loops of the two exploiters run in lockstep. -/
theorem ccwLoops_agree : ∀ (fuel : Nat) (c a a' p : Int) (i : List Nat) (tr tr' : List Event),
    (tiltCcwLoop fuel c ⟨a, p, i, tr⟩ = none ∧ baseCcwLoop fuel c ⟨a', p, i, tr'⟩ = none) ∨
    ∃ c' st sb em, tiltCcwLoop fuel c ⟨a, p, i, tr⟩ = some (c', st) ∧
      baseCcwLoop fuel c ⟨a', p, i, tr'⟩ = some (c', sb) ∧
      st.input = sb.input ∧ st.previousV = sb.previousV ∧ sb.prevAngle = a' ∧
      sb.trace = tr' ++ em ∧ st.prevAngle - a = netBasePulses em * tiltIncrAngle := by
  intro fuel
  induction fuel with
  | zero => intro c a a' p i tr tr'; left; exact ⟨rfl, rfl⟩
  | succ f ih =>
    intro c a a' p i tr tr'
    cases i with
    | nil =>
      left
      simp [tiltCcwLoop, baseCcwLoop, tiltCcwAction_mk, baseCcwAction_mk, calculateReward_nil]
    | cons v rest =>
      simp only [tiltCcwLoop, baseCcwLoop, tiltCcwAction_mk, baseCcwAction_mk,
        calculateReward_cons]
      by_cases hr : (v : Int) - p > 0
      · simp only [hr, if_true]
        rcases ih (c + 1) (a - tiltIncrAngle) a' (v : Int) rest
          (tr ++ [Event.tiltWrite (a - tiltIncrAngle)] ++
            [Event.delay trackerNewPositionSettleDelay, Event.trackerRead (v : Int)])
          (tr' ++ [Event.baseWrite 150, Event.delay baseIncrDelay, Event.baseWrite 90] ++
            [Event.delay trackerNewPositionSettleDelay, Event.trackerRead (v : Int)])
          with ⟨h1, h2⟩ | ⟨c', st, sb, em, h1, h2, h3, h4, h5, h6, h7⟩
        · left; exact ⟨h1, h2⟩
        · right
          refine ⟨c', st, sb,
            [Event.baseWrite 150, Event.delay baseIncrDelay, Event.baseWrite 90] ++
            [Event.delay trackerNewPositionSettleDelay, Event.trackerRead (v : Int)] ++ em,
            h1, h2, h3, h4, h5, by rw [h6]; simp, ?_⟩
          rw [netBasePulses_append, netBasePulses_append, netBasePulses_ccw,
            netBasePulses_sample]
          simp only [tiltIncrAngle] at h7 ⊢
          omega
      · simp only [hr, if_false]
        right
        refine ⟨_, _, _, [Event.baseWrite 150, Event.delay baseIncrDelay, Event.baseWrite 90] ++
            [Event.delay trackerNewPositionSettleDelay, Event.trackerRead (v : Int)],
            rfl, rfl, rfl, rfl, rfl, by simp only [List.append_assoc], ?_⟩
        rw [netBasePulses_append, netBasePulses_ccw, netBasePulses_sample]
        simp only [tiltIncrAngle]
        omega

/-- C12. From the same `previousV` and on the same samples, whatever the tilt
angles and traces, `exploitTiltAngle` and `exploitBaseAngle` either both have
no result or return the same boolean, leave the same samples unread and the
same `previousV`; the net base pulses issued by `exploitBaseAngle` times
`tiltIncrAngle` is the change of `prevAngle` made by `exploitTiltAngle`, and
`exploitBaseAngle` leaves `prevAngle` as it was. -/
theorem exploiters_same_policy (a a' p : Int) (i : List Nat) (tr tr' : List Event) :
    (exploitTiltAngle ⟨a, p, i, tr⟩ = none ∧ exploitBaseAngle ⟨a', p, i, tr'⟩ = none) ∨
    ∃ r st sb em, exploitTiltAngle ⟨a, p, i, tr⟩ = some (r, st) ∧
      exploitBaseAngle ⟨a', p, i, tr'⟩ = some (r, sb) ∧
      st.input = sb.input ∧ st.previousV = sb.previousV ∧ sb.prevAngle = a' ∧
      sb.trace = tr' ++ em ∧ st.prevAngle - a = netBasePulses em * tiltIncrAngle := by
  cases i with
  | nil =>
    left
    simp [exploitTiltAngle, exploitBaseAngle, tiltCwAction_mk, baseCwAction_mk,
      calculateReward_nil]
  | cons v rest =>
    simp only [exploitTiltAngle, exploitBaseAngle, tiltCwAction_mk, baseCwAction_mk,
      calculateReward_cons]
    by_cases hr : (v : Int) - p > 0
    · simp only [hr, if_true]
      rcases cwLoops_agree rest.length (a + tiltIncrAngle) a' (v : Int) rest
          (tr ++ [Event.tiltWrite (a + tiltIncrAngle)] ++
            [Event.delay trackerNewPositionSettleDelay, Event.trackerRead (v : Int)])
          (tr' ++ [Event.baseWrite 20, Event.delay baseIncrDelay, Event.baseWrite 90] ++
            [Event.delay trackerNewPositionSettleDelay, Event.trackerRead (v : Int)])
          with ⟨h1, h2⟩ | ⟨st, sb, em, h1, h2, h3, h4, h5, h6, h7⟩
      · left; rw [h1, h2]; exact ⟨rfl, rfl⟩
      · right
        rw [h1, h2]
        obtain ⟨a2, p2, i2, tr2⟩ := st
        obtain ⟨a3, p3, i3, tr3⟩ := sb
        simp only at h3 h4 h5 h6 h7
        refine ⟨true, _, _, [Event.baseWrite 20, Event.delay baseIncrDelay, Event.baseWrite 90] ++
            [Event.delay trackerNewPositionSettleDelay, Event.trackerRead (v : Int)] ++ em ++
            [Event.baseWrite 150, Event.delay baseIncrDelay, Event.baseWrite 90],
            rfl, rfl, h3, h4, h5, ?_, ?_⟩
        · simp only [backoutBaseCwAction, baseCcwAction_mk, h6, List.append_assoc]
        · simp only [backoutTiltCwAction, tiltCcwAction_mk, netBasePulses_append,
            netBasePulses_cw, netBasePulses_ccw, netBasePulses_sample, tiltIncrAngle] at h7 ⊢
          omega
    · simp only [hr, if_false, backoutTiltCwAction, backoutBaseCwAction, tiltCcwAction_mk,
        baseCcwAction_mk]
      rcases ccwLoops_agree rest.length 0 (a + tiltIncrAngle - tiltIncrAngle) a' p rest
          (tr ++ [Event.tiltWrite (a + tiltIncrAngle)] ++
            [Event.delay trackerNewPositionSettleDelay, Event.trackerRead (v : Int)] ++
            [Event.tiltWrite (a + tiltIncrAngle - tiltIncrAngle)])
          (tr' ++ [Event.baseWrite 20, Event.delay baseIncrDelay, Event.baseWrite 90] ++
            [Event.delay trackerNewPositionSettleDelay, Event.trackerRead (v : Int)] ++
            [Event.baseWrite 150, Event.delay baseIncrDelay, Event.baseWrite 90])
          with ⟨h1, h2⟩ | ⟨c', st, sb, em, h1, h2, h3, h4, h5, h6, h7⟩
      · left; rw [h1, h2]; exact ⟨rfl, rfl⟩
      · right
        rw [h1, h2]
        obtain ⟨a2, p2, i2, tr2⟩ := st
        obtain ⟨a3, p3, i3, tr3⟩ := sb
        simp only at h3 h4 h5 h6 h7
        simp only [backoutTiltCcwAction, backoutBaseCcwAction, tiltCwAction_mk, baseCwAction_mk]
        have hnet : a2 + tiltIncrAngle - a = netBasePulses
            ([Event.baseWrite 20, Event.delay baseIncrDelay, Event.baseWrite 90] ++
            [Event.delay trackerNewPositionSettleDelay, Event.trackerRead (v : Int)] ++
            [Event.baseWrite 150, Event.delay baseIncrDelay, Event.baseWrite 90] ++ em ++
            [Event.baseWrite 20, Event.delay baseIncrDelay, Event.baseWrite 90]) *
              tiltIncrAngle := by
          simp only [netBasePulses_append, netBasePulses_cw, netBasePulses_ccw,
            netBasePulses_sample, tiltIncrAngle] at h7 ⊢
          omega
        by_cases hc : c' = 1
        · simp only [hc, if_true]
          exact ⟨false, _, _, _, rfl, rfl, h3, h4, h5,
            by simp only [h6, List.append_assoc], hnet⟩
        · simp only [hc, if_false]
          exact ⟨true, _, _, _, rfl, rfl, h3, h4, h5,
            by simp only [h6, List.append_assoc], hnet⟩

/-! ## Termination on bounded samples -/

theorem tiltCwLoop_returns (M : Nat) (i : List Nat) : ∀ (a p : Int) (tr : List Event),
    (∀ v ∈ i, v ≤ M) → ((M : Int) - p).toNat + 1 ≤ i.length →
    ∃ s', tiltCwLoop i.length ⟨a, p, i, tr⟩ = some s' := by
  induction i with
  | nil => intro a p tr _ h; simp at h
  | cons v rest ih =>
    intro a p tr hb hl
    simp only [List.length_cons, tiltCwLoop, tiltCwAction_mk, calculateReward_cons]
    by_cases hr : (v : Int) - p > 0
    · simp only [hr, if_true]
      have hv : v ≤ M := hb v (by simp)
      refine ih _ _ _ (fun x hx => hb x (by simp [hx])) ?_
      simp only [List.length_cons] at hl
      omega
    · simp only [hr, if_false]
      exact ⟨_, rfl⟩

theorem tiltCcwLoop_returns (M : Nat) (i : List Nat) : ∀ (c a p : Int) (tr : List Event),
    (∀ v ∈ i, v ≤ M) → ((M : Int) - p).toNat + 1 ≤ i.length →
    ∃ r, tiltCcwLoop i.length c ⟨a, p, i, tr⟩ = some r := by
  induction i with
  | nil => intro c a p tr _ h; simp at h
  | cons v rest ih =>
    intro c a p tr hb hl
    simp only [List.length_cons, tiltCcwLoop, tiltCcwAction_mk, calculateReward_cons]
    by_cases hr : (v : Int) - p > 0
    · simp only [hr, if_true]
      have hv : v ≤ M := hb v (by simp)
      refine ih _ _ _ _ (fun x hx => hb x (by simp [hx])) ?_
      simp only [List.length_cons] at hl
      omega
    · simp only [hr, if_false]
      exact ⟨_, rfl⟩

theorem baseCwLoop_returns (M : Nat) (i : List Nat) : ∀ (a p : Int) (tr : List Event),
    (∀ v ∈ i, v ≤ M) → ((M : Int) - p).toNat + 1 ≤ i.length →
    ∃ s', baseCwLoop i.length ⟨a, p, i, tr⟩ = some s' := by
  induction i with
  | nil => intro a p tr _ h; simp at h
  | cons v rest ih =>
    intro a p tr hb hl
    simp only [List.length_cons, baseCwLoop, baseCwAction_mk, calculateReward_cons]
    by_cases hr : (v : Int) - p > 0
    · simp only [hr, if_true]
      have hv : v ≤ M := hb v (by simp)
      refine ih _ _ _ (fun x hx => hb x (by simp [hx])) ?_
      simp only [List.length_cons] at hl
      omega
    · simp only [hr, if_false]
      exact ⟨_, rfl⟩

theorem baseCcwLoop_returns (M : Nat) (i : List Nat) : ∀ (c a p : Int) (tr : List Event),
    (∀ v ∈ i, v ≤ M) → ((M : Int) - p).toNat + 1 ≤ i.length →
    ∃ r, baseCcwLoop i.length c ⟨a, p, i, tr⟩ = some r := by
  induction i with
  | nil => intro c a p tr _ h; simp at h
  | cons v rest ih =>
    intro c a p tr hb hl
    simp only [List.length_cons, baseCcwLoop, baseCcwAction_mk, calculateReward_cons]
    by_cases hr : (v : Int) - p > 0
    · simp only [hr, if_true]
      have hv : v ≤ M := hb v (by simp)
      refine ih _ _ _ _ (fun x hx => hb x (by simp [hx])) ?_
      simp only [List.length_cons] at hl
      omega
    · simp only [hr, if_false]
      exact ⟨_, rfl⟩

/-- With enough samples, none above `M`, `exploitTiltAngle` returns. -/
theorem exploitTiltAngle_returns (M : Nat) (a p : Int) (i : List Nat) (tr : List Event)
    (hb : ∀ v ∈ i, v ≤ M) (hl : ((M : Int) - p).toNat + 2 ≤ i.length) :
    ∃ r s', exploitTiltAngle ⟨a, p, i, tr⟩ = some (r, s') := by
  cases i with
  | nil => simp at hl
  | cons v rest =>
    have hv : v ≤ M := hb v (by simp)
    have hrest : ∀ x ∈ rest, x ≤ M := fun x hx => hb x (by simp [hx])
    simp only [List.length_cons] at hl
    simp only [exploitTiltAngle, tiltCwAction_mk, calculateReward_cons]
    by_cases hr : (v : Int) - p > 0
    · simp only [hr, if_true]
      obtain ⟨s2, h2⟩ := tiltCwLoop_returns M rest (a + tiltIncrAngle) (v : Int)
        (tr ++ [Event.tiltWrite (a + tiltIncrAngle)] ++
          [Event.delay trackerNewPositionSettleDelay, Event.trackerRead (v : Int)])
        hrest (by omega)
      rw [h2]
      exact ⟨_, _, rfl⟩
    · simp only [hr, if_false, backoutTiltCwAction, tiltCcwAction_mk]
      obtain ⟨⟨c, s3⟩, h3⟩ := tiltCcwLoop_returns M rest 0 (a + tiltIncrAngle - tiltIncrAngle) p
        (tr ++ [Event.tiltWrite (a + tiltIncrAngle)] ++
          [Event.delay trackerNewPositionSettleDelay, Event.trackerRead (v : Int)] ++
          [Event.tiltWrite (a + tiltIncrAngle - tiltIncrAngle)])
        hrest (by omega)
      rw [h3]
      simp only
      split_ifs <;> exact ⟨_, _, rfl⟩

/-- With enough samples, none above `M`, `exploitBaseAngle` returns. -/
theorem exploitBaseAngle_returns (M : Nat) (a p : Int) (i : List Nat) (tr : List Event)
    (hb : ∀ v ∈ i, v ≤ M) (hl : ((M : Int) - p).toNat + 2 ≤ i.length) :
    ∃ r s', exploitBaseAngle ⟨a, p, i, tr⟩ = some (r, s') := by
  cases i with
  | nil => simp at hl
  | cons v rest =>
    have hv : v ≤ M := hb v (by simp)
    have hrest : ∀ x ∈ rest, x ≤ M := fun x hx => hb x (by simp [hx])
    simp only [List.length_cons] at hl
    simp only [exploitBaseAngle, baseCwAction_mk, calculateReward_cons]
    by_cases hr : (v : Int) - p > 0
    · simp only [hr, if_true]
      obtain ⟨s2, h2⟩ := baseCwLoop_returns M rest a (v : Int)
        (tr ++ [Event.baseWrite 20, Event.delay baseIncrDelay, Event.baseWrite 90] ++
          [Event.delay trackerNewPositionSettleDelay, Event.trackerRead (v : Int)])
        hrest (by omega)
      rw [h2]
      exact ⟨_, _, rfl⟩
    · simp only [hr, if_false, backoutBaseCwAction, baseCcwAction_mk]
      obtain ⟨⟨c, s3⟩, h3⟩ := baseCcwLoop_returns M rest 0 a p
        (tr ++ [Event.baseWrite 20, Event.delay baseIncrDelay, Event.baseWrite 90] ++
          [Event.delay trackerNewPositionSettleDelay, Event.trackerRead (v : Int)] ++
          [Event.baseWrite 150, Event.delay baseIncrDelay, Event.baseWrite 90])
        hrest (by omega)
      rw [h3]
      simp only
      split_ifs <;> exact ⟨_, _, rfl⟩

/-- The best reading stays below any bound on the entry value and the samples. -/
theorem replay_best_le (es : List Event) : ∀ (g : Ghost) (B : Int), g.best ≤ B →
    (∀ v ∈ samplesOf es, v ≤ B) → (replay g es).best ≤ B := by
  induction es with
  | nil => intro g B h _; exact h
  | cons e es ih =>
    intro g B h hs
    rw [replay_cons]
    cases e with
    | tiltWrite x => exact ih _ B h (by simpa [samplesOf] using hs)
    | baseWrite x => exact ih _ B h (by simpa [samplesOf] using hs)
    | delay ms => exact ih _ B h (by simpa [samplesOf] using hs)
    | trackerRead v =>
      have hv : v ≤ B := hs v (by simp [samplesOf])
      have hs' : ∀ w ∈ samplesOf es, w ≤ B := fun w hw => hs w (by simp [samplesOf, hw])
      refine ih _ B ?_ hs'
      simp only [Ghost.step]
      split_ifs
      · exact hv
      · exact h

/-- Bookkeeping shared by the three cost lemmas below: what the observer says
about a run whose samples `used` are part of an input bounded by `M`. -/
theorem replay_cost (M : Nat) (a p : Int) (i used rest : List Nat) (em : List Event)
    (hb : ∀ v ∈ i, v ≤ M) (hi : i = used ++ rest) (hs : samplesOf em = used.map Int.ofNat) :
    (∀ v ∈ rest, v ≤ M) ∧ i.length = used.length + rest.length ∧
    p ≤ (replay (Ghost.start a 0 p) em).best ∧
    (replay (Ghost.start a 0 p) em).best ≤ max p (M : Int) ∧
    (((replay (Ghost.start a 0 p) em).positives : Int) ≤
      (replay (Ghost.start a 0 p) em).best - p) ∧
    (0 < (replay (Ghost.start a 0 p) em).positives → p < (replay (Ghost.start a 0 p) em).best) := by
  obtain ⟨n1, n2, n3, n4⟩ := replay_mono em (Ghost.start a 0 p)
  have hle := replay_best_le em (Ghost.start a 0 p) (max p (M : Int)) (le_max_left _ _) (by
    intro v hv
    rw [hs] at hv
    obtain ⟨n, hn, rfl⟩ := List.mem_map.mp hv
    have : n ≤ M := hb n (by rw [hi]; simp [hn])
    have : ((n : Nat) : Int) ≤ (M : Int) := by exact_mod_cast this
    exact le_trans this (le_max_right _ _))
  have hp0 : (Ghost.start a 0 p).positives = 0 := rfl
  have hbest : (Ghost.start a 0 p).best = p := rfl
  rw [hp0, hbest] at n3
  rw [hbest] at n1
  refine ⟨fun v hv => hb v (by rw [hi]; simp [hv]), by rw [hi, List.length_append], n1, hle,
    by push_cast at n3; omega, ?_⟩
  intro hpos
  have : (0 : Int) < ((replay (Ghost.start a 0 p) em).positives : Int) := by exact_mod_cast hpos
  push_cast at n3
  omega

/-- Samples taken by a returning `exploitTiltAngle`, against the rise of `previousV`. -/
theorem exploitTiltAngle_cost (M : Nat) (a p : Int) (i : List Nat) (tr : List Event) (r : Bool)
    (s' : State) (hb : ∀ v ∈ i, v ≤ M) (h : exploitTiltAngle ⟨a, p, i, tr⟩ = some (r, s')) :
    (∀ v ∈ s'.input, v ≤ M) ∧ s'.input.length + 2 ≤ i.length ∧
    p ≤ s'.previousV ∧ s'.previousV ≤ max p (M : Int) ∧
    (i.length : Int) ≤ s'.input.length + (s'.previousV - p) + 2 ∧
    (r = true → p < s'.previousV) := by
  obtain ⟨em, used, _, h2, h3, h4, _, _, h7⟩ := exploitTiltAngle_replay _ _ _ _ _ _ h
  obtain ⟨_, k2, _, _, _, k6, k7⟩ := h7 (Ghost.start a 0 p) rfl rfl rfl rfl
  obtain ⟨c1, c2, c3, c4, c5, c6⟩ := replay_cost M a p i used s'.input em hb h2 h3
  have hp0 : (Ghost.start a 0 p).positives = 0 := rfl
  rw [hp0] at k6 k7
  rw [k2] at c3 c4 c5 c6
  refine ⟨c1, by omega, c3, c4, ?_, fun hr => c6 (k6.mp hr)⟩
  push_cast at k7 ⊢
  omega

/-- Samples taken by a returning `exploitBaseAngle`, against the rise of `previousV`. -/
theorem exploitBaseAngle_cost (M : Nat) (a p : Int) (i : List Nat) (tr : List Event) (r : Bool)
    (s' : State) (hb : ∀ v ∈ i, v ≤ M) (h : exploitBaseAngle ⟨a, p, i, tr⟩ = some (r, s')) :
    (∀ v ∈ s'.input, v ≤ M) ∧ s'.input.length + 2 ≤ i.length ∧
    p ≤ s'.previousV ∧ s'.previousV ≤ max p (M : Int) ∧
    (i.length : Int) ≤ s'.input.length + (s'.previousV - p) + 2 ∧
    (r = true → p < s'.previousV) := by
  obtain ⟨em, used, _, h2, h3, h4, _, _, h7⟩ := exploitBaseAngle_replay _ _ _ _ _ _ h
  obtain ⟨_, k2, _, _, k6, k7⟩ := h7 (Ghost.start a 0 p) rfl rfl rfl
  obtain ⟨c1, c2, c3, c4, c5, c6⟩ := replay_cost M a p i used s'.input em hb h2 h3
  have hp0 : (Ghost.start a 0 p).positives = 0 := rfl
  rw [hp0] at k6 k7
  rw [k2] at c3 c4 c5 c6
  refine ⟨c1, by omega, c3, c4, ?_, fun hr => c6 (k6.mp hr)⟩
  push_cast at k7 ⊢
  omega

/-- Samples taken by a returning coordinator loop, against the rise of `previousV`. -/
theorem exploitRLLoop_cost (M : Nat) (fuel : Nat) (na : Bool) (a p : Int) (i : List Nat)
    (tr : List Event) (r : Bool) (s' : State) (hb : ∀ v ∈ i, v ≤ M)
    (h : exploitRLLoop fuel na ⟨a, p, i, tr⟩ = some (r, s')) :
    (∀ v ∈ s'.input, v ≤ M) ∧ s'.input.length + 4 ≤ i.length ∧
    p ≤ s'.previousV ∧ s'.previousV ≤ max p (M : Int) ∧
    (i.length : Int) ≤ s'.input.length + 5 * (s'.previousV - p) + 4 := by
  obtain ⟨em, used, _, h2, h3, h4, _, _, h7⟩ := exploitRLLoop_replay _ _ _ _ _ _ _ _ h
  obtain ⟨_, k2, _, _, _, k7⟩ := h7 (Ghost.start a 0 p) rfl rfl rfl rfl
  obtain ⟨c1, c2, c3, c4, c5, c6⟩ := replay_cost M a p i used s'.input em hb h2 h3
  have hp0 : (Ghost.start a 0 p).positives = 0 := rfl
  rw [hp0] at k7
  rw [k2] at c3 c4 c5
  refine ⟨c1, by omega, c3, c4, ?_⟩
  push_cast at k7 ⊢
  omega

/-- With enough samples, none above `M`, the coordinator loop returns. -/
theorem exploitRLLoop_returns (M : Nat) : ∀ (n : Nat) (na : Bool) (a p : Int) (i : List Nat)
    (tr : List Event), i.length ≤ n → (∀ v ∈ i, v ≤ M) →
    5 * ((M : Int) - p).toNat + 4 ≤ i.length →
    ∃ r s', exploitRLLoop i.length na ⟨a, p, i, tr⟩ = some (r, s') := by
  intro n
  induction n with
  | zero => intro na a p i tr h1 _ h3; omega
  | succ n ih =>
    intro na a p i tr hn hb hl
    obtain ⟨f, hf⟩ : ∃ f, i.length = f + 1 := ⟨i.length - 1, by omega⟩
    rw [hf]
    simp only [exploitRLLoop]
    obtain ⟨t, s1, hT⟩ := exploitTiltAngle_returns M a p i tr hb (by omega)
    obtain ⟨a1, p1, i1, tr1⟩ := s1
    obtain ⟨t1, t2, t3, t4, t5, _⟩ := exploitTiltAngle_cost M a p i tr t _ hb hT
    simp only at t1 t2 t3 t4 t5
    rw [hT]
    simp only
    have hmax : max p (M : Int) = p ∨ max p (M : Int) = (M : Int) := by
      rcases le_total p (M : Int) with h | h
      · right; exact max_eq_right h
      · left; exact max_eq_left h
    have hcase : (p ≤ (M : Int)) ∨ ((M : Int) < p) := le_or_lt _ _
    obtain ⟨b, s2, hB⟩ := exploitBaseAngle_returns M a1 p1 i1 tr1 t1 (by
      rcases hmax with h | h <;> rw [h] at t4 <;> omega)
    obtain ⟨a2, p2, i2, tr2⟩ := s2
    obtain ⟨b1, b2, b3, b4, b5, b6⟩ := exploitBaseAngle_cost M a1 p1 i1 tr1 b _ t1 hB
    simp only at b1 b2 b3 b4 b5 b6
    rw [hB]
    cases b with
    | false => exact ⟨_, _, rfl⟩
    | true =>
      simp only [if_true]
      have hlt := b6 rfl
      have hp2 : p2 ≤ (M : Int) := by
        have hmax1 : max p1 (M : Int) = p1 ∨ max p1 (M : Int) = (M : Int) := by
          rcases le_total p1 (M : Int) with h | h
          · right; exact max_eq_right h
          · left; exact max_eq_left h
        rcases hmax1 with h | h <;> rw [h] at b4 <;> omega
      rw [exploitRLLoop_fuel i2.length f _ ⟨a2, p2, i2, tr2⟩ (le_refl _) (by omega)]
      exact ih _ a2 p2 i2 tr2 (by omega) b1 (by omega)

theorem exploreRL_pos (a p : Int) (v : Nat) (rest : List Nat) (tr : List Event)
    (h : (v : Int) - p > 0) :
    exploreRL ⟨a, p, v :: rest, tr⟩ =
      (exploitRL ⟨a + tiltIncrAngle, (v : Int), rest,
        tr ++ [Event.baseWrite 20, Event.delay 50, Event.baseWrite 90,
          Event.tiltWrite (a + tiltIncrAngle), Event.delay 1500,
          Event.trackerRead (v : Int)]⟩).map Prod.snd := by
  simp only [exploreRL, compositeAction, baseCwAction_mk, tiltCwAction_mk, calculateReward_cons,
    h, if_true, baseIncrDelay, trackerNewPositionSettleDelay, List.append_assoc,
    List.cons_append, List.nil_append]
  cases exploitRL _ <;> rfl

/-- With enough samples, none above `M`, `exploreRL` returns. -/
theorem exploreRL_returns (M : Nat) (a p : Int) (i : List Nat) (tr : List Event)
    (hb : ∀ v ∈ i, v ≤ M) (hl : 5 * ((M : Int) - p).toNat + 17 ≤ i.length) :
    ∃ s', exploreRL ⟨a, p, i, tr⟩ = some s' := by
  cases i with
  | nil => simp at hl
  | cons v rest =>
    have hv : v ≤ M := hb v (by simp)
    have hrest : ∀ x ∈ rest, x ≤ M := fun x hx => hb x (by simp [hx])
    simp only [List.length_cons] at hl
    by_cases hr : (v : Int) - p > 0
    · rw [exploreRL_pos a p v rest tr hr]
      obtain ⟨r, s', h⟩ := exploitRLLoop_returns M rest.length false (a + tiltIncrAngle) (v : Int)
        rest (tr ++ [Event.baseWrite 20, Event.delay 50, Event.baseWrite 90,
          Event.tiltWrite (a + tiltIncrAngle), Event.delay 1500,
          Event.trackerRead (v : Int)]) (le_refl _) hrest (by omega)
      refine ⟨s', ?_⟩
      simp only [exploitRL]
      rw [h]
      rfl
    · rw [exploreRL_nonpos a p v rest tr (by omega)]
      have hsplit : rest = rest.take 12 ++ rest.drop 12 := (List.take_append_drop 12 rest).symm
      have hlen : (rest.take 12).length = 12 := by
        rw [List.length_take]; omega
      rw [hsplit]
      obtain ⟨_, ang, m, _, _, _, _, h⟩ := sweepAction_first_max a p
        (tr ++ [Event.baseWrite 20, Event.delay 50, Event.baseWrite 90,
          Event.tiltWrite (a + tiltIncrAngle), Event.delay 1500, Event.trackerRead (v : Int),
          Event.tiltWrite a, Event.baseWrite 150, Event.delay 50, Event.baseWrite 90])
        (rest.take 12) (rest.drop 12) hlen
      exact ⟨_, h⟩

/-- With enough samples, none above `M`, `executeRL` returns. -/
theorem executeRL_returns (M : Nat) (a p : Int) (i : List Nat) (tr : List Event)
    (hb : ∀ v ∈ i, v ≤ M) (hl : 5 * M + 22 ≤ i.length) :
    ∃ s', executeRL ⟨a, p, i, tr⟩ = some s' := by
  cases i with
  | nil => simp at hl
  | cons v rest =>
    have hv : v ≤ M := hb v (by simp)
    have hrest : ∀ x ∈ rest, x ≤ M := fun x hx => hb x (by simp [hx])
    simp only [List.length_cons] at hl
    simp only [executeRL, analogRead, delay]
    obtain ⟨r, s1, h⟩ := exploitRLLoop_returns M rest.length false a (v : Int) rest
      (tr ++ [Event.delay trackerNewPositionSettleDelay] ++ [Event.trackerRead (v : Int)])
      (le_refl _) hrest (by omega)
    obtain ⟨c1, c2, c3, c4, c5⟩ := exploitRLLoop_cost M _ _ _ _ _ _ _ _ hrest h
    simp only [exploitRL]
    rw [h]
    simp only
    cases r with
    | true => exact ⟨_, rfl⟩
    | false =>
      simp only [Bool.not_false, if_true]
      obtain ⟨a1, p1, i1, tr1⟩ := s1
      simp only at c1 c2 c3 c4 c5
      have hm : max ((v : Nat) : Int) (M : Int) = (M : Int) := max_eq_right (by exact_mod_cast hv)
      rw [hm] at c4
      exact exploreRL_returns M a1 p1 i1 tr1 c1 (by omega)

theorem stream_prefix (M : Nat) (f : Nat → Nat) (hf : ∀ k, f k ≤ M) (n : Nat) :
    (∀ v ∈ (List.range n).map f, v ≤ M) ∧ ((List.range n).map f).length = n := by
  refine ⟨?_, by simp⟩
  intro v hv
  obtain ⟨k, _, rfl⟩ := List.mem_map.mp hv
  exact hf k

/-- C17. On every stream `f` of samples in 0..`M` and from every state,
`exploitTiltAngle`, `exploitBaseAngle`, `exploitRL`, `exploreRL` and
`executeRL` return once the stream has delivered enough samples (a number
bounded in terms of `M` and of `previousV` at entry); the number of positive
rewards in one `exploitRL` run is at most `M` minus `previousV` at its start
(none when `previousV` is already above `M`); and `exploreRL` after a
positive probe is one run of `exploitRL`, with nothing after it. -/
theorem control_loop_terminates (M : Nat) (f : Nat → Nat) (hf : ∀ k, f k ≤ M) (a p : Int)
    (tr : List Event) :
    (∀ n, ((M : Int) - p).toNat + 2 ≤ n →
      ∃ r s', exploitTiltAngle ⟨a, p, (List.range n).map f, tr⟩ = some (r, s')) ∧
    (∀ n, ((M : Int) - p).toNat + 2 ≤ n →
      ∃ r s', exploitBaseAngle ⟨a, p, (List.range n).map f, tr⟩ = some (r, s')) ∧
    (∀ n, 5 * ((M : Int) - p).toNat + 4 ≤ n →
      ∃ r s', exploitRL ⟨a, p, (List.range n).map f, tr⟩ = some (r, s')) ∧
    (∀ n, 5 * ((M : Int) - p).toNat + 17 ≤ n →
      ∃ s', exploreRL ⟨a, p, (List.range n).map f, tr⟩ = some s') ∧
    (∀ n, 5 * M + 22 ≤ n →
      ∃ s', executeRL ⟨a, p, (List.range n).map f, tr⟩ = some s') ∧
    (∀ n r s', exploitRL ⟨a, p, (List.range n).map f, tr⟩ = some (r, s') →
      ∃ em, s'.trace = tr ++ em ∧
        (replay (Ghost.start a 0 p) em).positives ≤ ((M : Int) - p).toNat) ∧
    (∀ (v : Nat) (rest : List Nat), (v : Int) - p > 0 →
      exploreRL ⟨a, p, v :: rest, tr⟩ =
        (exploitRL ⟨a + tiltIncrAngle, (v : Int), rest,
          tr ++ [Event.baseWrite 20, Event.delay 50, Event.baseWrite 90,
            Event.tiltWrite (a + tiltIncrAngle), Event.delay 1500,
            Event.trackerRead (v : Int)]⟩).map Prod.snd) := by
  refine ⟨?_, ?_, ?_, ?_, ?_, ?_, fun v rest h => exploreRL_pos a p v rest tr h⟩
  · intro n hn
    obtain ⟨h1, h2⟩ := stream_prefix M f hf n
    exact exploitTiltAngle_returns M a p _ tr h1 (by rw [h2]; exact hn)
  · intro n hn
    obtain ⟨h1, h2⟩ := stream_prefix M f hf n
    exact exploitBaseAngle_returns M a p _ tr h1 (by rw [h2]; exact hn)
  · intro n hn
    obtain ⟨h1, h2⟩ := stream_prefix M f hf n
    exact exploitRLLoop_returns M _ false a p _ tr (le_refl _) h1 (by rw [h2]; exact hn)
  · intro n hn
    obtain ⟨h1, h2⟩ := stream_prefix M f hf n
    exact exploreRL_returns M a p _ tr h1 (by rw [h2]; exact hn)
  · intro n hn
    obtain ⟨h1, h2⟩ := stream_prefix M f hf n
    exact executeRL_returns M a p _ tr h1 (by rw [h2]; exact hn)
  · intro n r s' h
    obtain ⟨h1, _⟩ := stream_prefix M f hf n
    obtain ⟨em, used, e1, e2, e3, _, _, _, e7⟩ := exploitRLLoop_replay _ _ _ _ _ _ _ _ h
    obtain ⟨_, k2, _, _, _, _⟩ := e7 (Ghost.start a 0 p) rfl rfl rfl rfl
    obtain ⟨_, _, c3, c4, c5, _⟩ := replay_cost M a p _ used s'.input em h1 e2 e3
    refine ⟨em, e1, ?_⟩
    have hmax : max p (M : Int) = p ∨ max p (M : Int) = (M : Int) := by
      rcases le_total p (M : Int) with h | h
      · right; exact max_eq_right h
      · left; exact max_eq_left h
    rcases hmax with h | h <;> rw [h] at c4 <;> omega

theorem control_loop_terminates_witness :
    (∀ k : Nat, (fun j : Nat => j % 4) k ≤ 3) ∧
    (∃ s', executeRL ⟨100, 0, (List.range 37).map (fun j : Nat => j % 4), []⟩ = some s') :=
  ⟨fun k => Nat.lt_succ_iff.mp (Nat.mod_lt k (by decide)),
    (control_loop_terminates 3 (fun j : Nat => j % 4)
      (fun k => Nat.lt_succ_iff.mp (Nat.mod_lt k (by decide))) 100 0 []).2.2.2.2.1 37
      (by decide)⟩

/-! ## Where a cycle ends -/

theorem sweepCwLoop_takes (cur : Int) : ∀ (fuel : Nat) (da maxV : Int) (maxAngle : Option Int)
    (s : State) (r : Int × Option Int × State),
    sweepCwLoop cur fuel da maxV maxAngle s = some r → 0 ≤ da →
    (r.2.2.input.length : Int) + (if da ≤ 30 then (30 - da) / 6 + 1 else 0) ≤
      s.input.length := by
  intro fuel
  induction fuel with
  | zero => intro da maxV maxAngle s r h; simp [sweepCwLoop] at h
  | succ f ih =>
    intro da maxV maxAngle s r h hda
    obtain ⟨a, p, i, tr⟩ := s
    by_cases hd : da ≤ 30
    · cases i with
      | nil => simp [sweepCwLoop, sweepTiltAngleRange, hd, analogRead, delay, tiltServoWrite] at h
      | cons v rest =>
        rw [sweepCwLoop_step _ _ _ _ _ _ _ _ _ _ hd] at h
        have := ih _ _ _ _ _ h (by omega)
        simp only [List.length_cons, hd, if_true] at this ⊢
        push_cast
        split_ifs at this <;> omega
    · rw [sweepCwLoop_exit _ _ _ _ _ _ hd] at h
      simp only [Option.some.injEq] at h
      rw [← h]
      simp [hd]

theorem sweepCcwLoop_takes (cur : Int) : ∀ (fuel : Nat) (da maxV : Int) (maxAngle : Option Int)
    (s : State) (r : Int × Option Int × State),
    sweepCcwLoop cur fuel da maxV maxAngle s = some r → 0 ≤ da →
    (r.2.2.input.length : Int) + (if da ≤ 30 then (30 - da) / 6 + 1 else 0) ≤
      s.input.length := by
  intro fuel
  induction fuel with
  | zero => intro da maxV maxAngle s r h; simp [sweepCcwLoop] at h
  | succ f ih =>
    intro da maxV maxAngle s r h hda
    obtain ⟨a, p, i, tr⟩ := s
    by_cases hd : da ≤ 30
    · cases i with
      | nil => simp [sweepCcwLoop, sweepTiltAngleRange, hd, analogRead, delay, tiltServoWrite] at h
      | cons v rest =>
        rw [sweepCcwLoop_step _ _ _ _ _ _ _ _ _ _ hd] at h
        have := ih _ _ _ _ _ h (by omega)
        simp only [List.length_cons, hd, if_true] at this ⊢
        push_cast
        split_ifs at this <;> omega
    · rw [sweepCcwLoop_exit _ _ _ _ _ _ hd] at h
      simp only [Option.some.injEq] at h
      rw [← h]
      simp [hd]

/-- A returning `sweepAction` found at least twelve samples. -/
theorem sweepAction_twelve_samples {s s' : State} (h : sweepAction s = some s') :
    12 ≤ s.input.length := by
  simp only [sweepAction] at h
  cases h1 : sweepCwLoop s.prevAngle sweepFuel 0 (-1) none s with
  | none => rw [h1] at h; simp at h
  | some r1 =>
    obtain ⟨mv1, ma1, s1⟩ := r1
    rw [h1] at h
    simp only at h
    cases h2 : sweepCcwLoop s.prevAngle sweepFuel 0 mv1 ma1 s1 with
    | none => rw [h2] at h; simp at h
    | some r2 =>
      obtain ⟨mv2, ma2, s2⟩ := r2
      have l1 := sweepCwLoop_takes _ _ _ _ _ _ _ h1 (le_refl _)
      have l2 := sweepCcwLoop_takes _ _ _ _ _ _ _ h2 (le_refl _)
      simp only at l1 l2
      norm_num at l1 l2
      omega

theorem readings_probe (a0 b : Int) (q : Int × Int) (tl : List Event) :
    readings a0 b (probeEvents q ++ tl) = (q.1, b, q.2) :: readings q.1 b tl := rfl

theorem readings_probes (b : Int) (qs : List (Int × Int)) : ∀ (a0 : Int) (tl : List Event),
    readings a0 b (qs.flatMap probeEvents ++ tl) =
      qs.map (fun q => (q.1, b, q.2)) ++
        readings ((qs.map Prod.fst).getLastD a0) b tl := by
  induction qs with
  | nil => intro a0 tl; simp
  | cons q qs ih =>
    intro a0 tl
    rw [List.flatMap_cons, List.append_assoc, readings_probe, ih q.1 tl, List.map_cons,
      List.cons_append]
    congr 2
    cases qs with
    | nil => simp
    | cons q2 qs2 => simp [List.getLastD]

theorem replay_angle (es : List Event) : ∀ (g : Ghost),
    (replay g es).angle = angleAfter g.angle es := by
  induction es with
  | nil => intro g; rfl
  | cons e es ih =>
    intro g
    rw [replay_cons, ih]
    cases e with
    | tiltWrite x => rfl
    | baseWrite x => rfl
    | delay ms => rfl
    | trackerRead v =>
      simp only [Ghost.step, angleAfter]
      split_ifs <;> rfl

theorem angleAfter_append (e1 : List Event) : ∀ (a : Int) (e2 : List Event),
    angleAfter a (e1 ++ e2) = angleAfter (angleAfter a e1) e2 := by
  induction e1 with
  | nil => intro a e2; rfl
  | cons e es ih =>
    intro a e2
    cases e <;> exact ih _ e2

/-- Readings of a sequence of events in two parts. -/
theorem readings_split (a b : Int) (e1 e2 : List Event) :
    readings a b (e1 ++ e2) =
      readings a b e1 ++ readings (angleAfter a e1) (b + netBasePulses e1) e2 := by
  have h := readings_append e1 (Ghost.start a b 0) e2
  rw [replay_angle, replay_base] at h
  exact h

theorem netBasePulses_probes (qs : List (Int × Int)) :
    netBasePulses (qs.flatMap probeEvents) = 0 := by
  induction qs with
  | nil => rfl
  | cons q qs ih =>
    rw [List.flatMap_cons, netBasePulses_append, ih]
    simp [netBasePulses, probeEvents, pulseOf]

/-- Where a returning `exploitRL` leaves the panel: at a position at which it
read the final `previousV`, or, when it read nothing better, where it started. -/
theorem exploitRL_where (a p : Int) (i : List Nat) (tr : List Event) (r : Bool) (s' : State)
    (h : exploitRL ⟨a, p, i, tr⟩ = some (r, s')) :
    ∃ em, s'.trace = tr ++ em ∧ angleAfter a em = s'.prevAngle ∧
      ∀ b : Int, (s'.prevAngle, b + netBasePulses em, s'.previousV) ∈ readings a b em ∨
        (s'.prevAngle = a ∧ netBasePulses em = 0 ∧ s'.previousV = p) := by
  obtain ⟨em, used, h1, _, _, _, _, _, h7⟩ := exploitRLLoop_replay _ _ _ _ _ _ _ _ h
  refine ⟨em, h1, ?_, ?_⟩
  · obtain ⟨k1, _⟩ := h7 (Ghost.start a 0 p) rfl rfl rfl rfl
    rw [replay_angle] at k1
    exact k1
  · intro b
    obtain ⟨k1, k2, k3, k4, _, _⟩ := h7 (Ghost.start a b p) rfl rfl rfl rfl
    have hb := replay_base em (Ghost.start a b p)
    obtain ⟨_, _, _, n4⟩ := replay_mono em (Ghost.start a b p)
    by_cases hpos : (Ghost.start a b p).positives < (replay (Ghost.start a b p) em).positives
    · left
      have := replay_best_mem em (Ghost.start a b p) hpos
      rw [k3, k1, k4, hb, k2] at this
      exact this
    · right
      have h0 : (replay (Ghost.start a b p) em).positives = (Ghost.start a b p).positives := by
        have := (replay_mono em (Ghost.start a b p)).2.1
        omega
      obtain ⟨d1, d2, d3⟩ := n4 h0
      refine ⟨by rw [← k1, ← k3, d2]; rfl, ?_, by rw [← k2, d1]; rfl⟩
      rw [k4, hb] at d3
      simp only [Ghost.start] at d3
      omega

/-- A returning `exploreRL` leaves the panel at a position at which it read the
final `previousV`. -/
theorem exploreRL_where (a p : Int) (i : List Nat) (tr : List Event) (s' : State)
    (h : exploreRL ⟨a, p, i, tr⟩ = some s') :
    ∃ em, s'.trace = tr ++ em ∧
      ∀ b : Int, (s'.prevAngle, b + netBasePulses em, s'.previousV) ∈ readings a b em := by
  cases i with
  | nil =>
    simp [exploreRL, compositeAction, baseCwAction_mk, tiltCwAction_mk, calculateReward_nil] at h
  | cons v rest =>
    by_cases hr : (v : Int) - p > 0
    · rw [exploreRL_pos a p v rest tr hr] at h
      cases he : exploitRL ⟨a + tiltIncrAngle, (v : Int), rest,
          tr ++ [Event.baseWrite 20, Event.delay 50, Event.baseWrite 90,
            Event.tiltWrite (a + tiltIncrAngle), Event.delay 1500,
            Event.trackerRead (v : Int)]⟩ with
      | none => rw [he] at h; simp at h
      | some rs =>
        obtain ⟨r, s2⟩ := rs
        rw [he] at h
        simp only [Option.map_some', Option.some.injEq] at h
        subst h
        obtain ⟨em, h1, _, h3⟩ := exploitRL_where _ _ _ _ _ _ he
        refine ⟨[Event.baseWrite 20, Event.delay 50, Event.baseWrite 90,
            Event.tiltWrite (a + tiltIncrAngle), Event.delay 1500,
            Event.trackerRead (v : Int)] ++ em, by rw [h1, List.append_assoc], ?_⟩
        intro b
        have hn : netBasePulses [Event.baseWrite 20, Event.delay 50, Event.baseWrite 90,
            Event.tiltWrite (a + tiltIncrAngle), Event.delay 1500,
            Event.trackerRead (v : Int)] = 1 := by
          simp [netBasePulses, pulseOf]
        have hread : readings a b [Event.baseWrite 20, Event.delay 50, Event.baseWrite 90,
            Event.tiltWrite (a + tiltIncrAngle), Event.delay 1500,
            Event.trackerRead (v : Int)] = [(a + tiltIncrAngle, b + 1, (v : Int))] := by
          simp [readings, pulseOf]
        have hang : angleAfter a [Event.baseWrite 20, Event.delay 50, Event.baseWrite 90,
            Event.tiltWrite (a + tiltIncrAngle), Event.delay 1500,
            Event.trackerRead (v : Int)] = a + tiltIncrAngle := rfl
        rw [readings_split, netBasePulses_append, hn, hread, hang]
        rcases h3 (b + 1) with h4 | ⟨h4, h5, h6⟩
        · refine List.mem_append_right _ ?_
          have e : b + (1 + netBasePulses em) = b + 1 + netBasePulses em := by ring
          rw [e]
          exact h4
        · refine List.mem_append_left _ ?_
          rw [h4, h5, h6]
          simp
    · rw [exploreRL_nonpos a p v rest tr (by omega)] at h
      have h12 := sweepAction_twelve_samples h
      simp only at h12
      have hsplit : rest = rest.take 12 ++ rest.drop 12 := (List.take_append_drop 12 rest).symm
      have hlen : (rest.take 12).length = 12 := by
        rw [List.length_take]; omega
      obtain ⟨pre, ang, m, post, hq, _, _, hs⟩ := sweepAction_first_max a p
        (tr ++ [Event.baseWrite 20, Event.delay 50, Event.baseWrite 90,
          Event.tiltWrite (a + tiltIncrAngle), Event.delay 1500, Event.trackerRead (v : Int),
          Event.tiltWrite a, Event.baseWrite 150, Event.delay 50, Event.baseWrite 90])
        (rest.take 12) (rest.drop 12) hlen
      rw [← hsplit, h] at hs
      simp only [Option.some.injEq] at hs
      subst hs
      refine ⟨[Event.baseWrite 20, Event.delay 50, Event.baseWrite 90,
          Event.tiltWrite (a + tiltIncrAngle), Event.delay 1500, Event.trackerRead (v : Int),
          Event.tiltWrite a, Event.baseWrite 150, Event.delay 50, Event.baseWrite 90] ++
          ((sweepProbes a (rest.take 12)).flatMap probeEvents ++ [Event.tiltWrite ang]),
        by simp only [List.append_assoc], ?_⟩
      intro b
      have hn : netBasePulses [Event.baseWrite 20, Event.delay 50, Event.baseWrite 90,
          Event.tiltWrite (a + tiltIncrAngle), Event.delay 1500, Event.trackerRead (v : Int),
          Event.tiltWrite a, Event.baseWrite 150, Event.delay 50, Event.baseWrite 90] = 0 := by
        simp [netBasePulses, pulseOf]
      have hang : angleAfter a [Event.baseWrite 20, Event.delay 50, Event.baseWrite 90,
          Event.tiltWrite (a + tiltIncrAngle), Event.delay 1500, Event.trackerRead (v : Int),
          Event.tiltWrite a, Event.baseWrite 150, Event.delay 50, Event.baseWrite 90] = a := rfl
      have hn2 : netBasePulses ((sweepProbes a (rest.take 12)).flatMap probeEvents ++
          [Event.tiltWrite ang]) = 0 := by
        rw [netBasePulses_append, netBasePulses_probes]
        simp [netBasePulses, pulseOf]
      rw [readings_split, netBasePulses_append, hn, hn2, hang, readings_probes]
      refine List.mem_append_right _ (List.mem_append_left _ ?_)
      simp only [add_zero]
      refine List.mem_map.mpr ⟨(ang, m), ?_, rfl⟩
      rw [hq]
      simp

/-- C19. Whenever `executeRL` returns, the position of the panel at return
(tilt angle, net base pulses) is a position at which a sample equal to the
final `previousV` was read during the cycle, whichever path the cycle took. -/
theorem executeRL_ends_where_best_was_read (a p : Int) (i : List Nat) (tr : List Event)
    (s' : State) (h : executeRL ⟨a, p, i, tr⟩ = some s') :
    ∃ em, s'.trace = tr ++ em ∧
      ∀ b : Int, (s'.prevAngle, b + netBasePulses em, s'.previousV) ∈ readings a b em := by
  cases i with
  | nil => simp [executeRL, analogRead, delay] at h
  | cons v rest =>
    simp only [executeRL, analogRead, delay, trackerNewPositionSettleDelay, List.append_assoc,
      List.singleton_append] at h
    cases he : exploitRL ⟨a, (v : Int), rest,
        tr ++ [Event.delay 1500, Event.trackerRead (v : Int)]⟩ with
    | none => rw [he] at h; simp at h
    | some rs =>
      obtain ⟨r, s1⟩ := rs
      obtain ⟨a1, p1, i1, tr1⟩ := s1
      rw [he] at h
      simp only at h
      obtain ⟨em1, h1, h2, h3⟩ := exploitRL_where _ _ _ _ _ _ he
      simp only at h1 h2 h3
      have hn0 : netBasePulses [Event.delay 1500, Event.trackerRead (v : Int)] = 0 := by
        simp [netBasePulses, pulseOf]
      have hang0 : angleAfter a [Event.delay 1500, Event.trackerRead (v : Int)] = a := rfl
      cases r with
      | true =>
        simp only [Bool.not_true, Bool.false_eq_true, if_false, Option.some.injEq] at h
        subst h
        refine ⟨[Event.delay 1500, Event.trackerRead (v : Int)] ++ em1,
          by rw [h1, List.append_assoc], ?_⟩
        intro b
        have hread : readings a b [Event.delay 1500, Event.trackerRead (v : Int)] =
            [(a, b, (v : Int))] := rfl
        rw [readings_split, netBasePulses_append, hn0, hang0, hread]
        simp only [zero_add, add_zero]
        rcases h3 b with h4 | ⟨h4, h5, h6⟩
        · exact List.mem_append_right _ h4
        · refine List.mem_append_left _ ?_
          rw [h4, h5, h6]
          simp
      | false =>
        simp only [Bool.not_false, if_true] at h
        obtain ⟨em2, g1, g2⟩ := exploreRL_where _ _ _ _ _ h
        refine ⟨[Event.delay 1500, Event.trackerRead (v : Int)] ++ em1 ++ em2,
          by rw [g1, h1, List.append_assoc, List.append_assoc, List.append_assoc], ?_⟩
        intro b
        have hnet1 : netBasePulses ([Event.delay 1500, Event.trackerRead (v : Int)] ++ em1) =
            netBasePulses em1 := by
          rw [netBasePulses_append, hn0, zero_add]
        have hnet : netBasePulses ([Event.delay 1500, Event.trackerRead (v : Int)] ++ em1 ++ em2) =
            netBasePulses em1 + netBasePulses em2 := by
          rw [netBasePulses_append, hnet1]
        have hang : angleAfter a ([Event.delay 1500, Event.trackerRead (v : Int)] ++ em1) = a1 := by
          rw [angleAfter_append, hang0, h2]
        rw [readings_split a b ([Event.delay 1500, Event.trackerRead (v : Int)] ++ em1) em2,
          hang, hnet1, hnet]
        refine List.mem_append_right _ ?_
        have := g2 (b + netBasePulses em1)
        rw [add_assoc] at this
        exact this

theorem executeRL_ends_where_best_was_read_witness :
    ∃ s', executeRL ⟨100, 7, [50, 60, 70, 65, 70, 70], []⟩ = some s' ∧
      ∃ em, s'.trace = [] ++ em ∧
        ∀ b : Int, (s'.prevAngle, b + netBasePulses em, s'.previousV) ∈ readings 100 b em :=
  ⟨_, rfl, executeRL_ends_where_best_was_read 100 7 [50, 60, 70, 65, 70, 70] [] _ rfl⟩

/-! ## What a true result of the coordinator says -/

/-- The best reading of the observer is at least every sample it has seen. -/
theorem replay_sample_le (es : List Event) : ∀ (g : Ghost) (v : Int),
    v ∈ samplesOf es → v ≤ (replay g es).best := by
  induction es with
  | nil => intro g v h; simp [samplesOf] at h
  | cons e es ih =>
    intro g v h
    rw [replay_cons]
    cases e with
    | tiltWrite x => exact ih _ v (by simpa [samplesOf] using h)
    | baseWrite x => exact ih _ v (by simpa [samplesOf] using h)
    | delay ms => exact ih _ v (by simpa [samplesOf] using h)
    | trackerRead x =>
      simp only [samplesOf, List.mem_cons] at h
      rcases h with h | h
      · subst h
        have h1 : v ≤ (g.step (Event.trackerRead v)).best := by
          simp only [Ghost.step]
          split_ifs with hv
          · exact le_refl _
          · omega
        exact le_trans h1 (replay_mono es _).1
      · exact ih _ v h

/-- C15, as stated, fails: `exploitRL` returns `true` although the panel ends at
the position it started from.  The tilt goes up one step in the first pass and
down one step in the second, the base one pulse clockwise and then one back,
each move accepted because the reading had risen. -/
theorem exploitRL_true_at_entry_position :
    ∃ s', exploitRL ⟨100, 50, [60, 55, 70, 65, 65, 80, 75, 75, 90, 85, 85, 85, 85, 85], []⟩ =
        some (true, s') ∧
      s'.prevAngle = 100 ∧ netBasePulses s'.trace = netBasePulses [] ∧ s'.previousV = 90 ∧
      ¬ (s'.prevAngle ≠ 100 ∨ netBasePulses s'.trace ≠ netBasePulses []) :=
  ⟨_, rfl, rfl, by decide, rfl, by decide⟩

/-- C15, amended. A `true` result of `exploitRL` does not say that the panel
has left the position it had at entry.  Whenever `exploitRL` returns, the
result is `true` exactly when the run has read a sample greater than
`previousV` at entry; then `previousV` at return is greater than at entry and
the panel rests at a position at which that final `previousV` was read, which
may be the position at entry.  Whenever the position at return (tilt angle,
net base pulses) differs from the position at entry, the result is `true`. -/
theorem exploitRL_true_means_better_reading (a p : Int) (i : List Nat) (tr : List Event)
    (r : Bool) (s' : State) (h : exploitRL ⟨a, p, i, tr⟩ = some (r, s')) :
    ∃ em, s'.trace = tr ++ em ∧
      (r = true ↔ ∃ v ∈ samplesOf em, p < v) ∧
      (r = true → p < s'.previousV ∧
        ∀ b : Int, (s'.prevAngle, b + netBasePulses em, s'.previousV) ∈ readings a b em) ∧
      ((s'.prevAngle ≠ a ∨ netBasePulses em ≠ 0) → r = true) := by
  obtain ⟨em, used, h1, _, _, _, _, _, h7⟩ := exploitRLLoop_replay _ _ _ _ _ _ _ _ h
  have hr : ∀ b : Int, r = true ↔ 0 < (replay (Ghost.start a b p) em).positives := by
    intro b
    obtain ⟨_, _, _, _, k5, _⟩ := h7 (Ghost.start a b p) rfl rfl rfl rfl
    rw [k5]
    simp [Ghost.start]
  have hbest : ∀ b : Int, (replay (Ghost.start a b p) em).best = s'.previousV :=
    fun b => (h7 (Ghost.start a b p) rfl rfl rfl rfl).2.1
  have hrise : r = true → p < s'.previousV := by
    intro hrt
    have hpos := (hr 0).1 hrt
    obtain ⟨_, _, n3, _⟩ := replay_mono em (Ghost.start a 0 p)
    rw [hbest 0] at n3
    simp only [Ghost.start] at n3
    have : (0 : Int) < ((replay (Ghost.start a 0 p) em).positives : Int) := by
      exact_mod_cast hpos
    simp only [Ghost.start] at this
    omega
  have hstay : r = false → s'.previousV = p ∧ s'.prevAngle = a ∧ netBasePulses em = 0 := by
    intro hrf
    have h0 : (replay (Ghost.start a 0 p) em).positives = (Ghost.start a 0 p).positives := by
      have := (hr 0).not.1 (by rw [hrf]; simp)
      simp only [Ghost.start] at this ⊢
      omega
    obtain ⟨k1, k2, k3, k4, _, _⟩ := h7 (Ghost.start a 0 p) rfl rfl rfl rfl
    have hb := replay_base em (Ghost.start a 0 p)
    obtain ⟨d1, d2, d3⟩ := (replay_mono em (Ghost.start a 0 p)).2.2.2 h0
    refine ⟨by rw [← k2, d1]; rfl, by rw [← k1, ← k3, d2]; rfl, ?_⟩
    rw [k4, hb] at d3
    simp only [Ghost.start] at d3
    omega
  refine ⟨em, h1, ?_, ?_, ?_⟩
  · constructor
    · intro hrt
      by_contra hn
      push_neg at hn
      have := replay_best_le em (Ghost.start a 0 p) p (le_refl _) hn
      rw [hbest 0] at this
      have := hrise hrt
      omega
    · rintro ⟨v, hv, hpv⟩
      have := replay_sample_le em (Ghost.start a 0 p) v hv
      rw [hbest 0] at this
      cases r with
      | true => rfl
      | false =>
        have := (hstay rfl).1
        omega
  · intro hrt
    refine ⟨hrise hrt, fun b => ?_⟩
    obtain ⟨k1, k2, k3, k4, _, _⟩ := h7 (Ghost.start a b p) rfl rfl rfl rfl
    have hb := replay_base em (Ghost.start a b p)
    have hpos : (Ghost.start a b p).positives < (replay (Ghost.start a b p) em).positives :=
      (hr b).1 hrt
    have := replay_best_mem em (Ghost.start a b p) hpos
    rw [k3, k1, k4, hb, k2] at this
    exact this
  · intro hm
    cases r with
    | true => rfl
    | false =>
      obtain ⟨_, e2, e3⟩ := hstay rfl
      rcases hm with hm | hm
      · exact absurd e2 hm
      · exact absurd e3 hm

theorem exploitRL_true_means_better_reading_witness :
    ∃ s', exploitRL ⟨100, 50, [60, 55, 70, 65, 65, 80, 75, 75, 90, 85, 85, 85, 85, 85], []⟩ =
        some (true, s') ∧
      ∃ em, s'.trace = [] ++ em ∧
        (true = true ↔ ∃ v ∈ samplesOf em, (50 : Int) < v) ∧
        (true = true → 50 < s'.previousV ∧
          ∀ b : Int, (s'.prevAngle, b + netBasePulses em, s'.previousV) ∈ readings 100 b em) ∧
        ((s'.prevAngle ≠ 100 ∨ netBasePulses em ≠ 0) → true = true) :=
  ⟨_, rfl, exploitRL_true_means_better_reading 100 50
    [60, 55, 70, 65, 65, 80, 75, 75, 90, 85, 85, 85, 85, 85] [] true _ rfl⟩

end SolarPanel
